import Mathlib

/-!
Simple-FAT16: a shallow embedding of `file_reader.c`.

The definitions below follow `src/file_reader.c` and `src/file_reader.h`
function by function.  Conventions of the embedding:

* machine integers are `Nat`/`Int`, every C conversion is an explicit
  reduction (`to_uint16`, `to_uint32`, `to_uint64`, `to_int32`); `int` has
  32 bits and `size_t` has 64;
* a pointer into the cluster buffer is the distance from `read_buf_base`;
* allocation never fails and pointer arguments are never `NULL`, so the
  `ENOMEM` and `EFAULT` returns of the source are not part of the model;
* an access outside an allocated block is the explicit outcome
  `outcome.undefined`;
* loops that the source does not bound take a fuel argument, and `none`
  means that the fuel ran out before the call returned.
-/

namespace Fat16

/-! ## Constants of `file_reader.c` -/

def SIGNATURE : Nat := 0xAA55
def SECTOR_SIZE : Nat := 512
def MAX_SECTORS_PER_CLUSTER : Nat := 64
def FAT16_MIN_CLUSTERS : Nat := 4085
def FAT16_MAX_CLUSTERS : Nat := 65525
def ATTR_READ_ONLY : Nat := 1
def ATTR_HIDDEN : Nat := 2
def ATTR_SYSTEM : Nat := 4
def ATTR_VOLUME_ID : Nat := 8
def ATTR_DIRECTORY : Nat := 16
def ATTR_ARCHIVE : Nat := 32
def DIR_FREE : Nat := 0xE5
def DIR_EOF : Nat := 0x00
def NAME_LEN : Nat := 8
def EXT_LEN : Nat := 3
def SEEK_SET : Int := 0
def SEEK_CUR : Int := 1
def SEEK_END : Int := 2

/-- The macro `IS_POWER_TWO(x)`, `(!((x) & ((x) - 1)) && (x))`, on an unsigned byte.
For `x = 0` the source computes `0 & -1 = 0`, and so does `0 &&& (0 - 1)` here. -/
def IS_POWER_TWO (x : Nat) : Bool := (x &&& (x - 1) == 0) && (x != 0)

/-! ## Machine integers -/

/-- Conversion to `uint16_t`. -/
def to_uint16 (x : Int) : Nat := (x % 65536).toNat

/-- Conversion to `uint32_t`. -/
def to_uint32 (x : Int) : Nat := (x % 4294967296).toNat

/-- Conversion to `size_t` / `uint64_t`. -/
def to_uint64 (x : Int) : Nat := (x % 18446744073709551616).toNat

/-- Conversion to `int32_t` (two's complement; also the value of an `int`
product that leaves the range, which compilers wrap). -/
def to_int32 (x : Int) : Int :=
  if to_uint32 x < 2147483648 then (to_uint32 x : Int) else (to_uint32 x : Int) - 4294967296

/-- The value `(size_t) -1`. -/
def SIZE_MAX : Nat := 18446744073709551615

/-- The `errno` values the source sets. -/
inductive errno where
  | EFAULT | ENOENT | ENOMEM | ERANGE | ENXIO | EINVAL | EISDIR | EIO
  deriving DecidableEq, Repr

/-- What a call does: it returns a value, or it touches memory outside an
allocated block (undefined behaviour in C). -/
inductive outcome (α : Type) where
  | returned (a : α) : outcome α
  | undefined : outcome α

/-! ## Sector device -/

/-- The struct `disk_t`: `file` gives the byte at each position of the
backing image, `sectors_count` is `ftell / SECTOR_SIZE`. -/
structure disk_t where
  file : Nat → Nat
  sectors_count : Nat

/-- The bytes `[pos, pos + len)` of the backing image. -/
def image_bytes (pdisk : disk_t) (pos len : Nat) : List Nat :=
  (List.range' pos len).map (fun i => pdisk.file i % 256)

/-- The function `disk_read`; the arguments are `int32_t`.  On success the
result is the content written to `buffer`. -/
def disk_read (pdisk : disk_t) (first_sector sectors_to_read : Int) : Except errno (List Nat) :=
  if first_sector < 0 ∨ sectors_to_read < 0 ∨
      to_uint32 ((to_uint32 first_sector : Int) + to_uint32 sectors_to_read) > pdisk.sectors_count then
    .error .ERANGE
  else
    -- `fseek(pdisk->file, first_sector * SECTOR_SIZE, SEEK_SET)`: an `int` product
    let pos := to_int32 (first_sector * SECTOR_SIZE)
    if pos < 0 then .error .EINVAL
    else .ok (image_bytes pdisk pos.toNat (sectors_to_read.toNat * SECTOR_SIZE))

/-! ## Volume -/

/-- A 16-bit field of a packed struct read from raw bytes on a host of the
given byte order. -/
def rd16 (big_endian : Bool) (b : List Nat) (off : Nat) : Nat :=
  if big_endian then b.getD off 0 * 256 + b.getD (off + 1) 0
  else b.getD off 0 + 256 * b.getD (off + 1) 0

/-- A 32-bit field of a packed struct read from raw bytes. -/
def rd32 (big_endian : Bool) (b : List Nat) (off : Nat) : Nat :=
  if big_endian then
    b.getD off 0 * 16777216 + b.getD (off + 1) 0 * 65536 + b.getD (off + 2) 0 * 256 + b.getD (off + 3) 0
  else
    b.getD off 0 + 256 * b.getD (off + 1) 0 + 65536 * b.getD (off + 2) 0 + 16777216 * b.getD (off + 3) 0

/-- The fields of the struct `boot_sector_t` that `fat_open` reads. -/
structure boot_sector_t where
  bytes_per_sector : Nat
  sectors_per_cluster : Nat
  reserved_sectors_count : Nat
  number_of_fats : Nat
  root_entries_count : Nat
  total_sectors_count : Nat
  fat_size : Nat
  total_sectors_count32 : Nat
  signature : Nat
  deriving DecidableEq, Repr

/-- The packed layout of the struct `boot_sector_t` over the 512 bytes of a sector. -/
def boot_sector_of_bytes (big_endian : Bool) (b : List Nat) : boot_sector_t :=
  { bytes_per_sector := rd16 big_endian b 11
    sectors_per_cluster := b.getD 13 0
    reserved_sectors_count := rd16 big_endian b 14
    number_of_fats := b.getD 16 0
    root_entries_count := rd16 big_endian b 17
    total_sectors_count := rd16 big_endian b 19
    fat_size := rd16 big_endian b 22
    total_sectors_count32 := rd32 big_endian b 32
    signature := rd16 big_endian b 510 }

/-- The struct `volume_t`; `fat` is the block of `uint16_t` entries that
`volume->fat` points to. -/
structure volume_t where
  disk : disk_t
  bytes_per_sector : Nat
  total_sectors_count : Nat
  sectors_per_cluster : Nat
  bytes_per_cluster : Nat
  boot_sectors_count : Nat
  fat_sectors_count : Nat
  root_sectors_count : Nat
  data_sectors_count : Nat
  first_data_sector : Nat
  root_entries_count : Nat
  fat : List Nat
  fat_size : Nat

/-- The function `is_little_endian`: it returns 0 when the first byte of
the `int` 1 is 1, that is on a little-endian host, and 1 on a big-endian host. -/
def is_little_endian (big_endian : Bool) : Nat := if big_endian then 1 else 0

/-- The function `to_little_endian`: `(x << 8) | (x >> 8)` as `uint16_t`. -/
def to_little_endian (x : Nat) : Nat := to_uint16 (((x * 256) ||| (x / 256) : Nat) : Int)

/-- The bytes of a block seen as `uint16_t` entries on the host. -/
def words_of_bytes (big_endian : Bool) : List Nat → List Nat
  | b0 :: b1 :: rest => (if big_endian then b0 * 256 + b1 else b0 + 256 * b1) :: words_of_bytes big_endian rest
  | _ => []

/-- The loop `for (i = 0; i < number_of_fats - 1; i++) memcmp(fats + i * fat_bytes,
(uint8_t *) fats + (i + 1) * fat_bytes, fat_bytes)` with `count` iterations left.
`fats` is a `uint16_t *`, so the first operand starts `2 * (i * fat_bytes)` bytes
into the block; both products are `uint32_t`. -/
def fat_mirror_check (fats : List Nat) (fat_bytes : Nat) : Nat → Nat → outcome (Except errno Unit)
  | 0, _ => .returned (.ok ())
  | count + 1, i =>
    let a := 2 * to_uint32 ((i : Int) * fat_bytes)
    let b := to_uint32 (((i : Int) + 1) * fat_bytes)
    if a + fat_bytes > fats.length ∨ b + fat_bytes > fats.length then .undefined
    else if (fats.drop a).take fat_bytes ≠ (fats.drop b).take fat_bytes then .returned (.error .EINVAL)
    else fat_mirror_check fats fat_bytes count (i + 1)

/-- The loop `for (i = 0; i < fat_bytes; i++) *(volume->fat + i) =
to_little_endian(*(volume->fat + i))` with `count` iterations left; the block
`volume->fat` holds `fat.length` entries. -/
def fat_swap_loop : Nat → Nat → List Nat → outcome (List Nat)
  | 0, _, fat => .returned fat
  | count + 1, i, fat =>
    if i < fat.length then fat_swap_loop count (i + 1) (fat.set i (to_little_endian (fat.getD i 0)))
    else .undefined

/-- Lines 366-416 of `fat_open`: the FAT copies are read and compared, the
first one is kept, and the last fields of `volume` are set. -/
def fat_open_tables (big_endian : Bool) (pdisk : disk_t) (boot_sector : boot_sector_t)
    (volume : volume_t) : outcome (Except errno volume_t) :=
  let fat_bytes := boot_sector.fat_size * SECTOR_SIZE
  match disk_read pdisk boot_sector.reserved_sectors_count
      ((boot_sector.fat_size * boot_sector.number_of_fats : Nat) : Int) with
  | .error e => .returned (.error e)
  | .ok fats =>
    match fat_mirror_check fats fat_bytes (boot_sector.number_of_fats - 1) 0 with
    | .undefined => .undefined
    | .returned (.error e) => .returned (.error e)
    | .returned (.ok ()) =>
      match (if is_little_endian big_endian ≠ 0 then
               fat_swap_loop fat_bytes 0 (words_of_bytes big_endian (fats.take fat_bytes))
             else .returned (words_of_bytes big_endian (fats.take fat_bytes))) with
      | .undefined => .undefined
      | .returned fat =>
        .returned (.ok
          { volume with
            fat := fat
            disk := pdisk
            fat_size := to_uint16 ((fat_bytes / 2 : Nat) : Int)
            first_data_sector :=
              to_uint32
                ((volume.boot_sectors_count + volume.fat_sectors_count + volume.root_sectors_count : Nat) : Int) })

/-- Lines 352-365 of `fat_open`: the data sector count and the FAT16 test on
the cluster count. -/
def fat_open_clusters (big_endian : Bool) (pdisk : disk_t) (boot_sector : boot_sector_t)
    (volume : volume_t) : outcome (Except errno volume_t) :=
  let data_sectors_count :=
    to_uint32 ((volume.total_sectors_count : Int) -
      to_uint32 ((volume.boot_sectors_count + volume.fat_sectors_count + volume.root_sectors_count : Nat) : Int))
  let cluster_count := data_sectors_count / boot_sector.sectors_per_cluster
  if cluster_count < FAT16_MIN_CLUSTERS ∨ cluster_count > FAT16_MAX_CLUSTERS then
    .returned (.error .EINVAL)
  else
    fat_open_tables big_endian pdisk boot_sector { volume with data_sectors_count := data_sectors_count }

/-- Lines 305-350 of `fat_open`: the checks of the boot sector fields, which
fill `volume` as they go.  The fields of `volume` that the source has not
written yet are zero. -/
def fat_open_fields (big_endian : Bool) (pdisk : disk_t) (boot_sector : boot_sector_t) :
    outcome (Except errno volume_t) :=
  if boot_sector.signature ≠ SIGNATURE then .returned (.error .EINVAL)
  else if boot_sector.bytes_per_sector ≠ SECTOR_SIZE then .returned (.error .EINVAL)
  else if !(IS_POWER_TWO boot_sector.sectors_per_cluster) ∨
      boot_sector.sectors_per_cluster > MAX_SECTORS_PER_CLUSTER then .returned (.error .EINVAL)
  else if boot_sector.number_of_fats = 0 then .returned (.error .EINVAL)
  else if boot_sector.fat_size = 0 then .returned (.error .EINVAL)
  else if boot_sector.reserved_sectors_count = 0 then .returned (.error .EINVAL)
  else if boot_sector.total_sectors_count = 0 ∧ boot_sector.total_sectors_count32 = 0 then
    .returned (.error .EINVAL)
  else
    fat_open_clusters big_endian pdisk boot_sector
      { disk := pdisk
        bytes_per_sector := SECTOR_SIZE
        total_sectors_count :=
          if boot_sector.total_sectors_count = 0 then boot_sector.total_sectors_count32
          else boot_sector.total_sectors_count
        sectors_per_cluster := boot_sector.sectors_per_cluster
        bytes_per_cluster := boot_sector.sectors_per_cluster * SECTOR_SIZE
        boot_sectors_count := boot_sector.reserved_sectors_count
        fat_sectors_count := to_uint16 ((boot_sector.number_of_fats * boot_sector.fat_size : Nat) : Int)
        root_sectors_count :=
          to_uint32
            (((boot_sector.root_entries_count * 32 + (boot_sector.bytes_per_sector - 1)) / SECTOR_SIZE : Nat) : Int)
        data_sectors_count := 0
        first_data_sector := 0
        root_entries_count := boot_sector.root_entries_count
        fat := []
        fat_size := 0 }

/-- The function `fat_open` on a host of the given byte order: the boot
sector is read (lines 298-303) and the three blocks above follow. -/
def fat_open (big_endian : Bool) (pdisk : disk_t) (first_sector : Nat) : outcome (Except errno volume_t) :=
  match disk_read pdisk (to_int32 first_sector) 1 with
  | .error e => .returned (.error e)
  | .ok sector => fat_open_fields big_endian pdisk (boot_sector_of_bytes big_endian sector)

/-! ## Directory entries and names -/

/-- The fields of the packed struct `SFN` that the source reads. -/
structure SFN where
  filename : List Nat
  file_attributes : Nat
  low_order_address_of_first_cluster : Nat
  size : Nat
  deriving DecidableEq, Repr

/-- The packed layout of the struct `SFN` (32 bytes): the entry number `i` of a
block of directory entries. -/
def sfn_of_bytes (big_endian : Bool) (b : List Nat) (i : Nat) : SFN :=
  { filename := (b.drop (32 * i)).take 11
    file_attributes := b.getD (32 * i + 11) 0
    low_order_address_of_first_cluster := rd16 big_endian b (32 * i + 26)
    size := rd32 big_endian b (32 * i + 28) }

/-- The two copy loops of `full_file_name`: the bytes before the first space. -/
def copy_until_space : List Nat → List Nat
  | [] => []
  | c :: rest => if c = 32 then [] else c :: copy_until_space rest

/-- The function `full_file_name`: the bytes it writes to `buf`, the final
`'\0'` included. -/
def full_file_name (entry : SFN) : List Nat :=
  let stem := copy_until_space (entry.filename.take NAME_LEN)
  let ext :=
    if entry.filename.getD NAME_LEN 0 ≠ 32 then
      46 :: copy_until_space ((entry.filename.drop NAME_LEN).take EXT_LEN)
    else []
  stem ++ ext ++ [0]

/-- The characters of a C string: the bytes before the first `'\0'`. -/
def c_string : List Nat → List Nat
  | [] => []
  | c :: rest => if c = 0 then [] else c :: c_string rest

/-- The function `tolower` of the C locale on an `unsigned char`. -/
def tolower (c : Nat) : Nat := if 65 ≤ c ∧ c ≤ 90 then c + 32 else c

/-- The loop of `strcasecmp` over the characters of two C strings. -/
def strcasecmp_chars : List Nat → List Nat → Int
  | [], [] => 0
  | [], c2 :: _ => (tolower 0 : Int) - tolower c2
  | c1 :: _, [] => (tolower c1 : Int) - tolower 0
  | c1 :: r1, c2 :: r2 =>
    if (tolower c1 : Int) - tolower c2 = 0 then strcasecmp_chars r1 r2
    else (tolower c1 : Int) - tolower c2

/-- The function `strcasecmp` of `file_reader.c` on two `'\0'`-terminated buffers. -/
def strcasecmp (s1 s2 : List Nat) : Int := strcasecmp_chars (c_string s1) (c_string s2)

/-! ## Cluster chains -/

/-- The struct `cluster_chain_t`. -/
structure cluster_chain_t where
  clusters : List Nat
  size : Nat
  deriving DecidableEq, Repr

/-- The `while (next_cluster < 0xFFF8)` loop of `read_chain`; `volume->fat + n`
is read without a bound check. -/
def read_chain_loop (fat : List Nat) : Nat → cluster_chain_t → Nat → Option (outcome cluster_chain_t)
  | 0, chain, next_cluster => if next_cluster < 0xFFF8 then none else some (.returned chain)
  | fuel + 1, chain, next_cluster =>
    if next_cluster < 0xFFF8 then
      match fat[next_cluster]? with
      | none => some .undefined
      | some next =>
        read_chain_loop fat fuel
          { clusters := chain.clusters ++ [next_cluster], size := to_uint32 ((chain.size : Int) + 1) } next
    else some (.returned chain)

/-- The function `read_chain`. -/
def read_chain (fuel : Nat) (pvolume : volume_t) (dir_entry : SFN) : Option (outcome cluster_chain_t) :=
  match pvolume.fat[dir_entry.low_order_address_of_first_cluster]? with
  | none => some .undefined
  | some next_cluster =>
    read_chain_loop pvolume.fat fuel
      { clusters := [dir_entry.low_order_address_of_first_cluster], size := 1 } next_cluster

/-! ## File handles -/

/-- The struct `file_t`.  `read_buf` is the content of the block at
`read_buf_base`; `read_buf_cur` and `read_buf_end` are distances from
`read_buf_base`. -/
structure file_t where
  volume : volume_t
  read_buf : List Nat
  read_buf_cur : Nat
  read_buf_end : Nat
  chain : cluster_chain_t
  offset : Nat
  size : Nat

/-- The `for` loop of `file_open` over the root entries `i, i + 1, ...`, with
`count` entries left; `read_buf` is the content of the fresh cluster buffer. -/
def file_open_scan (big_endian : Bool) (fuel : Nat) (pvolume : volume_t) (root_dir read_buf : List Nat)
    (file_name : List Nat) : Nat → Nat → Option (outcome (Except errno file_t))
  | 0, _ => some (.returned (.error .ENOENT))
  | count + 1, i =>
    if 32 * i + 32 > root_dir.length then some .undefined
    else if root_dir.getD (32 * i) 0 = DIR_EOF then some (.returned (.error .ENOENT))
    else if root_dir.getD (32 * i) 0 = DIR_FREE then
      file_open_scan big_endian fuel pvolume root_dir read_buf file_name count (i + 1)
    else
      let entry := sfn_of_bytes big_endian root_dir i
      if strcasecmp (full_file_name entry) file_name = 0 then
        if entry.file_attributes &&& ATTR_DIRECTORY ≠ 0 ∨ entry.file_attributes &&& ATTR_VOLUME_ID ≠ 0 then
          some (.returned (.error .EISDIR))
        else
          match read_chain fuel pvolume entry with
          | none => none
          | some .undefined => some .undefined
          | some (.returned chain) =>
            some (.returned (.ok
              { volume := pvolume
                read_buf := read_buf
                read_buf_cur := pvolume.bytes_per_cluster
                read_buf_end := pvolume.bytes_per_cluster
                chain := chain
                offset := 0
                size := entry.size }))
      else file_open_scan big_endian fuel pvolume root_dir read_buf file_name count (i + 1)

/-- The function `file_open`.  The cluster buffer comes from `malloc`; its
content is not read before the first refill and is taken to be zero.  The
block `root_dir` comes from `calloc(root_sectors_count, bytes_per_sector)`. -/
def file_open (big_endian : Bool) (fuel : Nat) (pvolume : volume_t) (file_name : List Nat) :
    Option (outcome (Except errno file_t)) :=
  match disk_read pvolume.disk
      (to_int32 ((pvolume.boot_sectors_count + pvolume.fat_sectors_count : Nat) : Int))
      (to_int32 (pvolume.root_sectors_count : Int)) with
  | .error e => some (.returned (.error e))
  | .ok sectors =>
    if sectors.length > pvolume.root_sectors_count * pvolume.bytes_per_sector then some .undefined
    else
      file_open_scan big_endian fuel pvolume
        (sectors ++ List.replicate (pvolume.root_sectors_count * pvolume.bytes_per_sector - sectors.length) 0)
        (List.replicate pvolume.bytes_per_cluster 0) file_name pvolume.root_entries_count 0

/-- The state of one call of `file_read_internal`: the handle, the bytes
written through `p` so far, `remaining`, and the first sectors of the device
reads issued so far. -/
structure read_state where
  file : file_t
  dst : List Nat
  remaining : Nat
  device_reads : List Nat

/-- One pass through the body of the `while (remaining > 0)` loop. -/
inductive read_step where
  | next (s : read_state) : read_step
  | brk (s : read_state) : read_step
  | error (s : read_state) (e : errno) : read_step
  | undefined : read_step

/-- The statements `memcpy(p, file->read_buf_cur, n); file->read_buf_cur += n;
file->offset += n; p += n; remaining -= n`; `none` when the copy leaves the
cluster buffer. -/
def copy_from_window (s : read_state) (n : Nat) : Option read_state :=
  if s.file.read_buf_cur + n ≤ s.file.read_buf.length then
    some
      { file :=
          { s.file with
            read_buf_cur := s.file.read_buf_cur + n
            offset := to_uint32 ((s.file.offset : Int) + n) }
        dst := s.dst ++ (s.file.read_buf.drop s.file.read_buf_cur).take n
        remaining := s.remaining - n
        device_reads := s.device_reads }
  else none

/-- The refill part of the loop body: from `current_cluster_idx = ...` to the
update of the read pointers. -/
def refill_window (s : read_state) : read_step :=
  let file := s.file
  let volume := file.volume
  if volume.bytes_per_cluster = 0 then .undefined
  else
    let current_cluster_idx := file.offset / volume.bytes_per_cluster
    match file.chain.clusters[current_cluster_idx]? with
    | none => .undefined
    | some current_cluster =>
      let current_cluster_first_sector :=
        to_uint32 (((current_cluster : Int) - 2) * volume.sectors_per_cluster + volume.first_data_sector)
      if current_cluster_first_sector ≥ volume.total_sectors_count ∨
          current_cluster_first_sector < volume.first_data_sector then .error s errno.ENXIO
      else
        match disk_read volume.disk (to_int32 current_cluster_first_sector) volume.sectors_per_cluster with
        | .error _ => .error s .ERANGE
        | .ok data =>
          if data.length > file.read_buf.length then .undefined
          else
            .next
              { s with
                file :=
                  { file with
                    read_buf := data ++ file.read_buf.drop data.length
                    read_buf_cur := file.offset % volume.bytes_per_cluster
                    read_buf_end :=
                      if current_cluster_idx = to_uint32 ((file.chain.size : Int) - 1) then
                        to_uint32 ((file.size : Int) - file.offset)
                      else volume.bytes_per_cluster }
                device_reads := s.device_reads ++ [current_cluster_first_sector] }

/-- The body of the `while (remaining > 0)` loop of `file_read_internal`. -/
def file_read_step (s : read_state) : read_step :=
  let available := to_uint64 ((s.file.read_buf_end : Int) - s.file.read_buf_cur)
  if s.remaining ≤ available then
    match copy_from_window s s.remaining with
    | none => .undefined
    | some s1 => .next s1
  else
    match (if available > 0 then copy_from_window s available else some s) with
    | none => .undefined
    | some s1 => if s1.file.offset = s1.file.size then .brk s1 else refill_window s1

/-- What one call of `file_read_internal` or `file_read` leaves behind: the
handle, the bytes written to the destination, the `size_t` value returned,
`errno` when it was set, and the device reads issued. -/
structure read_ret where
  file : file_t
  dst : List Nat
  value : Nat
  err : Option errno
  device_reads : List Nat

/-- The `while (remaining > 0)` loop of `file_read_internal` and the `return`
after it. -/
def file_read_loop (to_read : Nat) : Nat → read_state → Option (outcome read_ret)
  | fuel, s =>
    if s.remaining = 0 then
      some (.returned ⟨s.file, s.dst, to_read - s.remaining, none, s.device_reads⟩)
    else
      match fuel with
      | 0 => none
      | fuel + 1 =>
        match file_read_step s with
        | .next s1 => file_read_loop to_read fuel s1
        | .brk s1 => some (.returned ⟨s1.file, s1.dst, to_read - s1.remaining, none, s1.device_reads⟩)
        | .error s1 e => some (.returned ⟨s1.file, s1.dst, SIZE_MAX, some e, s1.device_reads⟩)
        | .undefined => some .undefined

/-- The function `file_read_internal`. -/
def file_read_internal (fuel : Nat) (file : file_t) (to_read : Nat) : Option (outcome read_ret) :=
  if file.offset = file.size then some (.returned ⟨file, [], 0, none, []⟩)
  else file_read_loop to_read fuel ⟨file, [], to_read, []⟩

/-- The function `file_read`; `size` and `nmemb` are `size_t`. -/
def file_read (fuel : Nat) (size nmemb : Nat) (stream : file_t) : Option (outcome read_ret) :=
  let requested := to_uint64 ((nmemb * size : Nat) : Int)
  if requested = 0 then some (.returned ⟨stream, [], 0, none, []⟩)
  else
    match file_read_internal fuel stream requested with
    | none => none
    | some .undefined => some .undefined
    | some (.returned r) =>
      if r.value = SIZE_MAX then some (.returned { r with value := SIZE_MAX })
      else some (.returned { r with value := if r.value = requested then nmemb else r.value / size })

/-- What `file_seek` leaves behind: the handle, the `int32_t` value returned
and `errno` when it was set. -/
structure seek_ret where
  file : file_t
  value : Int
  err : Option errno

/-- The function `file_seek`; `offset` is an `int32_t`, `whence` an `int`. -/
def file_seek (stream : file_t) (offset : Int) (whence : Int) : seek_ret :=
  let invalidate (f : file_t) : seek_ret := ⟨{ f with read_buf_cur := f.read_buf_end }, 0, none⟩
  if whence = SEEK_SET then
    if offset < 0 ∨ to_uint32 offset > stream.size then ⟨stream, -1, some errno.ENXIO⟩
    else invalidate { stream with offset := to_uint32 offset }
  else if whence = SEEK_CUR then
    if (offset < 0 ∧ (stream.offset : Int) + offset < 0) ∨
        to_uint64 ((stream.offset : Int) + offset) > stream.size then ⟨stream, -1, some errno.ENXIO⟩
    else invalidate { stream with offset := to_uint32 ((stream.offset : Int) + offset) }
  else if whence = SEEK_END then
    if offset > 0 ∨ (stream.size : Int) + offset < 0 then ⟨stream, -1, some errno.ENXIO⟩
    else if offset = 0 then invalidate { stream with offset := stream.size }
    else invalidate { stream with offset := to_uint32 ((stream.size : Int) + offset) }
  else ⟨stream, -1, some .EINVAL⟩

/-! ## Reference definitions

The definitions of this section are not translations of the source: they
state what the specification says, to be compared with the code above. -/

/-- The target position of a seek, as the specification words it: `offset`
from the start, from the current position or from the end; a seek from the
end with a positive offset has no target. -/
def seek_target (stream : file_t) (offset whence : Int) : Option Int :=
  if whence = SEEK_SET then some offset
  else if whence = SEEK_CUR then some ((stream.offset : Int) + offset)
  else if whence = SEEK_END then (if offset ≤ 0 then some ((stream.size : Int) + offset) else none)
  else none

/-- The reference behaviour of a seek: with a target inside `[0, size]`
(computed over the integers) the offset becomes the target, the window is
emptied and 0 is returned; otherwise -1 is returned and the handle is
unchanged (`ENXIO` for a range error, `EINVAL` for an unknown `whence`). -/
def file_seek_spec (stream : file_t) (offset whence : Int) : seek_ret :=
  if whence = SEEK_SET ∨ whence = SEEK_CUR ∨ whence = SEEK_END then
    match seek_target stream offset whence with
    | some target =>
      if 0 ≤ target ∧ target ≤ stream.size then
        ⟨{ stream with offset := target.toNat, read_buf_cur := stream.read_buf_end }, 0, none⟩
      else ⟨stream, -1, some errno.ENXIO⟩
    | none => ⟨stream, -1, some errno.ENXIO⟩
  else ⟨stream, -1, some .EINVAL⟩

/-- The first sector of the cluster number `j` of a file's chain. -/
def chain_sector (f : file_t) (j : Nat) : Nat :=
  (f.chain.clusters.getD j 0 - 2) * f.volume.sectors_per_cluster + f.volume.first_data_sector

/-- The byte at position `i` of a file: the byte `i mod bytes_per_cluster`
of the cluster number `i / bytes_per_cluster` of its chain. -/
def file_byte (f : file_t) (i : Nat) : Nat :=
  f.volume.disk.file
    (chain_sector f (i / f.volume.bytes_per_cluster) * SECTOR_SIZE + i % f.volume.bytes_per_cluster) % 256

/-- The bytes `o, o + 1, ..., o + n - 1` of a file. -/
def file_bytes (f : file_t) (o n : Nat) : List Nat := (List.range' o n).map (file_byte f)

/-- A regular file on a well-formed volume: the geometry is the one
`fat_open` computes, the device holds the whole volume, which lies within
the 2 GiB that the `int` byte position of `disk_read` can address, the chain
has `ceil(size / bytes_per_cluster)` clusters (any length for an empty
file), all of them inside the data region, and the cluster buffer has
`bytes_per_cluster` bytes. -/
structure well_formed (f : file_t) : Prop where
  spc_pos : 0 < f.volume.sectors_per_cluster
  spc_le : f.volume.sectors_per_cluster ≤ MAX_SECTORS_PER_CLUSTER
  bpc : f.volume.bytes_per_cluster = f.volume.sectors_per_cluster * SECTOR_SIZE
  total_le : f.volume.total_sectors_count ≤ f.volume.disk.sectors_count
  total_small : f.volume.total_sectors_count ≤ 4194304
  size_lt : f.size < 4294967296
  chain_size : f.chain.size = f.chain.clusters.length
  chain_length :
    f.size = 0 ∨
      f.chain.clusters.length = (f.size + f.volume.bytes_per_cluster - 1) / f.volume.bytes_per_cluster
  in_data : ∀ c ∈ f.chain.clusters,
    2 ≤ c ∧
      (c - 2) * f.volume.sectors_per_cluster + f.volume.first_data_sector + f.volume.sectors_per_cluster
        ≤ f.volume.total_sectors_count
  buf_length : f.read_buf.length = f.volume.bytes_per_cluster

/-- A handle as `file_open` leaves it: offset 0 and an empty window. -/
def freshly_opened (f : file_t) : Prop :=
  f.offset = 0 ∧ f.read_buf_cur = f.volume.bytes_per_cluster ∧ f.read_buf_end = f.volume.bytes_per_cluster

/-- The states of a handle that `file_seek` and `file_read` calls reach from `f0`. -/
inductive reachable (f0 : file_t) : file_t → Prop where
  | start : reachable f0 f0
  | seek (f : file_t) (offset whence : Int) :
      reachable f0 f → reachable f0 (file_seek f offset whence).file
  | read (f : file_t) (fuel size nmemb : Nat) (r : read_ret) :
      reachable f0 f → file_read fuel size nmemb f = some (.returned r) → reachable f0 r.file

/-! ## A small volume

A FAT16 image of 4200 sectors of which the first five are written out: boot
sector, two FAT copies of one sector, one root sector with three entries,
and data.  `README.TXT` has 8 bytes in cluster 2, `DATA.BIN` has 1030 bytes in
clusters 3, 4, 5, and `EMPTY.TXT` has no bytes. -/

/-- The first 24 bytes of the boot sector: 512 bytes per sector, 1 sector
per cluster, 1 reserved sector, 2 FATs, 16 root entries, 4200 sectors,
1 sector per FAT. -/
def example_boot : List Nat :=
  [0xEB, 0x3C, 0x90, 77, 83, 68, 79, 83, 53, 46, 48, 0x00, 0x02, 1, 1, 0, 2, 16, 0, 0x68, 0x10, 0xF8, 1, 0]

/-- The first six FAT entries: two reserved ones, the chain `2`, and the
chain `3, 4, 5`. -/
def example_fat_bytes : List Nat := [0xF8, 0xFF, 0xFF, 0xFF, 0xFF, 0xFF, 4, 0, 5, 0, 0xFF, 0xFF]

/-- The three root entries `README  TXT`, `DATA    BIN` and `EMPTY   TXT`. -/
def example_root : List Nat :=
  [82, 69, 65, 68, 77, 69, 32, 32, 84, 88, 84, 0x20, 0, 0, 0, 0, 0, 0, 0, 0, 0, 0, 0, 0, 0, 0, 2, 0, 8, 0, 0, 0,
   68, 65, 84, 65, 32, 32, 32, 32, 66, 73, 78, 0x20, 0, 0, 0, 0, 0, 0, 0, 0, 0, 0, 0, 0, 0, 0, 3, 0, 6, 4, 0, 0,
   69, 77, 80, 84, 89, 32, 32, 32, 84, 88, 84, 0x20, 0, 0, 0, 0, 0, 0, 0, 0, 0, 0, 0, 0, 0, 0, 0, 0, 0, 0, 0, 0]

/-- The bytes of the image; the data region holds `i mod 251` at position `i`. -/
def example_image (i : Nat) : Nat :=
  if i < 510 then example_boot.getD i 0
  else if i = 510 then 0x55
  else if i = 511 then 0xAA
  else if i < 1024 then example_fat_bytes.getD (i - 512) 0
  else if i < 1536 then example_fat_bytes.getD (i - 1024) 0
  else if i < 2048 then example_root.getD (i - 1536) 0
  else i % 251

def example_disk : disk_t := { file := example_image, sectors_count := 4200 }

/-- The volume that `fat_open` returns for `example_disk`. -/
def example_volume : volume_t :=
  { disk := example_disk
    bytes_per_sector := 512
    total_sectors_count := 4200
    sectors_per_cluster := 1
    bytes_per_cluster := 512
    boot_sectors_count := 1
    fat_sectors_count := 2
    root_sectors_count := 1
    data_sectors_count := 4196
    first_data_sector := 4
    root_entries_count := 16
    fat := [0xFFF8, 0xFFFF, 0xFFFF, 4, 5, 0xFFFF] ++ List.replicate 250 0
    fat_size := 256 }

/-- The handle that `file_open` returns on `example_volume` for a file of
the given size and chain. -/
def example_file (size : Nat) (clusters : List Nat) : file_t :=
  { volume := example_volume
    read_buf := List.replicate 512 0
    read_buf_cur := 512
    read_buf_end := 512
    chain := ⟨clusters, clusters.length⟩
    offset := 0
    size := size }

/-- The name `readme.txt`. -/
def name_readme : List Nat := [114, 101, 97, 100, 109, 101, 46, 116, 120, 116]

/-- The name `DATA.BIN`. -/
def name_data : List Nat := [68, 65, 84, 65, 46, 66, 73, 78]

/-- The name `empty.txt`. -/
def name_empty : List Nat := [101, 109, 112, 116, 121, 46, 116, 120, 116]

/-- The image `example_image` with some bytes replaced. -/
def example_image_with (patch : List (Nat × Nat)) (i : Nat) : Nat :=
  match patch.lookup i with
  | some b => b
  | none => example_image i

/-- A volume of 65528 sectors with one FAT: 1 reserved sector, 1 FAT sector
and 1 root sector leave 65525 data sectors of one cluster each. -/
def disk_65525_clusters : disk_t :=
  { file := example_image_with [(16, 1), (19, 0xF8), (20, 0xFF)], sectors_count := 65528 }

/-- The small volume with `sectors_per_cluster = 3`. -/
def disk_three_sectors_per_cluster : disk_t :=
  { file := example_image_with [(13, 3)], sectors_count := 4200 }

/-- The small volume with three FAT copies in sectors 1, 2 and 3; the first
byte of the third copy is 0 where the first two copies have 0xF8. -/
def disk_three_fats : disk_t :=
  { file := fun i =>
      if i = 16 then 3
      else if i = 1536 then 0
      else if 1536 < i ∧ i < 2048 then example_fat_bytes.getD (i - 1536) 0
      else example_image i
    sectors_count := 4200 }

/-- The first 36 bytes of a boot sector with 64 sectors per cluster,
1 reserved sector, 2 FATs of 32768 sectors each, 512 root entries and 327009
sectors in the 32-bit field: 1 + 65536 + 32 + 4085 * 64. -/
def big_fat_boot : List Nat :=
  [0xEB, 0x3C, 0x90, 77, 83, 68, 79, 83, 53, 46, 48, 0x00, 0x02, 64, 1, 0, 2, 0x00, 0x02, 0, 0, 0xF8, 0x00, 0x80,
   0, 0, 0, 0, 0, 0, 0, 0, 0x61, 0xFD, 0x04, 0x00]

/-- A volume of 327009 sectors with two FATs of 32768 sectors; everything
after the boot sector is zero. -/
def disk_big_fat : disk_t :=
  { file := fun i =>
      if i < 510 then big_fat_boot.getD i 0 else if i = 510 then 0x55 else if i = 511 then 0xAA else 0
    sectors_count := 327009 }

/-! ## States of a handle

The handles that the read loop passes through, written out. -/

/-- The content of the cluster number `j` of a file's chain, as one device
read delivers it. -/
def cluster_data (f : file_t) (j : Nat) : List Nat :=
  image_bytes f.volume.disk (chain_sector f j * SECTOR_SIZE) f.volume.bytes_per_cluster

/-- The handle after the refill that the loop of `file_read_internal` makes
at the current offset: the buffer holds the cluster of the offset,
`read_buf_cur` is the offset within the cluster, and `read_buf_end` is
`size - offset` in the last cluster of the chain and `bytes_per_cluster`
elsewhere. -/
def refilled (f : file_t) : file_t :=
  { f with
    read_buf := cluster_data f (f.offset / f.volume.bytes_per_cluster)
    read_buf_cur := f.offset % f.volume.bytes_per_cluster
    read_buf_end :=
      if f.offset / f.volume.bytes_per_cluster = f.chain.clusters.length - 1 then f.size - f.offset
      else f.volume.bytes_per_cluster }

/-- The handle with the cluster number `j` of the chain loaded at a cluster
boundary and the offset moved on to `k`. -/
def loaded (f : file_t) (j k : Nat) : file_t :=
  { f with
    read_buf := cluster_data f j
    read_buf_cur := k - j * f.volume.bytes_per_cluster
    read_buf_end :=
      if j = f.chain.clusters.length - 1 then f.size - j * f.volume.bytes_per_cluster
      else f.volume.bytes_per_cluster
    offset := k }

/-- The handle after `k` bytes have been read in sequence from a freshly
opened handle `f`: for `k > 0` the cluster of the byte `k - 1` is loaded. -/
def after_reading (f : file_t) (k : Nat) : file_t :=
  if k = 0 then f else loaded f ((k - 1) / f.volume.bytes_per_cluster) k

/-- The file position at which the window over the cluster number `j` of
the chain ends: the end of the file in the last cluster, the end of the
cluster elsewhere. -/
def window_limit (f : file_t) (j : Nat) : Nat :=
  if j = f.chain.clusters.length - 1 then f.size
  else j * f.volume.bytes_per_cluster + f.volume.bytes_per_cluster

/-- Successive calls `file_read(ptr, 1, n, stream)` for the requests `n` of a
list, each of which has to return `n`: the handle after the last call and the
bytes delivered, in order; `none` when a call does not return its full count. -/
def read_sequence (fuel : Nat) : List Nat → file_t → Option (file_t × List Nat)
  | [], f => some (f, [])
  | n :: rest, f =>
    match file_read fuel 1 n f with
    | some (.returned r) =>
      if r.value = n then
        match read_sequence fuel rest r.file with
        | some (f1, bytes) => some (f1, r.dst ++ bytes)
        | none => none
      else none
    | _ => none

/-! ## Directory iterator -/

/-- The string `ROOT_DIR`: one backslash and the final `'\0'`. -/
def ROOT_DIR : List Nat := [92, 0]

/-- The struct `dir_t`. -/
structure dir_t where
  volume : volume_t
  count : Nat
  index : Nat

/-- Conversion to a bit-field `int8_t x : 1`: the value is reduced modulo 2,
and the one bit of the field is its sign bit, so a set bit reads as -1. -/
def to_int1 (x : Int) : Int := if (x % 2).toNat = 0 then 0 else -1

/-- Conversion to `int8_t`. -/
def to_int8 (x : Int) : Int :=
  if (x % 256).toNat < 128 then ((x % 256).toNat : Int) else ((x % 256).toNat : Int) - 256

/-- The struct `dir_entry_t`.  `name` holds the bytes that `full_file_name`
wrote to `name[13]`, the final `'\0'` included; the four flags declared
`int8_t x : 1` and the `int8_t` flag `is_directory` hold the values that
the program reads back from them. -/
structure dir_entry_t where
  name : List Nat
  size : Nat
  is_archived : Int
  is_readonly : Int
  is_system : Int
  is_hidden : Int
  is_directory : Int

/-- The function `dir_open`; `strcmp` compares the two C strings. -/
def dir_open (pvolume : volume_t) (dir_path : List Nat) : Except errno dir_t :=
  if c_string ROOT_DIR ≠ c_string dir_path then .error .EFAULT
  else .ok { volume := pvolume, count := pvolume.root_entries_count, index := 0 }

/-- Lines 643-649 of `dir_read`: the entry that is written to `pentry` for
the directory entry `entry`. -/
def dir_entry_of (entry : SFN) : dir_entry_t :=
  { name := full_file_name entry
    size := entry.size
    is_archived := to_int1 ((entry.file_attributes &&& ATTR_ARCHIVE : Nat) : Int)
    is_readonly := to_int1 ((entry.file_attributes &&& ATTR_READ_ONLY : Nat) : Int)
    is_system := to_int1 ((entry.file_attributes &&& ATTR_SYSTEM : Nat) : Int)
    is_hidden := to_int1 ((entry.file_attributes &&& ATTR_HIDDEN : Nat) : Int)
    is_directory := to_int8 ((entry.file_attributes &&& ATTR_DIRECTORY : Nat) : Int) }

/-- What one call of `dir_read` leaves behind: the iterator, the entry
behind `pentry`, the `int` returned, `errno` when it was set, and the indices
of the slots whose first byte the call has looked at. -/
structure dir_ret where
  dir : dir_t
  entry : dir_entry_t
  value : Int
  err : Option errno
  slots : List Nat

/-- The `while (pdir->index <= pdir->count)` loop of `dir_read` and the
`return 1` after it; `index` is a `uint16_t`. -/
def dir_read_loop (big_endian : Bool) :
    Nat → dir_t → dir_entry_t → List Nat → Option dir_ret
  | fuel, pdir, pentry, slots =>
    if pdir.index ≤ pdir.count then
      match fuel with
      | 0 => none
      | fuel + 1 =>
        let entry_idx := pdir.index % 16
        let sector_idx := pdir.index / 16
        match disk_read pdir.volume.disk
            (to_int32 (to_uint32
              ((pdir.volume.boot_sectors_count + pdir.volume.fat_sectors_count + sector_idx : Nat) : Int))) 1 with
        | .error _ => some ⟨pdir, pentry, -1, some errno.EIO, slots⟩
        | .ok buf =>
          if buf.getD (32 * entry_idx) 0 = DIR_EOF then some ⟨pdir, pentry, 1, none, slots ++ [pdir.index]⟩
          else if buf.getD (32 * entry_idx) 0 = DIR_FREE then
            dir_read_loop big_endian fuel { pdir with index := to_uint16 ((pdir.index : Int) + 1) } pentry
              (slots ++ [pdir.index])
          else
            some ⟨{ pdir with index := to_uint16 ((pdir.index : Int) + 1) },
              dir_entry_of (sfn_of_bytes big_endian buf entry_idx), 0, none, slots ++ [pdir.index]⟩
    else some ⟨pdir, pentry, 1, none, slots⟩

/-- The function `dir_read`. -/
def dir_read (big_endian : Bool) (fuel : Nat) (pdir : dir_t) (pentry : dir_entry_t) : Option dir_ret :=
  if pdir.index > pdir.count then some ⟨pdir, pentry, -1, some errno.ENXIO, []⟩
  else dir_read_loop big_endian fuel pdir pentry []

/-- Successive calls `dir_read(pdir, pentry)` on the same iterator and the
same entry: what each call leaves behind, in order; `none` when a call does
not return. -/
def dir_read_calls (big_endian : Bool) (fuel : Nat) : Nat → dir_t → dir_entry_t → Option (List dir_ret)
  | 0, _, _ => some []
  | n + 1, pdir, pentry =>
    match dir_read big_endian fuel pdir pentry with
    | none => none
    | some r =>
      match dir_read_calls big_endian fuel n r.dir r.entry with
      | none => none
      | some rest => some (r :: rest)

/-! ## Reference definitions for names and the root directory

As in the section of reference definitions above, these state what the
specification says. -/

/-- The text of an 11-byte raw name field, as the specification words it:
the bytes of the 8-byte stem that precede its first space, then, when byte 8
is not a space, a `'.'` and the bytes of the 3-byte extension that precede
its first space, then the terminating `'\0'`. -/
def format_8_3 (raw : List Nat) : List Nat :=
  (raw.take 8).takeWhile (fun c => decide (c ≠ 32)) ++
    (if raw.getD 8 0 ≠ 32 then 46 :: ((raw.drop 8).take 3).takeWhile (fun c => decide (c ≠ 32)) else []) ++ [0]

/-- The raw name field of a stem and an extension: both padded with spaces
to 8 and 3 bytes. -/
def raw_name (stem ext : List Nat) : List Nat :=
  stem ++ List.replicate (8 - stem.length) 32 ++ (ext ++ List.replicate (3 - ext.length) 32)

/-- The links of a cluster list over a FAT table: each element but the last
has the next element as its FAT entry, and that entry is below the
end-of-chain markers. -/
def chain_links (fat : List Nat) : List Nat → Prop
  | x :: y :: rest => fat[x]? = some y ∧ y < 0xFFF8 ∧ chain_links fat (y :: rest)
  | _ => True

/-- The byte position of the root directory region on the device: it
follows the reserved sectors and the FAT sectors. -/
def root_position (v : volume_t) : Nat := (v.boot_sectors_count + v.fat_sectors_count) * SECTOR_SIZE

/-- The 32 bytes of the slot number `i` of the root directory region. -/
def root_slot (v : volume_t) (i : Nat) : List Nat := image_bytes v.disk (root_position v + 32 * i) 32

/-- The first byte of the slot number `i` of the root directory region. -/
def slot_first_byte (v : volume_t) (i : Nat) : Nat := (root_slot v i).getD 0 0

/-- The directory entry in the slot number `i` of the root directory region. -/
def root_entry (big_endian : Bool) (v : volume_t) (i : Nat) : SFN := sfn_of_bytes big_endian (root_slot v i) 0

/-- The slots that a scan of the root directory looks at, in order: the
first `root_entries_count` slots up to the first one whose first byte is
0x00, without the slots whose first byte is 0xE5. -/
def scanned_slots (v : volume_t) : List Nat :=
  ((List.range v.root_entries_count).takeWhile (fun i => decide (slot_first_byte v i ≠ DIR_EOF))).filter
    (fun i => decide (slot_first_byte v i ≠ DIR_FREE))

/-- Equality of two C strings under ASCII case folding. -/
def names_match (a b : List Nat) : Bool := decide ((c_string a).map tolower = (c_string b).map tolower)

/-- The first scanned slot whose formatted name equals `file_name` under
case folding. -/
def root_lookup (big_endian : Bool) (v : volume_t) (file_name : List Nat) : Option Nat :=
  (scanned_slots v).find? (fun i => names_match (full_file_name (root_entry big_endian v i)) file_name)

/-- What opening the slot number `i` gives: `EISDIR` for a directory or a
volume label, otherwise a handle with the chain that `read_chain` builds,
the size field of the slot, offset 0 and an empty window at the end of the
cluster buffer. -/
def open_slot (big_endian : Bool) (fuel : Nat) (v : volume_t) (i : Nat) : Option (outcome (Except errno file_t)) :=
  if (root_entry big_endian v i).file_attributes &&& ATTR_DIRECTORY ≠ 0 ∨
      (root_entry big_endian v i).file_attributes &&& ATTR_VOLUME_ID ≠ 0 then
    some (.returned (.error .EISDIR))
  else
    match read_chain fuel v (root_entry big_endian v i) with
    | none => none
    | some .undefined => some .undefined
    | some (.returned chain) =>
      some (.returned (.ok
        { volume := v
          read_buf := List.replicate v.bytes_per_cluster 0
          read_buf_cur := v.bytes_per_cluster
          read_buf_end := v.bytes_per_cluster
          chain := chain
          offset := 0
          size := (root_entry big_endian v i).size }))

/-- The reference behaviour of `file_open`: not found when no scanned slot
has the name, otherwise what opening the first such slot gives. -/
def file_open_spec (big_endian : Bool) (fuel : Nat) (v : volume_t) (file_name : List Nat) :
    Option (outcome (Except errno file_t)) :=
  match root_lookup big_endian v file_name with
  | none => some (.returned (.error .ENOENT))
  | some i => open_slot big_endian fuel v i

/-- A volume whose root directory region can be read: sectors of 512
bytes, a region that holds the `root_entries_count` entries, lies on the
device and starts within the 2 GiB that the `int` byte position of
`disk_read` can address. -/
structure root_readable (v : volume_t) : Prop where
  bytes_per_sector : v.bytes_per_sector = SECTOR_SIZE
  entries_fit : v.root_entries_count * 32 ≤ v.root_sectors_count * SECTOR_SIZE
  entries_lt : v.root_entries_count < 65536
  on_device : v.boot_sectors_count + v.fat_sectors_count + v.root_sectors_count ≤ v.disk.sectors_count
  small : v.boot_sectors_count + v.fat_sectors_count + v.root_sectors_count < 4194304

/-- What a caller sees of one call of `dir_read`: the value returned, the
iterator after the call and, when the value is 0, the name and the size of
the entry. -/
def dir_read_view (r : dir_ret) : Int × dir_t × Option (List Nat × Nat) :=
  (r.value, r.dir, if r.value = 0 then some (r.entry.name, r.entry.size) else none)

/-- The reference behaviour of one call of `dir_read` on a root directory
whose first sentinel is in the slot number `s`: the first slot from `index`
on and before `s` that is not free is returned as an entry and the index
moves behind it; when there is none the call returns 1, the index stops at
`s` and the entry is not written. -/
def dir_read_spec (big_endian : Bool) (s : Nat) (pdir : dir_t) (pentry : dir_entry_t) :
    Int × dir_t × dir_entry_t :=
  match (List.range' pdir.index (s - pdir.index)).find?
      (fun i => decide (slot_first_byte pdir.volume i ≠ DIR_FREE)) with
  | some i => (0, { pdir with index := i + 1 }, dir_entry_of (root_entry big_endian pdir.volume i))
  | none => (1, { pdir with index := s }, pentry)

/-! ## More small volumes -/

/-- The small volume with two entries `README  TXT` in the first two root
slots: the first one is a directory, the second one a regular file. -/
def disk_directory_first : disk_t :=
  { file := example_image_with
      [(1547, 0x10), (1568, 82), (1569, 69), (1570, 65), (1571, 68), (1572, 77), (1573, 69), (1574, 32),
       (1575, 32), (1576, 84), (1577, 88), (1578, 84)]
    sectors_count := 4200 }

/-- The volume that `fat_open` returns for a variant of the small image:
the geometry of `example_volume` with the given device and the given first
six FAT entries. -/
def example_volume_with (d : disk_t) (fat_head : List Nat) : volume_t :=
  { example_volume with disk := d, fat := fat_head ++ List.replicate 250 0 }

/-- The small volume with the FAT entry of cluster 2 set to 2 in both
copies: the chain of `README.TXT` is a cycle. -/
def disk_cyclic_fat : disk_t :=
  { file := example_image_with [(516, 2), (517, 0), (1028, 2), (1029, 0)], sectors_count := 4200 }

/-- The small volume with the FAT entry of cluster 4 set to 0x0000 in both
copies: the chain of `DATA.BIN` meets a free entry. -/
def disk_zero_in_chain : disk_t :=
  { file := example_image_with [(520, 0), (1032, 0)], sectors_count := 4200 }

/-- The small volume with the FAT entry of cluster 4 set to 0xFFF7 in both
copies: the chain of `DATA.BIN` meets a defect marker. -/
def disk_defect_in_chain : disk_t :=
  { file := example_image_with [(520, 0xF7), (521, 0xFF), (1032, 0xF7), (1033, 0xFF)], sectors_count := 4200 }

/-- The small volume with a sentinel in the third root slot: the root
directory holds `README  TXT` and `DATA    BIN`. -/
def disk_two_entries : disk_t := { file := example_image_with [(1600, 0)], sectors_count := 4200 }

/-- The small volume with all 16 root slots in use: each of them holds the
entry `README  TXT`. -/
def disk_full_root : disk_t :=
  { file := fun i => if 1536 ≤ i ∧ i < 2048 then example_root.getD ((i - 1536) % 32) 0 else example_image i
    sectors_count := 4200 }

/-- An entry before the first call of `dir_read`. -/
def blank_entry : dir_entry_t :=
  { name := [], size := 0, is_archived := 0, is_readonly := 0, is_system := 0, is_hidden := 0, is_directory := 0 }

/-- The first 24 bytes of the boot sector of the small volume as a
big-endian host would have written its 16-bit fields. -/
def big_endian_boot : List Nat :=
  [0xEB, 0x3C, 0x90, 77, 83, 68, 79, 83, 53, 46, 48, 0x02, 0x00, 1, 0, 1, 2, 0, 16, 0x10, 0x68, 0xF8, 0, 1]

/-- The small volume with the 16-bit fields of the boot sector in
big-endian byte order, the signature included; the FAT copies are the
little-endian ones of `example_image`. -/
def disk_big_endian : disk_t :=
  { file := fun i =>
      if i < 510 then big_endian_boot.getD i 0
      else if i = 510 then 0xAA
      else if i = 511 then 0x55
      else example_image i
    sectors_count := 4200 }

/-- The first 36 bytes of a boot sector with 1 sector per cluster,
1 reserved sector, 2 FATs of 256 sectors each, 512 root entries and 66069
sectors in the 32-bit field: 1 + 512 + 32 + 65524. -/
def max_fat_boot : List Nat :=
  [0xEB, 0x3C, 0x90, 77, 83, 68, 79, 83, 53, 46, 48, 0x00, 0x02, 1, 1, 0, 2, 0x00, 0x02, 0, 0, 0xF8, 0x00, 0x01,
   0, 0, 0, 0, 0, 0, 0, 0, 0x15, 0x02, 0x01, 0x00]

/-- A FAT16 volume of the largest cluster count, 65524, whose FATs have 256
sectors; everything after the boot sector is zero. -/
def disk_max_fat : disk_t :=
  { file := fun i =>
      if i < 510 then max_fat_boot.getD i 0 else if i = 510 then 0x55 else if i = 511 then 0xAA else 0
    sectors_count := 66069 }

/-- The small volume with the second root slot marked free (0xE5) and a
sentinel in the third: the root directory holds `README  TXT` only. -/
def disk_free_slot : disk_t := { file := example_image_with [(1568, 0xE5), (1600, 0)], sectors_count := 4200 }

/-- The small volume with the total sector count 3 in the boot sector: less
than the 4 sectors before the data region. -/
def disk_short_total : disk_t := { file := example_image_with [(19, 3), (20, 0)], sectors_count := 4200 }

/-- A device of 4208 sectors: 8 sectors of zeros and then the small volume,
whose boot sector is the sector 8 of the device. -/
def disk_relocated : disk_t :=
  { file := fun i => if i < 4096 then 0 else example_image (i - 4096), sectors_count := 4208 }

/-! ## Reference definitions for the refill of the cluster buffer -/

/-- The state in which a pass through the loop body of `file_read_internal`
at the state `s` reaches the refill (line 193 of the source), when it does:
the request is larger than what the window holds, the rest of the window has
been copied, and the offset is not the size. -/
def refill_state (s : read_state) : Option read_state :=
  let available := to_uint64 ((s.file.read_buf_end : Int) - s.file.read_buf_cur)
  if s.remaining ≤ available then none
  else
    match (if available > 0 then copy_from_window s available else some s) with
    | none => none
    | some s1 => if s1.file.offset = s1.file.size then none else some s1

/-- The states at the head of the `while (remaining > 0)` loop during one
call `file_read_internal(file, buf, to_read)`. -/
inductive loop_state (file : file_t) (to_read : Nat) : read_state → Prop where
  | start : file.offset ≠ file.size → loop_state file to_read ⟨file, [], to_read, []⟩
  | next (s s1 : read_state) :
      loop_state file to_read s → s.remaining ≠ 0 → file_read_step s = .next s1 → loop_state file to_read s1

/-- A handle whose chain has exactly `max(1, ceil(size / bytes_per_cluster))`
clusters. -/
def chain_fits (f : file_t) : Prop :=
  f.chain.size = f.chain.clusters.length ∧
  f.chain.clusters.length =
    max 1 ((f.size + f.volume.bytes_per_cluster - 1) / f.volume.bytes_per_cluster)

/-- What the calls of `file_seek` and `file_read` keep of a handle `f0`:
volume, chain, size and length of the cluster buffer stay, the two read
pointers stay inside the buffer, and a window with `cur <= end` ends at or
before the end of the file. -/
structure window_ok (f0 f : file_t) : Prop where
  volume : f.volume = f0.volume
  chain : f.chain = f0.chain
  size : f.size = f0.size
  buf : f.read_buf.length = f0.volume.bytes_per_cluster
  cur_le : f.read_buf_cur ≤ f0.volume.bytes_per_cluster
  end_le : f.read_buf_end ≤ f0.volume.bytes_per_cluster
  within : f.read_buf_cur ≤ f.read_buf_end → f.offset + (f.read_buf_end - f.read_buf_cur) ≤ f.size

/-! ## A volume that reaches past 2 GiB -/

/-- The first 36 bytes of a boot sector with 64 sectors per cluster,
288 reserved sectors, 2 FATs of 256 sectors each, 512 root entries and
4194368 sectors in the 32-bit field: 288 + 512 + 32 + 65524 * 64. -/
def two_gib_boot : List Nat :=
  [0xEB, 0x3C, 0x90, 77, 83, 68, 79, 83, 53, 46, 48, 0x00, 0x02, 64, 0x20, 0x01, 2, 0x00, 0x02, 0, 0, 0xF8,
   0x00, 0x01, 0, 0, 0, 0, 0, 0, 0, 0, 0x40, 0x00, 0x40, 0x00]

/-- The byte `j` of one FAT copy of the large volume: the two reserved
entries, and the end-of-chain mark 0xFFFF in the entry of the cluster 65525. -/
def two_gib_fat (j : Nat) : Nat :=
  if j < 4 then [0xF8, 0xFF, 0xFF, 0xFF].getD j 0 else if j = 131050 ∨ j = 131051 then 0xFF else 0

/-- The root entry `README  TXT` with 8 bytes in the cluster 65525. -/
def two_gib_root : List Nat :=
  [82, 69, 65, 68, 77, 69, 32, 32, 84, 88, 84, 0x20, 0, 0, 0, 0, 0, 0, 0, 0, 0, 0, 0, 0, 0, 0, 0xF5, 0xFF,
   8, 0, 0, 0]

/-- A FAT16 volume of 65524 clusters of 32 KiB on a device of 4194368
sectors: the reserved sectors 0 to 287, the FAT copies in the sectors 288 to
543 and 544 to 799, the root directory in the sectors 800 to 831 and the
data region from sector 832.  The last cluster, 65525, holds `README.TXT`
and starts at sector 4194304, the byte 2^31 of the image. -/
def disk_two_gib : disk_t :=
  { file := fun i =>
      if i < 510 then two_gib_boot.getD i 0
      else if i = 510 then 0x55
      else if i = 511 then 0xAA
      else if i < 147456 then 0
      else if i < 278528 then two_gib_fat (i - 147456)
      else if i < 409600 then two_gib_fat (i - 278528)
      else if i < 425984 then two_gib_root.getD (i - 409600) 0
      else i % 251
    sectors_count := 4194368 }

/-- The volume that `fat_open` returns for `disk_two_gib`; the table has 65536
entries, which the 16-bit field `fat_size` holds as 0. -/
def two_gib_volume : volume_t :=
  { disk := disk_two_gib
    bytes_per_sector := 512
    total_sectors_count := 4194368
    sectors_per_cluster := 64
    bytes_per_cluster := 32768
    boot_sectors_count := 288
    fat_sectors_count := 512
    root_sectors_count := 32
    data_sectors_count := 4193536
    first_data_sector := 832
    root_entries_count := 512
    fat := words_of_bytes false ((image_bytes disk_two_gib 147456 262144).take 131072)
    fat_size := 0 }

/-- The handle that `file_open` returns for `README.TXT` of `two_gib_volume`. -/
def two_gib_file : file_t :=
  { volume := two_gib_volume
    read_buf := List.replicate 32768 0
    read_buf_cur := 32768
    read_buf_end := 32768
    chain := ⟨[65525], 1⟩
    offset := 0
    size := 8 }

/-! # Theorems -/

/-! ## The small volume is what the code makes of the image -/

set_option maxRecDepth 100000 in
theorem example_volume_opens : fat_open false example_disk 0 = .returned (.ok example_volume) := by
  rfl

set_option maxRecDepth 100000 in
theorem example_readme_opens :
    file_open false 4 example_volume name_readme = some (.returned (.ok (example_file 8 [2]))) := by
  rfl

set_option maxRecDepth 100000 in
theorem example_data_opens :
    file_open false 4 example_volume name_data = some (.returned (.ok (example_file 1030 [3, 4, 5]))) := by
  rfl

set_option maxRecDepth 100000 in
theorem example_empty_opens :
    file_open false 4 example_volume name_empty = some (.returned (.ok (example_file 0 [0]))) := by
  rfl

theorem example_file_well_formed (size : Nat) (clusters : List Nat)
    (hsize : size = 0 ∨ clusters.length = (size + 511) / 512) (hlt : size < 4294967296)
    (hin : ∀ c ∈ clusters, 2 ≤ c ∧ c ≤ 4197) : well_formed (example_file size clusters) where
  spc_pos := by show 0 < 1; decide
  spc_le := by show 1 ≤ 64; decide
  bpc := by show 512 = 1 * 512; decide
  total_le := by show 4200 ≤ 4200; decide
  total_small := by show 4200 ≤ 4194304; decide
  size_lt := hlt
  chain_size := rfl
  chain_length := by
    rcases hsize with h | h
    · exact Or.inl h
    · exact Or.inr h
  in_data := by
    intro c hc
    have h := hin c hc
    simp only [example_file, example_volume]
    omega
  buf_length := by
    show (List.replicate 512 0).length = 512
    exact List.length_replicate 512 0

/-! ## Machine integers -/

theorem to_uint32_of_lt (n : Nat) (h : n < 4294967296) : to_uint32 (n : Int) = n := by
  unfold to_uint32
  omega

theorem to_uint64_of_lt (n : Nat) (h : n < 18446744073709551616) : to_uint64 (n : Int) = n := by
  unfold to_uint64
  omega

theorem to_int32_of_lt (n : Nat) (h : n < 2147483648) : to_int32 (n : Int) = n := by
  unfold to_int32
  rw [to_uint32_of_lt n (by omega), if_pos h]

/-! ## `file_seek` -/

/-- C4: for every handle, every `int32_t` offset and every `whence`,
`file_seek` is the reference seek `file_seek_spec`: it returns 0 exactly when
the target computed over the integers lies in `[0, size]`, then sets the
offset to the target and empties the window, and otherwise returns -1 and
leaves the handle unchanged; `file_seek(SET, -1)` and `file_seek(END, 1)`
return -1. -/
theorem file_seek_refines_spec (stream : file_t) (offset whence : Int)
    (ho : stream.offset < 4294967296) (hs : stream.size < 4294967296)
    (h1 : -2147483648 ≤ offset) (h2 : offset < 2147483648) :
    file_seek stream offset whence = file_seek_spec stream offset whence ∧
    ((file_seek stream offset whence).value = 0 ↔
      ∃ target, seek_target stream offset whence = some target ∧ 0 ≤ target ∧ target ≤ stream.size) ∧
    (file_seek stream (-1) SEEK_SET).value = -1 ∧ (file_seek stream 1 SEEK_END).value = -1 := by
  have key : file_seek stream offset whence = file_seek_spec stream offset whence := by
    unfold file_seek file_seek_spec seek_target
    simp only [SEEK_SET, SEEK_CUR, SEEK_END, to_uint32, to_uint64]
    by_cases hw0 : whence = 0
    · subst hw0
      simp only [true_or, if_true]
      split_ifs with h3 h4 h4
      · omega
      · rfl
      · congr 2
        omega
      · omega
    by_cases hw1 : whence = 1
    · subst hw1
      simp only [true_or, or_true, if_true, if_neg hw0]
      split_ifs with h3 h4 h4
      · omega
      · rfl
      · congr 2
        omega
      · omega
    by_cases hw2 : whence = 2
    · subst hw2
      simp only [or_true, if_true, if_neg hw0, if_neg hw1]
      by_cases h0 : offset ≤ 0
      · simp only [if_pos h0]
        split_ifs with h3 h4 h5 h5 h5
        all_goals first | rfl | omega | (congr 2; omega)
      · have h3 : offset > 0 ∨ (stream.size : Int) + offset < 0 := Or.inl (by omega)
        simp only [if_neg h0, if_pos h3]
    · simp [hw0, hw1, hw2]
  refine ⟨key, ?_, by simp [file_seek, SEEK_SET], by simp [file_seek, SEEK_SET, SEEK_CUR, SEEK_END]⟩
  rw [key]
  unfold file_seek_spec
  by_cases hw : whence = SEEK_SET ∨ whence = SEEK_CUR ∨ whence = SEEK_END
  · rw [if_pos hw]
    cases ht : seek_target stream offset whence with
    | none => simp
    | some target =>
      by_cases hr : 0 ≤ target ∧ target ≤ stream.size
      · simp [hr]
      · simp only [if_neg hr]
        constructor
        · intro h
          simp at h
        · rintro ⟨t, ht', h0, h3⟩
          simp only [Option.some.injEq] at ht'
          subst ht'
          exact absurd ⟨h0, h3⟩ hr
  · rw [if_neg hw]
    have : seek_target stream offset whence = none := by
      unfold seek_target
      simp only [not_or] at hw
      simp [hw.1, hw.2.1, hw.2.2]
    simp [this]

/-- Witness of C4: a seek to position 3 of the 8-byte file `README.TXT`. -/
theorem file_seek_refines_spec_witness :
    file_seek (example_file 8 [2]) 3 SEEK_SET = file_seek_spec (example_file 8 [2]) 3 SEEK_SET ∧
    ((file_seek (example_file 8 [2]) 3 SEEK_SET).value = 0 ↔
      ∃ target, seek_target (example_file 8 [2]) 3 SEEK_SET = some target ∧
        0 ≤ target ∧ target ≤ (example_file 8 [2]).size) ∧
    (file_seek (example_file 8 [2]) (-1) SEEK_SET).value = -1 ∧
    (file_seek (example_file 8 [2]) 1 SEEK_END).value = -1 :=
  file_seek_refines_spec (example_file 8 [2]) 3 SEEK_SET (by decide) (by decide) (by decide) (by decide)

/-! ## Sector device -/

theorem image_bytes_length (d : disk_t) (p n : Nat) : (image_bytes d p n).length = n := by
  simp [image_bytes]

theorem image_bytes_slice (d : disk_t) (p n a b : Nat) (h : a + b ≤ n) :
    ((image_bytes d p n).drop a).take b = image_bytes d (p + a) b := by
  have hsplit : List.range' p n =
      List.range' p a ++ (List.range' (p + a) b ++ List.range' (p + a + b) (n - a - b)) := by
    rw [List.range'_append_1, List.range'_append_1]
    congr 1
    omega
  unfold image_bytes
  rw [← List.map_drop, ← List.map_take, hsplit,
    List.drop_left' (List.length_range' p 1 a), List.take_left' (List.length_range' (p + a) 1 b)]

theorem image_bytes_congr (d : disk_t) (p q n : Nat)
    (h : ∀ i, i < n → d.file (p + i) % 256 = d.file (q + i) % 256) :
    image_bytes d p n = image_bytes d q n := by
  induction n generalizing p q with
  | zero => rfl
  | succ n ih =>
    unfold image_bytes at ih ⊢
    rw [List.range'_succ, List.range'_succ, List.map_cons, List.map_cons]
    congr 1
    · exact h 0 (Nat.succ_pos n)
    · apply ih
      intro i hi
      have := h (i + 1) (by omega)
      rw [show p + 1 + i = p + (i + 1) by omega, show q + 1 + i = q + (i + 1) by omega]
      exact this

theorem disk_read_ok (d : disk_t) (first count : Nat) (hfit : first + count ≤ d.sectors_count)
    (hsmall : first < 4194304) (hcount : count < 2147483648) :
    disk_read d (first : Int) (count : Int) = .ok (image_bytes d (first * SECTOR_SIZE) (count * SECTOR_SIZE)) := by
  unfold disk_read
  have h1 : ¬ ((first : Int) < 0 ∨ (count : Int) < 0 ∨
      to_uint32 ((to_uint32 (first : Int) : Int) + to_uint32 (count : Int)) > d.sectors_count) := by
    rw [to_uint32_of_lt first (by omega), to_uint32_of_lt count (by omega)]
    have : to_uint32 ((first : Int) + (count : Int)) = first + count := by
      have := to_uint32_of_lt (first + count) (by omega)
      rwa [Nat.cast_add] at this
    rw [this]
    omega
  rw [if_neg h1]
  have h2 : to_int32 ((first : Int) * (SECTOR_SIZE : Nat)) = ((first * SECTOR_SIZE : Nat) : Int) := by
    have := to_int32_of_lt (first * SECTOR_SIZE) (by simp only [SECTOR_SIZE]; omega)
    rwa [Nat.cast_mul] at this
  simp only [h2]
  rw [if_neg (by omega)]
  simp only [Int.toNat_ofNat]

/-! ## `fat_open` -/

theorem is_power_two_iff (x : Nat) :
    (IS_POWER_TWO x = true ∧ x ≤ MAX_SECTORS_PER_CLUSTER) ↔ x ∈ [1, 2, 4, 8, 16, 32, 64] := by
  constructor
  · rintro ⟨h1, h2⟩
    simp only [MAX_SECTORS_PER_CLUSTER] at h2
    interval_cases x <;> first | decide | (exfalso; revert h1; decide)
  · intro h
    simp only [List.mem_cons, List.mem_singleton, List.not_mem_nil, or_false] at h
    rcases h with h | h | h | h | h | h | h <;> subst h <;> decide

theorem fat_open_tables_ok (big_endian : Bool) (pdisk : disk_t) (bs : boot_sector_t) (vol v : volume_t)
    (h : fat_open_tables big_endian pdisk bs vol = .returned (.ok v)) :
    ∃ fat, v = { vol with
      fat := fat
      disk := pdisk
      fat_size := to_uint16 ((bs.fat_size * SECTOR_SIZE / 2 : Nat) : Int)
      first_data_sector :=
        to_uint32 ((vol.boot_sectors_count + vol.fat_sectors_count + vol.root_sectors_count : Nat) : Int) } := by
  unfold fat_open_tables at h
  dsimp only at h
  split at h
  · cases h
  · split at h
    · cases h
    · cases h
    · split at h
      · cases h
      · rename_i fat _
        simp only [outcome.returned.injEq, Except.ok.injEq] at h
        exact ⟨fat, h.symm⟩

theorem fat_open_clusters_ok (big_endian : Bool) (pdisk : disk_t) (bs : boot_sector_t) (vol v : volume_t)
    (h : fat_open_clusters big_endian pdisk bs vol = .returned (.ok v)) :
    FAT16_MIN_CLUSTERS ≤ v.data_sectors_count / bs.sectors_per_cluster ∧
    v.data_sectors_count / bs.sectors_per_cluster ≤ FAT16_MAX_CLUSTERS ∧
    ∃ fat, v = { vol with
      data_sectors_count := to_uint32 ((vol.total_sectors_count : Int) -
        to_uint32 ((vol.boot_sectors_count + vol.fat_sectors_count + vol.root_sectors_count : Nat) : Int))
      fat := fat
      disk := pdisk
      fat_size := to_uint16 ((bs.fat_size * SECTOR_SIZE / 2 : Nat) : Int)
      first_data_sector :=
        to_uint32 ((vol.boot_sectors_count + vol.fat_sectors_count + vol.root_sectors_count : Nat) : Int) } := by
  unfold fat_open_clusters at h
  dsimp only at h
  split at h
  · cases h
  · rename_i c
    obtain ⟨fat, hv⟩ := fat_open_tables_ok _ _ _ _ _ h
    subst hv
    simp only [not_or, not_lt, gt_iff_lt] at c
    exact ⟨c.1, c.2, fat, rfl⟩

/-- The volume record after the checks of the boot sector fields. -/
theorem fat_open_fields_ok (big_endian : Bool) (pdisk : disk_t) (bs : boot_sector_t) (v : volume_t)
    (h : fat_open_fields big_endian pdisk bs = .returned (.ok v)) :
    (bs.signature = SIGNATURE ∧ bs.bytes_per_sector = SECTOR_SIZE ∧
      IS_POWER_TWO bs.sectors_per_cluster = true ∧ bs.sectors_per_cluster ≤ MAX_SECTORS_PER_CLUSTER ∧
      bs.number_of_fats ≠ 0 ∧ bs.fat_size ≠ 0 ∧ bs.reserved_sectors_count ≠ 0 ∧
      ¬ (bs.total_sectors_count = 0 ∧ bs.total_sectors_count32 = 0)) ∧
    fat_open_fields big_endian pdisk bs =
      fat_open_clusters big_endian pdisk bs
        { disk := pdisk
          bytes_per_sector := SECTOR_SIZE
          total_sectors_count :=
            if bs.total_sectors_count = 0 then bs.total_sectors_count32 else bs.total_sectors_count
          sectors_per_cluster := bs.sectors_per_cluster
          bytes_per_cluster := bs.sectors_per_cluster * SECTOR_SIZE
          boot_sectors_count := bs.reserved_sectors_count
          fat_sectors_count := to_uint16 ((bs.number_of_fats * bs.fat_size : Nat) : Int)
          root_sectors_count :=
            to_uint32 (((bs.root_entries_count * 32 + (bs.bytes_per_sector - 1)) / SECTOR_SIZE : Nat) : Int)
          data_sectors_count := 0
          first_data_sector := 0
          root_entries_count := bs.root_entries_count
          fat := []
          fat_size := 0 } := by
  unfold fat_open_fields at h ⊢
  by_cases c1 : bs.signature ≠ SIGNATURE
  · rw [if_pos c1] at h; cases h
  rw [if_neg c1] at h ⊢
  by_cases c2 : bs.bytes_per_sector ≠ SECTOR_SIZE
  · rw [if_pos c2] at h; cases h
  rw [if_neg c2] at h ⊢
  by_cases c3 : (!IS_POWER_TWO bs.sectors_per_cluster) = true ∨ bs.sectors_per_cluster > MAX_SECTORS_PER_CLUSTER
  · rw [if_pos c3] at h; cases h
  rw [if_neg c3] at h ⊢
  by_cases c4 : bs.number_of_fats = 0
  · rw [if_pos c4] at h; cases h
  rw [if_neg c4] at h ⊢
  by_cases c5 : bs.fat_size = 0
  · rw [if_pos c5] at h; cases h
  rw [if_neg c5] at h ⊢
  by_cases c6 : bs.reserved_sectors_count = 0
  · rw [if_pos c6] at h; cases h
  rw [if_neg c6] at h ⊢
  by_cases c7 : bs.total_sectors_count = 0 ∧ bs.total_sectors_count32 = 0
  · rw [if_pos c7] at h; cases h
  rw [if_neg c7] at h ⊢
  simp only [not_or, not_lt, Bool.not_eq_true', Bool.not_eq_false, gt_iff_lt, ne_eq, Decidable.not_not] at c1 c2 c3
  exact ⟨⟨c1, c2, by simpa using c3.1, c3.2, c4, c5, c6, c7⟩, rfl⟩

theorem fat_open_fields_bad (big_endian : Bool) (pdisk : disk_t) (bs : boot_sector_t)
    (hbad : bs.signature ≠ 0xAA55 ∨ bs.bytes_per_sector ≠ 512 ∨
      bs.sectors_per_cluster ∉ [1, 2, 4, 8, 16, 32, 64] ∨ bs.number_of_fats = 0 ∨ bs.fat_size = 0 ∨
      bs.reserved_sectors_count = 0 ∨ (bs.total_sectors_count = 0 ∧ bs.total_sectors_count32 = 0)) :
    fat_open_fields big_endian pdisk bs = .returned (.error .EINVAL) := by
  unfold fat_open_fields
  rw [← is_power_two_iff] at hbad
  simp only [SIGNATURE, SECTOR_SIZE] at hbad ⊢
  by_cases c1 : bs.signature ≠ 43605
  · simp only [if_pos c1]
  simp only [if_neg c1]
  by_cases c2 : bs.bytes_per_sector ≠ 512
  · simp only [if_pos c2]
  simp only [if_neg c2]
  by_cases c3 : (!IS_POWER_TWO bs.sectors_per_cluster) = true ∨ bs.sectors_per_cluster > MAX_SECTORS_PER_CLUSTER
  · simp only [if_pos c3]
  simp only [if_neg c3]
  by_cases c4 : bs.number_of_fats = 0
  · simp only [if_pos c4]
  simp only [if_neg c4]
  by_cases c5 : bs.fat_size = 0
  · simp only [if_pos c5]
  simp only [if_neg c5]
  by_cases c6 : bs.reserved_sectors_count = 0
  · simp only [if_pos c6]
  simp only [if_neg c6]
  by_cases c7 : bs.total_sectors_count = 0 ∧ bs.total_sectors_count32 = 0
  · simp only [if_pos c7]
  exfalso
  simp only [Bool.not_eq_true', not_or, not_lt, gt_iff_lt, Bool.not_eq_false] at c3
  rcases hbad with h | h | h | h | h | h | h
  · exact c1 h
  · exact c2 h
  · exact h ⟨by simpa using c3.1, c3.2⟩
  · exact c4 h
  · exact c5 h
  · exact c6 h
  · exact c7 h

/-- What `fat_open` has checked and computed when it returns a volume. -/
theorem fat_open_ok (big_endian : Bool) (pdisk : disk_t) (first_sector : Nat) (v : volume_t)
    (h : fat_open big_endian pdisk first_sector = .returned (.ok v)) :
    ∃ sector bs, disk_read pdisk (to_int32 first_sector) 1 = .ok sector ∧
      bs = boot_sector_of_bytes big_endian sector ∧
      (bs.signature = SIGNATURE ∧ bs.bytes_per_sector = SECTOR_SIZE ∧
        IS_POWER_TWO bs.sectors_per_cluster = true ∧ bs.sectors_per_cluster ≤ MAX_SECTORS_PER_CLUSTER ∧
        bs.number_of_fats ≠ 0 ∧ bs.fat_size ≠ 0 ∧ bs.reserved_sectors_count ≠ 0 ∧
        ¬ (bs.total_sectors_count = 0 ∧ bs.total_sectors_count32 = 0)) ∧
      FAT16_MIN_CLUSTERS ≤ v.data_sectors_count / v.sectors_per_cluster ∧
      v.data_sectors_count / v.sectors_per_cluster ≤ FAT16_MAX_CLUSTERS ∧
      v.disk = pdisk ∧ v.bytes_per_sector = SECTOR_SIZE ∧
      v.total_sectors_count =
        (if bs.total_sectors_count = 0 then bs.total_sectors_count32 else bs.total_sectors_count) ∧
      v.sectors_per_cluster = bs.sectors_per_cluster ∧
      v.bytes_per_cluster = bs.sectors_per_cluster * SECTOR_SIZE ∧
      v.boot_sectors_count = bs.reserved_sectors_count ∧
      v.fat_sectors_count = to_uint16 ((bs.number_of_fats * bs.fat_size : Nat) : Int) ∧
      v.root_sectors_count =
        to_uint32 (((bs.root_entries_count * 32 + (bs.bytes_per_sector - 1)) / SECTOR_SIZE : Nat) : Int) ∧
      v.data_sectors_count = to_uint32 ((v.total_sectors_count : Int) - v.first_data_sector) ∧
      v.first_data_sector =
        to_uint32 ((v.boot_sectors_count + v.fat_sectors_count + v.root_sectors_count : Nat) : Int) ∧
      v.root_entries_count = bs.root_entries_count ∧
      v.fat_size = to_uint16 ((bs.fat_size * SECTOR_SIZE / 2 : Nat) : Int) := by
  unfold fat_open at h
  split at h
  · cases h
  · rename_i sector hread
    refine ⟨sector, _, hread, rfl, ?_⟩
    generalize boot_sector_of_bytes big_endian sector = bs at h ⊢
    obtain ⟨hchecks, heq⟩ := fat_open_fields_ok _ _ _ _ h
    rw [heq] at h
    obtain ⟨hmin, hmax, fat, hv⟩ := fat_open_clusters_ok _ _ _ _ _ h
    subst hv
    exact ⟨hchecks, hmin, hmax, rfl, rfl, rfl, rfl, rfl, rfl, rfl, rfl, rfl, rfl, rfl, rfl⟩

theorem fat_open_fields_valid (big_endian : Bool) (pdisk : disk_t) (bs : boot_sector_t)
    (h : bs.signature = SIGNATURE ∧ bs.bytes_per_sector = SECTOR_SIZE ∧
      IS_POWER_TWO bs.sectors_per_cluster = true ∧ bs.sectors_per_cluster ≤ MAX_SECTORS_PER_CLUSTER ∧
      bs.number_of_fats ≠ 0 ∧ bs.fat_size ≠ 0 ∧ bs.reserved_sectors_count ≠ 0 ∧
      ¬ (bs.total_sectors_count = 0 ∧ bs.total_sectors_count32 = 0)) :
    fat_open_fields big_endian pdisk bs =
      fat_open_clusters big_endian pdisk bs
        { disk := pdisk
          bytes_per_sector := SECTOR_SIZE
          total_sectors_count :=
            if bs.total_sectors_count = 0 then bs.total_sectors_count32 else bs.total_sectors_count
          sectors_per_cluster := bs.sectors_per_cluster
          bytes_per_cluster := bs.sectors_per_cluster * SECTOR_SIZE
          boot_sectors_count := bs.reserved_sectors_count
          fat_sectors_count := to_uint16 ((bs.number_of_fats * bs.fat_size : Nat) : Int)
          root_sectors_count :=
            to_uint32 (((bs.root_entries_count * 32 + (bs.bytes_per_sector - 1)) / SECTOR_SIZE : Nat) : Int)
          data_sectors_count := 0
          first_data_sector := 0
          root_entries_count := bs.root_entries_count
          fat := []
          fat_size := 0 } := by
  obtain ⟨c1, c2, c3, c3', c4, c5, c6, c7⟩ := h
  unfold fat_open_fields
  rw [if_neg (by simpa using c1), if_neg (by simpa using c2),
    if_neg (by simp only [c3, Bool.not_true, gt_iff_lt, not_or, not_lt]; exact ⟨by decide, c3'⟩),
    if_neg c4, if_neg c5, if_neg c6, if_neg c7]

theorem fat_mirror_check_two (fats : List Nat) (fb : Nat) (hlen : fats.length = 2 * fb)
    (hfb : fb < 4294967296) (heq : (fats.drop 0).take fb = (fats.drop fb).take fb) :
    fat_mirror_check fats fb 1 0 = .returned (.ok ()) := by
  unfold fat_mirror_check
  have ha : 2 * to_uint32 (((0 : Nat) : Int) * (fb : Int)) = 0 := by
    simp [to_uint32]
  have hb : to_uint32 ((((0 : Nat) : Int) + 1) * (fb : Int)) = fb := by
    have := to_uint32_of_lt fb hfb
    simpa using this
  simp only [ha, hb]
  rw [if_neg (by omega), if_neg (by simpa using heq)]
  rfl

theorem fat_open_tables_accepts (pdisk : disk_t) (bs : boot_sector_t) (vol : volume_t) (fats : List Nat)
    (hread : disk_read pdisk bs.reserved_sectors_count ((bs.fat_size * bs.number_of_fats : Nat) : Int) = .ok fats)
    (hmirror : fat_mirror_check fats (bs.fat_size * SECTOR_SIZE) (bs.number_of_fats - 1) 0 = .returned (.ok ())) :
    fat_open_tables false pdisk bs vol = .returned (.ok
      { vol with
        fat := words_of_bytes false (fats.take (bs.fat_size * SECTOR_SIZE))
        disk := pdisk
        fat_size := to_uint16 ((bs.fat_size * SECTOR_SIZE / 2 : Nat) : Int)
        first_data_sector :=
          to_uint32 ((vol.boot_sectors_count + vol.fat_sectors_count + vol.root_sectors_count : Nat) : Int) }) := by
  unfold fat_open_tables
  simp only [hread, hmirror, is_little_endian]
  rfl

/-- C9: whenever the boot sector has been read, `fat_open` fails with
`EINVAL` if the signature is not 0xAA55, or `bytes_per_sector` is not 512, or
`sectors_per_cluster` is not one of 1, 2, 4, 8, 16, 32, 64, or
`number_of_fats`, `fat_size` or `reserved_sectors_count` is 0, or both total
sector fields are 0; and every volume `fat_open` returns has
`sectors_per_cluster` among 1, 2, 4, 8, 16, 32, 64 and
`bytes_per_cluster = sectors_per_cluster * 512`. -/
theorem fat_open_rejects_bad_fields (big_endian : Bool) (pdisk : disk_t) (first_sector : Nat)
    (sector : List Nat) (hread : disk_read pdisk (to_int32 first_sector) 1 = .ok sector) :
    (((boot_sector_of_bytes big_endian sector).signature ≠ 0xAA55 ∨
      (boot_sector_of_bytes big_endian sector).bytes_per_sector ≠ 512 ∨
      (boot_sector_of_bytes big_endian sector).sectors_per_cluster ∉ [1, 2, 4, 8, 16, 32, 64] ∨
      (boot_sector_of_bytes big_endian sector).number_of_fats = 0 ∨
      (boot_sector_of_bytes big_endian sector).fat_size = 0 ∨
      (boot_sector_of_bytes big_endian sector).reserved_sectors_count = 0 ∨
      ((boot_sector_of_bytes big_endian sector).total_sectors_count = 0 ∧
        (boot_sector_of_bytes big_endian sector).total_sectors_count32 = 0)) →
      fat_open big_endian pdisk first_sector = .returned (.error .EINVAL)) ∧
    (∀ v, fat_open big_endian pdisk first_sector = .returned (.ok v) →
      v.sectors_per_cluster ∈ [1, 2, 4, 8, 16, 32, 64] ∧
      v.bytes_per_cluster = v.sectors_per_cluster * 512) := by
  constructor
  · intro hbad
    unfold fat_open
    simp only [hread]
    exact fat_open_fields_bad _ _ _ hbad
  · intro v hv
    obtain ⟨sector', bs, _, _, hchecks, _, _, _, _, _, hspc, hbpc, _⟩ := fat_open_ok _ _ _ _ hv
    rw [hspc, hbpc]
    exact ⟨(is_power_two_iff _).1 ⟨hchecks.2.2.1, hchecks.2.2.2.1⟩, rfl⟩

set_option maxRecDepth 100000 in
/-- Witness of C9: the small volume with `sectors_per_cluster = 3` is rejected. -/
theorem fat_open_rejects_bad_fields_witness :
    disk_read disk_three_sectors_per_cluster (to_int32 (0 : Nat)) 1 =
      .ok (image_bytes disk_three_sectors_per_cluster 0 512) ∧
    fat_open false disk_three_sectors_per_cluster 0 = .returned (.error .EINVAL) :=
  ⟨rfl, (fat_open_rejects_bad_fields false disk_three_sectors_per_cluster 0
    (image_bytes disk_three_sectors_per_cluster 0 512) rfl).1 (Or.inr (Or.inr (Or.inl (by decide))))⟩

set_option maxRecDepth 100000 in
/-- C7 (what the code does): an image whose boot sector passes the field
checks and whose cluster count is exactly 65525 is accepted by `fat_open`. -/
theorem fat_open_accepts_65525_clusters :
    ∃ v, fat_open false disk_65525_clusters 0 = .returned (.ok v) ∧
      v.data_sectors_count / v.sectors_per_cluster = 65525 :=
  ⟨_, rfl, rfl⟩

set_option maxRecDepth 100000 in
/-- C8 (what the code does): with three FAT copies of which the third
differs from the first two in one byte, `fat_open` returns a volume. -/
theorem fat_open_accepts_differing_third_fat :
    ∃ v, fat_open false disk_three_fats 0 = .returned (.ok v) ∧
      (boot_sector_of_bytes false (image_bytes disk_three_fats 0 512)).number_of_fats = 3 ∧
      (boot_sector_of_bytes false (image_bytes disk_three_fats 0 512)).fat_size = 1 ∧
      image_bytes disk_three_fats 512 512 = image_bytes disk_three_fats 1024 512 ∧
      image_bytes disk_three_fats 1536 512 ≠ image_bytes disk_three_fats 1024 512 :=
  ⟨_, rfl, by decide, by decide, by decide, by decide⟩

theorem disk_big_fat_zero (i : Nat) (h : 512 ≤ i) : disk_big_fat.file i % 256 = 0 := by
  show (if i < 510 then big_fat_boot.getD i 0 else if i = 510 then 0x55 else if i = 511 then 0xAA else 0) % 256 = 0
  rw [if_neg (by omega), if_neg (by omega), if_neg (by omega)]

set_option maxRecDepth 100000 in
theorem disk_big_fat_boot_sector :
    boot_sector_of_bytes false (image_bytes disk_big_fat 0 512) =
      { bytes_per_sector := 512, sectors_per_cluster := 64, reserved_sectors_count := 1, number_of_fats := 2,
        root_entries_count := 512, total_sectors_count := 0, fat_size := 32768,
        total_sectors_count32 := 327009, signature := 0xAA55 } := by
  decide

/-- C10 (what the code does): on a volume with 1 reserved sector, 2 FATs of
32768 sectors and 32 root sectors, whose first data sector is
1 + 2 * 32768 + 32 = 65569, `fat_open` returns a volume with
`fat_sectors_count = 0` and `first_data_sector = 33`. -/
theorem fat_open_truncates_fat_sectors_count :
    ∃ v, fat_open false disk_big_fat 0 = .returned (.ok v) ∧
      v.fat_sectors_count = 0 ∧ v.first_data_sector = 33 ∧
      (boot_sector_of_bytes false (image_bytes disk_big_fat 0 512)).reserved_sectors_count +
        (boot_sector_of_bytes false (image_bytes disk_big_fat 0 512)).number_of_fats *
          (boot_sector_of_bytes false (image_bytes disk_big_fat 0 512)).fat_size +
        ((boot_sector_of_bytes false (image_bytes disk_big_fat 0 512)).root_entries_count * 32 + 511) / 512
        = 65569 := by
  have hboot : disk_read disk_big_fat (to_int32 ((0 : Nat) : Int)) 1 = .ok (image_bytes disk_big_fat 0 512) := by
    have h := disk_read_ok disk_big_fat 0 1 (by show 0 + 1 ≤ 327009; omega) (by omega) (by omega)
    rw [to_int32_of_lt 0 (by omega)]
    exact h
  have hfats : disk_read disk_big_fat ((1 : Nat) : Int) ((32768 * 2 : Nat) : Int) =
      .ok (image_bytes disk_big_fat 512 33554432) :=
    disk_read_ok disk_big_fat 1 (32768 * 2) (by show 1 + 32768 * 2 ≤ 327009; omega) (by omega) (by omega)
  have hmirror : fat_mirror_check (image_bytes disk_big_fat 512 33554432) (32768 * SECTOR_SIZE) (2 - 1) 0 =
      .returned (.ok ()) := by
    apply fat_mirror_check_two
    · rw [image_bytes_length]; rfl
    · simp only [SECTOR_SIZE]; omega
    · rw [image_bytes_slice _ _ _ _ _ (by simp only [SECTOR_SIZE]; omega),
        image_bytes_slice _ _ _ _ _ (by simp only [SECTOR_SIZE]; omega)]
      apply image_bytes_congr
      intro i _
      rw [disk_big_fat_zero _ (by omega), disk_big_fat_zero _ (by omega)]
  have hopen : fat_open false disk_big_fat 0 = fat_open_fields false disk_big_fat
      (boot_sector_of_bytes false (image_bytes disk_big_fat 0 512)) := by
    unfold fat_open
    simp only [hboot]
  rw [hopen]
  have e := disk_big_fat_boot_sector
  generalize boot_sector_of_bytes false (image_bytes disk_big_fat 0 512) = bs at e ⊢
  have e1 : bs.reserved_sectors_count = 1 := by rw [e]
  have e2 : bs.number_of_fats = 2 := by rw [e]
  have e3 : bs.fat_size = 32768 := by rw [e]
  have e4 : bs.root_entries_count = 512 := by rw [e]
  have e5 : bs.total_sectors_count = 0 := by rw [e]
  have e6 : bs.total_sectors_count32 = 327009 := by rw [e]
  have e7 : bs.sectors_per_cluster = 64 := by rw [e]
  have e8 : bs.bytes_per_sector = 512 := by rw [e]
  have e9 : bs.signature = 43605 := by rw [e]
  rw [fat_open_fields_valid _ _ _ (by rw [e]; decide)]
  unfold fat_open_clusters
  dsimp only
  have hfsc : to_uint16 ((bs.number_of_fats * bs.fat_size : Nat) : Int) = 0 := by
    rw [e2, e3]; decide
  have hroot : to_uint32 (((bs.root_entries_count * 32 + (bs.bytes_per_sector - 1)) / SECTOR_SIZE : Nat) : Int)
      = 32 := by
    rw [e4, e8]; decide
  rw [hfsc, hroot, e1, e5, e6, e7]
  rw [if_neg (by decide)]
  rw [fat_open_tables_accepts _ _ _ _ (by rw [e1, e2, e3]; exact hfats) (by rw [e2, e3]; exact hmirror)]
  refine ⟨_, rfl, rfl, ?_, ?_⟩
  · show to_uint32 ((1 + 0 + 32 : Nat) : Int) = 33
    decide
  · rw [e2, e3, e4]

/-! ## The refill of the cluster buffer -/

theorem well_formed_bpc_pos (f : file_t) (hf : well_formed f) : 0 < f.volume.bytes_per_cluster := by
  rw [hf.bpc]
  exact Nat.mul_pos hf.spc_pos (by decide)

theorem well_formed_index (f : file_t) (hf : well_formed f) (k : Nat) (hk : k < f.size) :
    k / f.volume.bytes_per_cluster < f.chain.clusters.length := by
  have hpos := well_formed_bpc_pos f hf
  rcases hf.chain_length with h | h
  · omega
  · rw [h]
    apply (Nat.div_lt_iff_lt_mul hpos).2
    have := Nat.lt_div_mul_add (a := f.size + f.volume.bytes_per_cluster - 1) hpos
    omega

theorem well_formed_sector (f : file_t) (hf : well_formed f) (j : Nat) (hj : j < f.chain.clusters.length) :
    f.chain.clusters[j]? = some (f.chain.clusters.getD j 0) ∧
    2 ≤ f.chain.clusters.getD j 0 ∧
    f.volume.first_data_sector ≤ chain_sector f j ∧
    chain_sector f j + f.volume.sectors_per_cluster ≤ f.volume.total_sectors_count := by
  have hget : f.chain.clusters[j]? = some (f.chain.clusters.getD j 0) := by
    rw [List.getD_eq_getElem?_getD, List.getElem?_eq_getElem hj]
    rfl
  have hmem : f.chain.clusters.getD j 0 ∈ f.chain.clusters := by
    rw [List.getD_eq_getElem _ _ hj]
    exact List.getElem_mem hj
  have h := hf.in_data _ hmem
  refine ⟨hget, h.1, ?_, h.2⟩
  unfold chain_sector
  omega

theorem refill_window_ok (f : file_t) (hf : well_formed f) (hk : f.offset < f.size)
    (dst : List Nat) (m : Nat) (reads : List Nat) :
    refill_window ⟨f, dst, m, reads⟩ =
      .next ⟨refilled f, dst, m, reads ++ [chain_sector f (f.offset / f.volume.bytes_per_cluster)]⟩ := by
  have hpos := well_formed_bpc_pos f hf
  have hidx := well_formed_index f hf _ hk
  obtain ⟨hget, h2, hlo, hhi⟩ := well_formed_sector f hf _ hidx
  have hspc := hf.spc_pos
  have hsec : to_uint32
      ((((f.chain.clusters.getD (f.offset / f.volume.bytes_per_cluster) 0 : Nat) : Int) - 2) *
        (f.volume.sectors_per_cluster : Int) + (f.volume.first_data_sector : Int)) =
      chain_sector f (f.offset / f.volume.bytes_per_cluster) := by
    have hcast : (((f.chain.clusters.getD (f.offset / f.volume.bytes_per_cluster) 0 : Nat) : Int) - 2) *
        (f.volume.sectors_per_cluster : Int) + (f.volume.first_data_sector : Int) =
        ((chain_sector f (f.offset / f.volume.bytes_per_cluster) : Nat) : Int) := by
      unfold chain_sector
      push_cast [Nat.cast_sub h2]
      ring
    rw [hcast]
    apply to_uint32_of_lt
    have := hf.total_small
    omega
  have hread := disk_read_ok f.volume.disk (chain_sector f (f.offset / f.volume.bytes_per_cluster))
    f.volume.sectors_per_cluster (by have := hf.total_le; omega) (by have := hf.total_small; omega)
    (by have := hf.spc_le; simp only [MAX_SECTORS_PER_CLUSTER] at this; omega)
  have hint : to_int32 ((chain_sector f (f.offset / f.volume.bytes_per_cluster) : Nat) : Int) =
      ((chain_sector f (f.offset / f.volume.bytes_per_cluster) : Nat) : Int) :=
    to_int32_of_lt _ (by have := hf.total_small; omega)
  have hdata : image_bytes f.volume.disk (chain_sector f (f.offset / f.volume.bytes_per_cluster) * SECTOR_SIZE)
      (f.volume.sectors_per_cluster * SECTOR_SIZE) = cluster_data f (f.offset / f.volume.bytes_per_cluster) := by
    unfold cluster_data
    rw [hf.bpc]
  have hlen : (cluster_data f (f.offset / f.volume.bytes_per_cluster)).length = f.read_buf.length := by
    unfold cluster_data
    rw [image_bytes_length, hf.buf_length]
  have hsize : to_uint32 ((f.chain.size : Int) - 1) = f.chain.clusters.length - 1 := by
    rw [hf.chain_size]
    have hle : f.chain.clusters.length ≤ f.size := by
      rcases hf.chain_length with h | h
      · omega
      · rw [h]
        apply Nat.le_of_lt_succ
        apply (Nat.div_lt_iff_lt_mul hpos).2
        have : f.size ≤ f.size * f.volume.bytes_per_cluster := Nat.le_mul_of_pos_right _ hpos
        rw [Nat.succ_mul]
        omega
    have hone : 0 < f.chain.clusters.length := Nat.lt_of_le_of_lt (Nat.zero_le _) hidx
    have := hf.size_lt
    clear hidx hget hlo hhi hsec hread hint hdata hlen
    unfold to_uint32
    omega
  have hend : to_uint32 ((f.size : Int) - f.offset) = f.size - f.offset := by
    have := to_uint32_of_lt (f.size - f.offset) (by have := hf.size_lt; omega)
    rw [← this]
    congr 1
    omega
  unfold refill_window
  simp only []
  rw [if_neg (by omega), hget]
  simp only [hsec]
  rw [if_neg (by omega), hint, hread]
  simp only [hdata]
  rw [if_neg (by omega), hlen, List.drop_length, List.append_nil, hsize, hend]
  rfl

/-! ## Sequential reading -/

theorem div_mod_of_bounds (k j b : Nat) (h1 : j * b ≤ k) (h2 : k < j * b + b) :
    k / b = j ∧ k % b = k - j * b := by
  have hdiv : k / b = j := Nat.div_eq_of_lt_le h1 (by rw [Nat.succ_mul]; exact h2)
  refine ⟨hdiv, ?_⟩
  have := Nat.mod_add_div k b
  rw [hdiv, Nat.mul_comm] at this
  omega

theorem image_bytes_eq_file_bytes (f : file_t) :
    ∀ n p k, (∀ i, i < n → f.volume.disk.file (p + i) % 256 = file_byte f (k + i)) →
      image_bytes f.volume.disk p n = file_bytes f k n := by
  intro n
  induction n with
  | zero => intro p k _; rfl
  | succ n ih =>
    intro p k h
    unfold image_bytes file_bytes at ih ⊢
    rw [List.range'_succ, List.range'_succ, List.map_cons, List.map_cons]
    congr 1
    · exact h 0 (Nat.succ_pos n)
    · apply ih
      intro i hi
      have := h (i + 1) (by omega)
      rw [show p + 1 + i = p + (i + 1) by omega, show k + 1 + i = k + (i + 1) by omega]
      exact this

theorem cluster_slice (f : file_t) (j n k : Nat) (h1 : j * f.volume.bytes_per_cluster ≤ k)
    (h2 : k + n ≤ j * f.volume.bytes_per_cluster + f.volume.bytes_per_cluster) :
    ((cluster_data f j).drop (k - j * f.volume.bytes_per_cluster)).take n = file_bytes f k n := by
  unfold cluster_data
  rw [image_bytes_slice _ _ _ _ _ (by omega)]
  apply image_bytes_eq_file_bytes
  intro i hi
  obtain ⟨hdiv, hmod⟩ := div_mod_of_bounds (k + i) j f.volume.bytes_per_cluster (by omega) (by omega)
  unfold file_byte
  rw [hdiv, hmod]
  have e : chain_sector f j * SECTOR_SIZE + (k - j * f.volume.bytes_per_cluster) + i =
      chain_sector f j * SECTOR_SIZE + (k + i - j * f.volume.bytes_per_cluster) := by omega
  rw [e]

theorem file_bytes_append (f : file_t) (k a b : Nat) :
    file_bytes f k a ++ file_bytes f (k + a) b = file_bytes f k (a + b) := by
  unfold file_bytes
  rw [← List.map_append, List.range'_append_1, Nat.add_comm b a]

theorem file_bytes_length (f : file_t) (k n : Nat) : (file_bytes f k n).length = n := by
  simp [file_bytes]

theorem chain_bounds (f : file_t) (hf : well_formed f) (hsize : 0 < f.size) (j : Nat)
    (hj : j < f.chain.clusters.length) :
    (j = f.chain.clusters.length - 1 →
      j * f.volume.bytes_per_cluster < f.size ∧
      f.size ≤ j * f.volume.bytes_per_cluster + f.volume.bytes_per_cluster) ∧
    (j ≠ f.chain.clusters.length - 1 →
      j * f.volume.bytes_per_cluster + f.volume.bytes_per_cluster < f.size) := by
  have hpos := well_formed_bpc_pos f hf
  have hlen : f.chain.clusters.length = (f.size + f.volume.bytes_per_cluster - 1) / f.volume.bytes_per_cluster := by
    rcases hf.chain_length with h | h
    · omega
    · exact h
  have hlo := Nat.div_mul_le_self (f.size + f.volume.bytes_per_cluster - 1) f.volume.bytes_per_cluster
  have hhi := Nat.lt_div_mul_add (a := f.size + f.volume.bytes_per_cluster - 1) hpos
  rw [← hlen] at hlo hhi
  constructor
  · intro h
    have hq : f.chain.clusters.length = j + 1 := by omega
    rw [hq, Nat.succ_mul] at hlo hhi
    omega
  · intro h
    have hle : j + 2 ≤ f.chain.clusters.length := by omega
    have hmul := Nat.mul_le_mul_right f.volume.bytes_per_cluster hle
    rw [Nat.add_mul] at hmul
    omega

theorem loaded_well_formed (f : file_t) (hf : well_formed f) (j k : Nat) : well_formed (loaded f j k) where
  spc_pos := hf.spc_pos
  spc_le := hf.spc_le
  bpc := hf.bpc
  total_le := hf.total_le
  total_small := hf.total_small
  size_lt := hf.size_lt
  chain_size := hf.chain_size
  chain_length := hf.chain_length
  in_data := hf.in_data
  buf_length := by
    show (cluster_data f j).length = f.volume.bytes_per_cluster
    unfold cluster_data
    exact image_bytes_length _ _ _

theorem window_limit_bounds (f : file_t) (hf : well_formed f) (hsize : 0 < f.size) (j : Nat)
    (hj : j < f.chain.clusters.length) :
    j * f.volume.bytes_per_cluster < window_limit f j ∧
    window_limit f j ≤ j * f.volume.bytes_per_cluster + f.volume.bytes_per_cluster ∧
    window_limit f j ≤ f.size ∧
    (window_limit f j ≠ f.size →
      window_limit f j = j * f.volume.bytes_per_cluster + f.volume.bytes_per_cluster ∧
      j + 1 < f.chain.clusters.length) := by
  have hpos := well_formed_bpc_pos f hf
  obtain ⟨hlast, hmid⟩ := chain_bounds f hf hsize j hj
  unfold window_limit
  by_cases h : j = f.chain.clusters.length - 1
  · rw [if_pos h]
    have := hlast h
    exact ⟨this.1, this.2, le_refl _, fun hne => absurd rfl hne⟩
  · rw [if_neg h]
    have := hmid h
    exact ⟨by omega, le_refl _, by omega, fun _ => ⟨rfl, by omega⟩⟩

theorem loaded_read_buf_end (f : file_t) (j k : Nat) :
    (loaded f j k).read_buf_end = window_limit f j - j * f.volume.bytes_per_cluster := by
  unfold loaded window_limit
  by_cases h : j = f.chain.clusters.length - 1
  · simp only [if_pos h]
  · simp only [if_neg h]
    omega

theorem loaded_available (f : file_t) (hf : well_formed f) (hsize : 0 < f.size) (j k : Nat)
    (hj : j < f.chain.clusters.length) (h1 : j * f.volume.bytes_per_cluster ≤ k)
    (h2 : k ≤ window_limit f j) :
    to_uint64 (((loaded f j k).read_buf_end : Int) - (loaded f j k).read_buf_cur) = window_limit f j - k := by
  rw [loaded_read_buf_end]
  show to_uint64 (((window_limit f j - j * f.volume.bytes_per_cluster : Nat) : Int) -
    ((k - j * f.volume.bytes_per_cluster : Nat) : Int)) = window_limit f j - k
  have hb := window_limit_bounds f hf hsize j hj
  have := hf.size_lt
  unfold to_uint64
  omega

theorem copy_loaded (f : file_t) (hf : well_formed f) (hsize : 0 < f.size) (j k n m : Nat)
    (dst reads : List Nat) (hj : j < f.chain.clusters.length)
    (h1 : j * f.volume.bytes_per_cluster ≤ k) (h2 : k + n ≤ window_limit f j) :
    copy_from_window ⟨loaded f j k, dst, m, reads⟩ n =
      some ⟨loaded f j (k + n), dst ++ file_bytes f k n, m - n, reads⟩ := by
  have hb := window_limit_bounds f hf hsize j hj
  have hlen : (loaded f j k).read_buf.length = f.volume.bytes_per_cluster :=
    (loaded_well_formed f hf j k).buf_length
  have hcur : (loaded f j k).read_buf_cur = k - j * f.volume.bytes_per_cluster := rfl
  unfold copy_from_window
  simp only []
  rw [if_pos (by rw [hlen, hcur]; omega)]
  have hoff : to_uint32 (((loaded f j k).offset : Int) + (n : Int)) = k + n := by
    have := to_uint32_of_lt (k + n) (by have := hf.size_lt; omega)
    rw [Nat.cast_add] at this
    exact this
  have hbytes : ((loaded f j k).read_buf.drop (loaded f j k).read_buf_cur).take n = file_bytes f k n :=
    cluster_slice f j n k h1 (by omega)
  rw [hoff, hbytes, hcur]
  have hc : k - j * f.volume.bytes_per_cluster + n = k + n - j * f.volume.bytes_per_cluster := by omega
  rw [hc]
  rfl

theorem step_within_window (f : file_t) (hf : well_formed f) (hsize : 0 < f.size) (j k m : Nat)
    (dst reads : List Nat) (hj : j < f.chain.clusters.length)
    (h1 : j * f.volume.bytes_per_cluster ≤ k) (h2 : k + m ≤ window_limit f j) :
    file_read_step ⟨loaded f j k, dst, m, reads⟩ =
      .next ⟨loaded f j (k + m), dst ++ file_bytes f k m, 0, reads⟩ := by
  unfold file_read_step
  simp only []
  rw [loaded_available f hf hsize j k hj h1 (by omega), if_pos (by omega),
    copy_loaded f hf hsize j k m m dst reads hj h1 h2, Nat.sub_self]

theorem copy_to_limit (f : file_t) (hf : well_formed f) (hsize : 0 < f.size) (j k m : Nat)
    (dst reads : List Nat) (hj : j < f.chain.clusters.length)
    (h1 : j * f.volume.bytes_per_cluster ≤ k) (h2 : k ≤ window_limit f j) :
    (if window_limit f j - k > 0 then
        copy_from_window ⟨loaded f j k, dst, m, reads⟩ (window_limit f j - k)
      else some ⟨loaded f j k, dst, m, reads⟩) =
      some ⟨loaded f j (window_limit f j), dst ++ file_bytes f k (window_limit f j - k),
        m - (window_limit f j - k), reads⟩ := by
  by_cases h : window_limit f j - k > 0
  · rw [if_pos h, copy_loaded f hf hsize j k _ m dst reads hj h1 (by omega)]
    have e : k + (window_limit f j - k) = window_limit f j := by omega
    rw [e]
  · rw [if_neg h]
    have e : window_limit f j - k = 0 := by omega
    have e2 : k = window_limit f j := by omega
    rw [e, ← e2]
    simp [file_bytes]

theorem step_to_end_of_file (f : file_t) (hf : well_formed f) (hsize : 0 < f.size) (j k m : Nat)
    (dst reads : List Nat) (hj : j < f.chain.clusters.length)
    (h1 : j * f.volume.bytes_per_cluster ≤ k) (h2 : k ≤ window_limit f j)
    (h3 : window_limit f j < k + m) (h4 : window_limit f j = f.size) :
    file_read_step ⟨loaded f j k, dst, m, reads⟩ =
      .brk ⟨loaded f j f.size, dst ++ file_bytes f k (f.size - k), m - (f.size - k), reads⟩ := by
  unfold file_read_step
  simp only []
  rw [loaded_available f hf hsize j k hj h1 h2, if_neg (by omega),
    copy_to_limit f hf hsize j k m dst reads hj h1 h2]
  simp only []
  rw [h4]
  exact if_pos rfl

theorem refilled_loaded (f : file_t) (hf : well_formed f) (j : Nat) :
    refilled (loaded f j (j * f.volume.bytes_per_cluster + f.volume.bytes_per_cluster)) =
      loaded f (j + 1) (j * f.volume.bytes_per_cluster + f.volume.bytes_per_cluster) := by
  have hpos := well_formed_bpc_pos f hf
  obtain ⟨hdiv, hmod⟩ := div_mod_of_bounds (j * f.volume.bytes_per_cluster + f.volume.bytes_per_cluster)
    (j + 1) f.volume.bytes_per_cluster (by rw [Nat.succ_mul]) (by rw [Nat.succ_mul]; omega)
  have hmul : (j + 1) * f.volume.bytes_per_cluster =
      j * f.volume.bytes_per_cluster + f.volume.bytes_per_cluster := Nat.succ_mul _ _
  unfold refilled
  show ({ loaded f j (j * f.volume.bytes_per_cluster + f.volume.bytes_per_cluster) with
      read_buf := cluster_data f
        ((j * f.volume.bytes_per_cluster + f.volume.bytes_per_cluster) / f.volume.bytes_per_cluster)
      read_buf_cur := (j * f.volume.bytes_per_cluster + f.volume.bytes_per_cluster) % f.volume.bytes_per_cluster
      read_buf_end :=
        if (j * f.volume.bytes_per_cluster + f.volume.bytes_per_cluster) / f.volume.bytes_per_cluster =
            f.chain.clusters.length - 1 then
          f.size - (j * f.volume.bytes_per_cluster + f.volume.bytes_per_cluster)
        else f.volume.bytes_per_cluster } : file_t) = _
  rw [hdiv, hmod]
  unfold loaded
  simp only [hmul, Nat.sub_self]

theorem step_to_next_cluster (f : file_t) (hf : well_formed f) (hsize : 0 < f.size) (j k m : Nat)
    (dst reads : List Nat) (hj : j < f.chain.clusters.length)
    (h1 : j * f.volume.bytes_per_cluster ≤ k) (h2 : k ≤ window_limit f j)
    (h3 : window_limit f j < k + m) (h4 : window_limit f j ≠ f.size) :
    file_read_step ⟨loaded f j k, dst, m, reads⟩ =
      .next ⟨loaded f (j + 1) (window_limit f j), dst ++ file_bytes f k (window_limit f j - k),
        m - (window_limit f j - k), reads ++ [chain_sector f (j + 1)]⟩ := by
  have hb := window_limit_bounds f hf hsize j hj
  obtain ⟨hlim, hnext⟩ := hb.2.2.2 h4
  unfold file_read_step
  simp only []
  rw [loaded_available f hf hsize j k hj h1 h2, if_neg (by omega),
    copy_to_limit f hf hsize j k m dst reads hj h1 h2]
  simp only []
  rw [if_neg (by show ¬ window_limit f j = f.size; exact h4)]
  rw [refill_window_ok (loaded f j (window_limit f j)) (loaded_well_formed f hf _ _)
    (by show window_limit f j < f.size; omega)]
  rw [hlim, refilled_loaded f hf j]
  have hdiv := (div_mod_of_bounds (j * f.volume.bytes_per_cluster + f.volume.bytes_per_cluster)
    (j + 1) f.volume.bytes_per_cluster (by rw [Nat.succ_mul])
    (by rw [Nat.succ_mul]; have := well_formed_bpc_pos f hf; omega)).1
  show read_step.next ⟨_, _, _, reads ++ [chain_sector f
    ((j * f.volume.bytes_per_cluster + f.volume.bytes_per_cluster) / f.volume.bytes_per_cluster)]⟩ = _
  rw [hdiv]

theorem refilled_fresh (f : file_t) (hf : well_formed f) (hfresh : freshly_opened f) :
    refilled f = loaded f 0 0 := by
  have hpos := well_formed_bpc_pos f hf
  obtain ⟨h0, _, _⟩ := hfresh
  unfold refilled loaded
  simp only [h0, Nat.zero_div, Nat.zero_mod, Nat.zero_mul, Nat.sub_zero]

theorem step_fresh (f : file_t) (hf : well_formed f) (hfresh : freshly_opened f) (hsize : 0 < f.size)
    (m : Nat) (hm : 0 < m) (dst reads : List Nat) :
    file_read_step ⟨f, dst, m, reads⟩ = .next ⟨loaded f 0 0, dst, m, reads ++ [chain_sector f 0]⟩ := by
  have hpos := well_formed_bpc_pos f hf
  obtain ⟨h0, hcur, hend⟩ := hfresh
  unfold file_read_step
  simp only []
  have havail : to_uint64 ((f.read_buf_end : Int) - f.read_buf_cur) = 0 := by
    rw [hcur, hend]
    simp [to_uint64]
  rw [havail, if_neg (by omega), if_neg (by omega)]
  simp only []
  rw [if_neg (by omega), refill_window_ok f hf (by omega), refilled_fresh f hf ⟨h0, hcur, hend⟩, h0,
    Nat.zero_div]

theorem file_read_loop_done (T fuel : Nat) (s : read_state) (h : s.remaining = 0) :
    file_read_loop T fuel s = some (.returned ⟨s.file, s.dst, T - s.remaining, none, s.device_reads⟩) := by
  cases fuel with
  | zero => rw [file_read_loop, if_pos h]
  | succ n => rw [file_read_loop, if_pos h]

theorem file_read_loop_step (T fuel : Nat) (s : read_state) (h : s.remaining ≠ 0) :
    file_read_loop T (fuel + 1) s =
      match file_read_step s with
      | .next s1 => file_read_loop T fuel s1
      | .brk s1 => some (.returned ⟨s1.file, s1.dst, T - s1.remaining, none, s1.device_reads⟩)
      | .error s1 e => some (.returned ⟨s1.file, s1.dst, SIZE_MAX, some e, s1.device_reads⟩)
      | .undefined => some .undefined := by
  rw [file_read_loop, if_neg h]

theorem file_read_loop_no_fuel (T : Nat) (s : read_state) (h : s.remaining ≠ 0) :
    file_read_loop T 0 s = none := by
  rw [file_read_loop, if_neg h]

theorem after_reading_eq_loaded (f : file_t) (j K : Nat) (h1 : j * f.volume.bytes_per_cluster < K)
    (h2 : K ≤ j * f.volume.bytes_per_cluster + f.volume.bytes_per_cluster) :
    after_reading f K = loaded f j K := by
  unfold after_reading
  rw [if_neg (by omega), (div_mod_of_bounds (K - 1) j f.volume.bytes_per_cluster (by omega) (by omega)).1]

theorem read_loop_loaded (f : file_t) (hf : well_formed f) (hsize : 0 < f.size) (T : Nat) :
    ∀ d j k m dst reads fuel, f.chain.clusters.length - j ≤ d → j < f.chain.clusters.length →
      j * f.volume.bytes_per_cluster ≤ k → k ≤ window_limit f j → k < f.size → 0 < m → d + 1 ≤ fuel →
      ∃ reads', file_read_loop T fuel ⟨loaded f j k, dst, m, reads⟩ =
        some (.returned ⟨after_reading f (k + min m (f.size - k)),
          dst ++ file_bytes f k (min m (f.size - k)), T - (m - min m (f.size - k)), none, reads'⟩) := by
  intro d
  induction d with
  | zero => intro j k m dst reads fuel hd hj; omega
  | succ d ih =>
    intro j k m dst reads fuel hd hj h1 h2 hk hm hfuel
    obtain ⟨fuel', rfl⟩ : ∃ fuel', fuel = fuel' + 1 := ⟨fuel - 1, by omega⟩
    have hb := window_limit_bounds f hf hsize j hj
    rw [file_read_loop_step T fuel' _ (by show m ≠ 0; omega)]
    by_cases hcase : k + m ≤ window_limit f j
    · rw [step_within_window f hf hsize j k m dst reads hj h1 hcase]
      simp only []
      rw [file_read_loop_done T fuel' _ rfl]
      have hmin : min m (f.size - k) = m := by omega
      rw [hmin, after_reading_eq_loaded f j (k + m) (by omega) (by omega)]
      exact ⟨reads, by simp⟩
    · by_cases hlast : window_limit f j = f.size
      · rw [step_to_end_of_file f hf hsize j k m dst reads hj h1 h2 (by omega) hlast]
        simp only []
        have hmin : min m (f.size - k) = f.size - k := by omega
        have hk2 : k + (f.size - k) = f.size := by omega
        rw [hmin, hk2, after_reading_eq_loaded f j f.size (by omega) (by omega)]
        exact ⟨reads, rfl⟩
      · obtain ⟨hlim, hnext⟩ := hb.2.2.2 hlast
        rw [step_to_next_cluster f hf hsize j k m dst reads hj h1 h2 (by omega) hlast]
        simp only []
        have hb' := window_limit_bounds f hf hsize (j + 1) hnext
        have hmul : (j + 1) * f.volume.bytes_per_cluster =
            j * f.volume.bytes_per_cluster + f.volume.bytes_per_cluster := Nat.succ_mul _ _
        obtain ⟨reads', hloop⟩ := ih (j + 1) (window_limit f j) (m - (window_limit f j - k))
          (dst ++ file_bytes f k (window_limit f j - k)) (reads ++ [chain_sector f (j + 1)]) fuel'
          (by omega) hnext (by omega) (by omega) (by omega) (by omega) (by omega)
        refine ⟨reads', ?_⟩
        rw [hloop]
        have e1 : window_limit f j + min (m - (window_limit f j - k)) (f.size - window_limit f j) =
            k + min m (f.size - k) := by omega
        have e2 : min m (f.size - k) =
            (window_limit f j - k) + min (m - (window_limit f j - k)) (f.size - window_limit f j) := by omega
        have e3 : T - (m - (window_limit f j - k) -
            min (m - (window_limit f j - k)) (f.size - window_limit f j)) = T - (m - min m (f.size - k)) := by
          omega
        rw [e1, e3, List.append_assoc]
        have e4 : file_bytes f k (window_limit f j - k) ++ file_bytes f (window_limit f j)
            (min (m - (window_limit f j - k)) (f.size - window_limit f j)) =
            file_bytes f k (min m (f.size - k)) := by
          have := file_bytes_append f k (window_limit f j - k)
            (min (m - (window_limit f j - k)) (f.size - window_limit f j))
          rw [show k + (window_limit f j - k) = window_limit f j by omega] at this
          rw [this, ← e2]
        rw [e4]

theorem after_reading_offset (f : file_t) (hfresh : freshly_opened f) (K : Nat) :
    (after_reading f K).offset = K ∧ (after_reading f K).size = f.size := by
  unfold after_reading
  by_cases h : K = 0
  · rw [if_pos h, h]
    exact ⟨hfresh.1, rfl⟩
  · rw [if_neg h]
    exact ⟨rfl, rfl⟩

theorem window_limit_ge (f : file_t) (hf : well_formed f) (K : Nat) (h0 : 0 < K) (hK : K ≤ f.size) :
    (K - 1) / f.volume.bytes_per_cluster < f.chain.clusters.length ∧
    (K - 1) / f.volume.bytes_per_cluster * f.volume.bytes_per_cluster < K ∧
    K ≤ window_limit f ((K - 1) / f.volume.bytes_per_cluster) := by
  have hpos := well_formed_bpc_pos f hf
  have hidx := well_formed_index f hf (K - 1) (by omega)
  have hlo := Nat.div_mul_le_self (K - 1) f.volume.bytes_per_cluster
  have hhi := Nat.lt_div_mul_add (a := K - 1) hpos
  refine ⟨hidx, by omega, ?_⟩
  unfold window_limit
  split
  · exact hK
  · omega

theorem file_read_internal_sequential (f : file_t) (hf : well_formed f) (hfresh : freshly_opened f)
    (K n fuel : Nat) (hK : K < f.size) (hn : 0 < n) (hfuel : f.chain.clusters.length + 2 ≤ fuel) :
    ∃ reads, file_read_internal fuel (after_reading f K) n =
      some (.returned ⟨after_reading f (K + min n (f.size - K)), file_bytes f K (min n (f.size - K)),
        min n (f.size - K), none, reads⟩) := by
  have hsize : 0 < f.size := by omega
  obtain ⟨hoff, hsz⟩ := after_reading_offset f hfresh K
  unfold file_read_internal
  rw [if_neg (by rw [hoff, hsz]; omega)]
  have hval : n - (n - min n (f.size - K)) = min n (f.size - K) := by omega
  by_cases h0 : K = 0
  · subst h0
    obtain ⟨fuel', rfl⟩ : ∃ fuel', fuel = fuel' + 1 := ⟨fuel - 1, by omega⟩
    have hstart : after_reading f 0 = f := if_pos rfl
    rw [hstart, file_read_loop_step n fuel' _ (by show n ≠ 0; omega), step_fresh f hf hfresh hsize n hn]
    simp only []
    have hlen := well_formed_index f hf 0 hsize
    rw [Nat.zero_div] at hlen
    obtain ⟨reads, hloop⟩ := read_loop_loaded f hf hsize n f.chain.clusters.length 0 0 n []
      ([] ++ [chain_sector f 0]) fuel' (by omega) hlen (by omega) (by omega) hsize hn (by omega)
    refine ⟨reads, ?_⟩
    rw [hloop, hval, List.nil_append]
  · obtain ⟨hidx, hlo, hhi⟩ := window_limit_ge f hf K (by omega) (by omega)
    have hstart : after_reading f K = loaded f ((K - 1) / f.volume.bytes_per_cluster) K := if_neg h0
    obtain ⟨reads, hloop⟩ := read_loop_loaded f hf hsize n f.chain.clusters.length
      ((K - 1) / f.volume.bytes_per_cluster) K n [] [] fuel (Nat.sub_le _ _) hidx (by omega) hhi hK hn
      (by omega)
    refine ⟨reads, ?_⟩
    rw [hstart, hloop, hval, List.nil_append]

/-- Reading in sequence from a freshly opened well-formed file: after `K`
bytes, a request of `nmemb` elements of `size` bytes delivers the
`v = min (size * nmemb) (file size - K)` bytes of the file from `K` on, leaves
the handle that `K + v` bytes read in sequence leave, and returns `nmemb` when
`v = size * nmemb` and `v / size` otherwise. -/
theorem file_read_sequential (f : file_t) (hf : well_formed f) (hfresh : freshly_opened f)
    (K size nmemb fuel : Nat) (hK : K ≤ f.size) (hsize : 1 ≤ size)
    (hn : size * nmemb < 18446744073709551616) (hfuel : f.chain.clusters.length + 2 ≤ fuel) :
    ∃ reads, file_read fuel size nmemb (after_reading f K) =
      some (.returned ⟨after_reading f (K + min (size * nmemb) (f.size - K)),
        file_bytes f K (min (size * nmemb) (f.size - K)),
        (if min (size * nmemb) (f.size - K) = size * nmemb then nmemb
          else min (size * nmemb) (f.size - K) / size), none, reads⟩) := by
  obtain ⟨hoff, hsz⟩ := after_reading_offset f hfresh K
  have hreq : to_uint64 ((nmemb * size : Nat) : Int) = size * nmemb := by
    rw [Nat.mul_comm]
    exact to_uint64_of_lt _ hn
  unfold file_read
  simp only [hreq]
  by_cases hn0 : size * nmemb = 0
  · rw [if_pos hn0]
    have hz : nmemb = 0 := by
      rcases Nat.mul_eq_zero.1 hn0 with h1 | h1
      · omega
      · exact h1
    subst hz
    exact ⟨[], by simp [file_bytes]⟩
  rw [if_neg hn0]
  by_cases hend : K = f.size
  · have hint : file_read_internal fuel (after_reading f K) (size * nmemb) =
        some (.returned ⟨after_reading f K, [], 0, none, []⟩) := by
      unfold file_read_internal
      rw [if_pos (by rw [hoff, hsz, hend])]
    rw [hint]
    simp only []
    have hmin : min (size * nmemb) (f.size - K) = 0 := by omega
    rw [hmin, if_neg (by decide), if_neg (fun h => hn0 h.symm)]
    exact ⟨[], by simp [file_bytes]⟩
  · obtain ⟨reads, hint⟩ := file_read_internal_sequential f hf hfresh K (size * nmemb) fuel (by omega)
      (by omega) hfuel
    rw [hint]
    simp only []
    have hlt := hf.size_lt
    rw [if_neg (by simp only [SIZE_MAX]; omega)]
    exact ⟨reads, rfl⟩

theorem file_read_sequential_bytes (f : file_t) (hf : well_formed f) (hfresh : freshly_opened f)
    (K n fuel : Nat) (hK : K ≤ f.size) (hn : K + n ≤ f.size)
    (hfuel : f.chain.clusters.length + 2 ≤ fuel) :
    ∃ reads, file_read fuel 1 n (after_reading f K) =
      some (.returned ⟨after_reading f (K + n), file_bytes f K n, n, none, reads⟩) := by
  have hlt := hf.size_lt
  obtain ⟨reads, h⟩ := file_read_sequential f hf hfresh K 1 n fuel hK (le_refl 1) (by omega) hfuel
  have hmin : min (1 * n) (f.size - K) = n := by omega
  rw [hmin, Nat.one_mul, if_pos rfl] at h
  exact ⟨reads, h⟩

/-! ## `file_open` leaves a fresh handle -/

theorem file_open_scan_fresh (big_endian : Bool) (fuel : Nat) (pvolume : volume_t)
    (root_dir read_buf file_name : List Nat) (f : file_t) :
    ∀ count i, file_open_scan big_endian fuel pvolume root_dir read_buf file_name count i =
        some (.returned (.ok f)) →
      f.volume = pvolume ∧ f.read_buf = read_buf ∧ freshly_opened f := by
  intro count
  induction count with
  | zero =>
    intro i h
    unfold file_open_scan at h
    cases h
  | succ n ih =>
    intro i h
    unfold file_open_scan at h
    simp only [] at h
    split at h
    · cases h
    · split at h
      · cases h
      · split at h
        · exact ih _ h
        · split at h
          · split at h
            · cases h
            · split at h
              · cases h
              · cases h
              · simp only [Option.some.injEq, outcome.returned.injEq, Except.ok.injEq] at h
                subst h
                exact ⟨rfl, rfl, rfl, rfl, rfl⟩
          · exact ih _ h

theorem file_open_fresh (big_endian : Bool) (fuel : Nat) (pvolume : volume_t) (file_name : List Nat)
    (f : file_t) (h : file_open big_endian fuel pvolume file_name = some (.returned (.ok f))) :
    f.volume = pvolume ∧ f.read_buf.length = pvolume.bytes_per_cluster ∧ freshly_opened f := by
  unfold file_open at h
  split at h
  · cases h
  · split at h
    · cases h
    · obtain ⟨h1, h2, h3⟩ := file_open_scan_fresh _ _ _ _ _ _ _ _ _ h
      exact ⟨h1, by rw [h2, List.length_replicate], h3⟩

/-! ## The value returned by `file_read` -/

theorem copy_from_window_length (s s1 : read_state) (n : Nat) (hn : n ≤ s.remaining)
    (h : copy_from_window s n = some s1) :
    s1.dst.length + s1.remaining = s.dst.length + s.remaining := by
  unfold copy_from_window at h
  split at h
  · rename_i hfit
    simp only [Option.some.injEq] at h
    subst h
    simp only [List.length_append, List.length_take, List.length_drop]
    omega
  · cases h

theorem refill_window_length (s s1 : read_state) (h : refill_window s = .next s1) :
    s1.dst.length + s1.remaining = s.dst.length + s.remaining := by
  unfold refill_window at h
  simp only [] at h
  split at h
  · cases h
  · split at h
    · cases h
    · split at h
      · cases h
      · split at h
        · cases h
        · split at h
          · cases h
          · simp only [read_step.next.injEq] at h
            subst h
            rfl

theorem file_read_step_length (s s1 : read_state)
    (h : file_read_step s = .next s1 ∨ file_read_step s = .brk s1) :
    s1.dst.length + s1.remaining = s.dst.length + s.remaining := by
  unfold file_read_step at h
  simp only [] at h
  split at h
  · rename_i hle
    split at h
    · rcases h with h | h <;> cases h
    · rename_i s2 hcopy
      have hlen := copy_from_window_length s s2 _ (le_refl _) hcopy
      rcases h with h | h
      · simp only [read_step.next.injEq] at h
        subst h
        exact hlen
      · cases h
  · rename_i hgt
    split at h
    · rcases h with h | h <;> cases h
    · rename_i s2 hcopy
      have hlen : s2.dst.length + s2.remaining = s.dst.length + s.remaining := by
        split at hcopy
        · exact copy_from_window_length s s2 _ (by omega) hcopy
        · simp only [Option.some.injEq] at hcopy
          subst hcopy
          rfl
      split at h
      · rcases h with h | h
        · cases h
        · simp only [read_step.brk.injEq] at h
          subst h
          exact hlen
      · rcases h with h | h
        · rw [← hlen]
          exact refill_window_length s2 s1 h
        · exfalso
          unfold refill_window at h
          simp only [] at h
          split at h
          · cases h
          · split at h
            · cases h
            · split at h
              · cases h
              · split at h
                · cases h
                · split at h <;> cases h

theorem file_read_loop_value (T : Nat) :
    ∀ fuel s r, file_read_loop T fuel s = some (.returned r) → r.err = none →
      s.dst.length + s.remaining = T → r.value = r.dst.length ∧ r.value ≤ T := by
  intro fuel
  induction fuel with
  | zero =>
    intro s r h herr hinv
    by_cases h0 : s.remaining = 0
    · rw [file_read_loop_done T 0 s h0] at h
      simp only [Option.some.injEq, outcome.returned.injEq] at h
      subst h
      simp only []
      omega
    · rw [file_read_loop_no_fuel T s h0] at h
      cases h
  | succ n ih =>
    intro s r h herr hinv
    by_cases h0 : s.remaining = 0
    · rw [file_read_loop_done T _ s h0] at h
      simp only [Option.some.injEq, outcome.returned.injEq] at h
      subst h
      simp only []
      omega
    · rw [file_read_loop_step T n s h0] at h
      cases hstep : file_read_step s with
      | next s1 =>
        rw [hstep] at h
        exact ih s1 r h herr (by rw [file_read_step_length s s1 (Or.inl hstep)]; exact hinv)
      | brk s1 =>
        rw [hstep] at h
        simp only [Option.some.injEq, outcome.returned.injEq] at h
        subst h
        have := file_read_step_length s s1 (Or.inr hstep)
        simp only []
        omega
      | error s1 e =>
        rw [hstep] at h
        simp only [Option.some.injEq, outcome.returned.injEq] at h
        subst h
        cases herr
      | undefined =>
        rw [hstep] at h
        cases h

theorem file_read_internal_value (fuel : Nat) (file : file_t) (T : Nat) (r : read_ret)
    (h : file_read_internal fuel file T = some (.returned r)) (herr : r.err = none) :
    r.value = r.dst.length ∧ r.value ≤ T := by
  unfold file_read_internal at h
  split at h
  · simp only [Option.some.injEq, outcome.returned.injEq] at h
    subst h
    exact ⟨rfl, Nat.zero_le _⟩
  · exact file_read_loop_value T fuel _ r h herr (Nat.zero_add T)

theorem file_read_value (fuel size nmemb : Nat) (stream : file_t) (r : read_ret)
    (hsize : 1 ≤ size) (hfit : size * nmemb < SIZE_MAX)
    (h : file_read fuel size nmemb stream = some (.returned r)) (herr : r.err = none) :
    r.value = if r.dst.length = size * nmemb then nmemb else r.dst.length / size := by
  have hreq : to_uint64 ((nmemb * size : Nat) : Int) = size * nmemb := by
    rw [Nat.mul_comm]
    exact to_uint64_of_lt _ (by simp only [SIZE_MAX] at hfit; omega)
  unfold file_read at h
  simp only [hreq] at h
  split at h
  · rename_i h0
    simp only [Option.some.injEq, outcome.returned.injEq] at h
    subst h
    have hn : nmemb = 0 := by
      rcases Nat.mul_eq_zero.1 h0 with h1 | h1
      · omega
      · exact h1
    simp [hn]
  · split at h
    · cases h
    · cases h
    · rename_i r0 hint
      split at h
      · rename_i hmax
        simp only [Option.some.injEq, outcome.returned.injEq] at h
        subst h
        have := file_read_internal_value fuel stream _ r0 hint herr
        omega
      · simp only [Option.some.injEq, outcome.returned.injEq] at h
        subst h
        have := file_read_internal_value fuel stream _ r0 hint herr
        simp only []
        rw [← this.1]

/-! ## `file_read` after a seek into the last cluster -/

theorem step_empty_window (f : file_t) (hf : well_formed f) (hempty : f.read_buf_cur = f.read_buf_end)
    (hk : f.offset < f.size) (m : Nat) (hm : 0 < m) (dst reads : List Nat) :
    file_read_step ⟨f, dst, m, reads⟩ =
      .next ⟨refilled f, dst, m, reads ++ [chain_sector f (f.offset / f.volume.bytes_per_cluster)]⟩ := by
  unfold file_read_step
  simp only []
  have havail : to_uint64 ((f.read_buf_end : Int) - f.read_buf_cur) = 0 := by
    rw [hempty]
    simp [to_uint64]
  rw [havail, if_neg (by omega), if_neg (by omega)]
  simp only []
  rw [if_neg (by omega), refill_window_ok f hf hk]

theorem file_seek_well_formed (f : file_t) (hf : well_formed f) (offset whence : Int) :
    well_formed (file_seek f offset whence).file := by
  unfold file_seek
  simp only []
  split_ifs <;>
    exact ⟨hf.spc_pos, hf.spc_le, hf.bpc, hf.total_le, hf.total_small, hf.size_lt, hf.chain_size,
      hf.chain_length, hf.in_data, hf.buf_length⟩

theorem refilled_well_formed (f : file_t) (hf : well_formed f) : well_formed (refilled f) where
  spc_pos := hf.spc_pos
  spc_le := hf.spc_le
  bpc := hf.bpc
  total_le := hf.total_le
  total_small := hf.total_small
  size_lt := hf.size_lt
  chain_size := hf.chain_size
  chain_length := hf.chain_length
  in_data := hf.in_data
  buf_length := by
    show (cluster_data f _).length = f.volume.bytes_per_cluster
    unfold cluster_data
    exact image_bytes_length _ _ _

theorem file_seek_set (f : file_t) (o : Nat) (ho : o ≤ f.size) (ho31 : o < 2147483648) :
    file_seek f (o : Int) SEEK_SET =
      ⟨{ f with offset := o, read_buf_cur := f.read_buf_end }, 0, none⟩ := by
  unfold file_seek
  simp only [if_true]
  rw [to_uint32_of_lt o (by omega), if_neg (by omega)]

/-- The empty window after a seek, for every file: after a seek to a position `o` of
the last cluster with `o mod bytes_per_cluster = size - o`, the refill leaves
an empty window, and a read of `n > 0` bytes never returns. -/
theorem file_read_never_returns_at_half_window (f : file_t) (hf : well_formed f) (o n : Nat)
    (ho : o < f.size) (ho31 : o < 2147483648)
    (hlast : o / f.volume.bytes_per_cluster = f.chain.clusters.length - 1)
    (hhalf : o % f.volume.bytes_per_cluster = f.size - o) (hn : 0 < n)
    (hn64 : n < 18446744073709551616) :
    ∀ fuel, file_read fuel 1 n (file_seek f (o : Int) SEEK_SET).file = none := by
  rw [file_seek_set f o (by omega) ho31]
  simp only []
  have hwf0 : well_formed { f with offset := o, read_buf_cur := f.read_buf_end } :=
    ⟨hf.spc_pos, hf.spc_le, hf.bpc, hf.total_le, hf.total_small, hf.size_lt, hf.chain_size,
      hf.chain_length, hf.in_data, hf.buf_length⟩
  have hwf1 := refilled_well_formed _ hwf0
  have hempty : (refilled { f with offset := o, read_buf_cur := f.read_buf_end }).read_buf_cur =
      (refilled { f with offset := o, read_buf_cur := f.read_buf_end }).read_buf_end := by
    show o % f.volume.bytes_per_cluster =
      if o / f.volume.bytes_per_cluster = f.chain.clusters.length - 1 then f.size - o
      else f.volume.bytes_per_cluster
    rw [if_pos hlast, hhalf]
  have hloop : ∀ fuel reads, file_read_loop n fuel
      ⟨refilled { f with offset := o, read_buf_cur := f.read_buf_end }, [], n, reads⟩ = none := by
    intro fuel
    induction fuel with
    | zero =>
      intro reads
      exact file_read_loop_no_fuel n _ (by show n ≠ 0; omega)
    | succ k ih =>
      intro reads
      rw [file_read_loop_step n k _ (by show n ≠ 0; omega),
        step_empty_window _ hwf1 hempty (by show o < f.size; exact ho) n hn]
      exact ih _
  intro fuel
  have hint : file_read_internal fuel { f with offset := o, read_buf_cur := f.read_buf_end } n = none := by
    unfold file_read_internal
    rw [if_neg (by show ¬ o = f.size; omega)]
    cases fuel with
    | zero => exact file_read_loop_no_fuel n _ (by show n ≠ 0; omega)
    | succ k =>
      rw [file_read_loop_step n k _ (by show n ≠ 0; omega),
        step_empty_window _ hwf0 rfl (by show o < f.size; exact ho) n hn]
      exact hloop k _
  have hreq : to_uint64 ((n * 1 : Nat) : Int) = n := by
    rw [Nat.mul_one]
    exact to_uint64_of_lt n hn64
  unfold file_read
  simp only []
  rw [hreq, if_neg (by omega), hint]

/-- The reversed window after a seek, for every file: after a seek to a position `o` of
the last cluster with `size - o < o mod bytes_per_cluster`, a read of `n`
bytes that stays inside the cluster buffer returns `n`, also when
`n > size - o`, and moves the offset to `o + n`. -/
theorem file_read_past_end_after_seek (f : file_t) (hf : well_formed f) (o n fuel : Nat)
    (ho : o < f.size) (ho31 : o < 2147483648)
    (hlast : o / f.volume.bytes_per_cluster = f.chain.clusters.length - 1)
    (hneg : f.size - o < o % f.volume.bytes_per_cluster) (hn : 0 < n)
    (hfit : o % f.volume.bytes_per_cluster + n ≤ f.volume.bytes_per_cluster) (hfuel : 2 ≤ fuel) :
    ∃ r, file_read fuel 1 n (file_seek f (o : Int) SEEK_SET).file = some (.returned r) ∧
      r.value = n ∧ r.err = none ∧ r.file.offset = o + n ∧ r.file.size = f.size := by
  obtain ⟨fuel', rfl⟩ : ∃ fuel', fuel = fuel' + 2 := ⟨fuel - 2, by omega⟩
  have hpos := well_formed_bpc_pos f hf
  have hbpc : f.volume.bytes_per_cluster ≤ 32768 := by
    have := hf.spc_le
    rw [hf.bpc]
    simp only [MAX_SECTORS_PER_CLUSTER, SECTOR_SIZE] at this ⊢
    omega
  have hsz := hf.size_lt
  rw [file_seek_set f o (by omega) ho31]
  simp only []
  have hwf0 : well_formed { f with offset := o, read_buf_cur := f.read_buf_end } :=
    ⟨hf.spc_pos, hf.spc_le, hf.bpc, hf.total_le, hf.total_small, hf.size_lt, hf.chain_size,
      hf.chain_length, hf.in_data, hf.buf_length⟩
  have hwf1 := refilled_well_formed _ hwf0
  have hcur : (refilled { f with offset := o, read_buf_cur := f.read_buf_end }).read_buf_cur =
      o % f.volume.bytes_per_cluster := rfl
  have hend : (refilled { f with offset := o, read_buf_cur := f.read_buf_end }).read_buf_end =
      f.size - o := by
    show (if o / f.volume.bytes_per_cluster = f.chain.clusters.length - 1 then f.size - o
      else f.volume.bytes_per_cluster) = f.size - o
    rw [if_pos hlast]
  have hoff : (refilled { f with offset := o, read_buf_cur := f.read_buf_end }).offset = o := rfl
  have havail : n ≤ to_uint64
      (((refilled { f with offset := o, read_buf_cur := f.read_buf_end }).read_buf_end : Int) -
        (refilled { f with offset := o, read_buf_cur := f.read_buf_end }).read_buf_cur) := by
    rw [hcur, hend]
    unfold to_uint64
    omega
  have hstep2 : ∀ reads, ∃ s1, file_read_step
      ⟨refilled { f with offset := o, read_buf_cur := f.read_buf_end }, [], n, reads⟩ = .next s1 ∧
      s1.remaining = 0 ∧ s1.file.offset = o + n ∧ s1.file.size = f.size := by
    intro reads
    unfold file_read_step
    simp only []
    rw [if_pos havail]
    unfold copy_from_window
    simp only []
    rw [if_pos (by rw [hwf1.buf_length, hcur]; exact hfit)]
    refine ⟨_, rfl, Nat.sub_self n, ?_, rfl⟩
    show to_uint32 (((refilled { f with offset := o, read_buf_cur := f.read_buf_end }).offset : Int) + (n : Int))
      = o + n
    rw [hoff]
    have := to_uint32_of_lt (o + n) (by omega)
    rwa [Nat.cast_add] at this
  have hreq : to_uint64 ((n * 1 : Nat) : Int) = n := by
    rw [Nat.mul_one]
    exact to_uint64_of_lt n (by omega)
  obtain ⟨s1, hs1, hrem, hoff1, hsize1⟩ := hstep2
    ([] ++ [chain_sector { f with offset := o, read_buf_cur := f.read_buf_end }
      (o / f.volume.bytes_per_cluster)])
  have hint : file_read_internal (fuel' + 2) { f with offset := o, read_buf_cur := f.read_buf_end } n =
      some (.returned ⟨s1.file, s1.dst, n - s1.remaining, none, s1.device_reads⟩) := by
    unfold file_read_internal
    rw [if_neg (by show ¬ o = f.size; omega),
      file_read_loop_step n (fuel' + 1) _ (by show n ≠ 0; omega),
      step_empty_window _ hwf0 rfl (by show o < f.size; exact ho) n hn]
    simp only []
    rw [file_read_loop_step n fuel' _ (by show n ≠ 0; omega), hs1]
    simp only []
    rw [file_read_loop_done n fuel' s1 hrem]
  unfold file_read
  simp only []
  rw [hreq, if_neg (by omega), hint]
  simp only []
  rw [hrem, Nat.sub_zero, if_neg (by simp only [SIZE_MAX]; omega), if_pos rfl]
  exact ⟨_, rfl, rfl, rfl, hoff1, hsize1⟩

/-- C1 (what the code does): `README.TXT` of the small volume has 8 bytes in
one cluster; after `file_seek(stream, 4, SEEK_SET)` returns 0, the call
`file_read(ptr, 1, 4, stream)` never returns: whatever the fuel, the loop of
`file_read_internal` is still running. -/
theorem file_read_after_seek_never_returns :
    fat_open false example_disk 0 = .returned (.ok example_volume) ∧
    file_open false 4 example_volume name_readme = some (.returned (.ok (example_file 8 [2]))) ∧
    well_formed (example_file 8 [2]) ∧
    (file_seek (example_file 8 [2]) 4 SEEK_SET).value = 0 ∧
    ∀ fuel, file_read fuel 1 4 (file_seek (example_file 8 [2]) 4 SEEK_SET).file = none :=
  ⟨example_volume_opens, example_readme_opens,
    example_file_well_formed 8 [2] (Or.inr (by decide)) (by decide) (by decide), by decide,
    file_read_never_returns_at_half_window (example_file 8 [2])
      (example_file_well_formed 8 [2] (Or.inr (by decide)) (by decide) (by decide)) 4 4
      (by decide) (by decide) (by decide) (by decide) (by decide) (by decide)⟩

set_option maxRecDepth 100000 in
/-- C2 (what the code does): on the 8-byte file `README.TXT`, after
`file_seek(stream, 5, SEEK_SET)` a request of 10 one-byte elements returns 10:
more than the 3 bytes left, with the bytes that follow the file in its
cluster, and the offset becomes 15. -/
theorem file_read_after_seek_reads_past_end :
    fat_open false example_disk 0 = .returned (.ok example_volume) ∧
    file_open false 4 example_volume name_readme = some (.returned (.ok (example_file 8 [2]))) ∧
    well_formed (example_file 8 [2]) ∧
    (file_seek (example_file 8 [2]) 5 SEEK_SET).value = 0 ∧
    (file_seek (example_file 8 [2]) 5 SEEK_SET).file.offset = 5 ∧
    ∃ r, file_read 2 1 10 (file_seek (example_file 8 [2]) 5 SEEK_SET).file = some (.returned r) ∧
      r.value = 10 ∧ r.err = none ∧ r.file.offset = 15 ∧ r.file.size = 8 ∧
      r.dst = [45, 46, 47, 48, 49, 50, 51, 52, 53, 54] :=
  ⟨example_volume_opens, example_readme_opens,
    example_file_well_formed 8 [2] (Or.inr (by decide)) (by decide) (by decide), by decide, by decide,
    _, rfl, rfl, rfl, rfl, rfl, rfl⟩

/-! ## Reads in parts -/

theorem read_sequence_sequential (f : file_t) (hf : well_formed f) (hfresh : freshly_opened f)
    (fuel : Nat) (hfuel : f.chain.clusters.length + 2 ≤ fuel) :
    ∀ sizes K, K + sizes.sum ≤ f.size →
      read_sequence fuel sizes (after_reading f K) =
        some (after_reading f (K + sizes.sum), file_bytes f K sizes.sum) := by
  intro sizes
  induction sizes with
  | nil =>
    intro K _
    simp [read_sequence, file_bytes]
  | cons n rest ih =>
    intro K hK
    rw [List.sum_cons] at hK ⊢
    obtain ⟨reads, hread⟩ := file_read_sequential_bytes f hf hfresh K n fuel (by omega) (by omega) hfuel
    unfold read_sequence
    rw [hread]
    simp only [if_true]
    rw [ih (K + n) (by omega)]
    simp only []
    rw [file_bytes_append, Nat.add_assoc]

/-- Reads in parts on a volume within the first 2 GiB of the device
(`well_formed` has the bound `total_sectors_count <= 4194304`): for a freshly
opened file and `a + b <= size`, reading `a` bytes and then `b` bytes returns,
delivers the same bytes (the file's bytes `0 .. a+b-1`) and leaves the same
handle, so the same offset `a + b`, as one read of `a + b` bytes; the same
holds for a read in any number of parts, such as 4095, 1, 1, 1. -/
theorem file_read_in_parts (big_endian : Bool) (open_fuel : Nat) (pvolume : volume_t)
    (file_name : List Nat) (f : file_t)
    (hopen : file_open big_endian open_fuel pvolume file_name = some (.returned (.ok f)))
    (hf : well_formed f) (fuel : Nat) (hfuel : f.chain.clusters.length + 2 ≤ fuel) :
    (∀ a b, a + b ≤ f.size →
      ∃ r1 r2 r, file_read fuel 1 a f = some (.returned r1) ∧
        file_read fuel 1 b r1.file = some (.returned r2) ∧
        file_read fuel 1 (a + b) f = some (.returned r) ∧
        r1.value = a ∧ r2.value = b ∧ r.value = a + b ∧
        r1.dst ++ r2.dst = r.dst ∧ r.dst = file_bytes f 0 (a + b) ∧
        r2.file = r.file ∧ r.file.offset = a + b) ∧
    (∀ sizes : List Nat, sizes.sum ≤ f.size →
      ∃ r, file_read fuel 1 sizes.sum f = some (.returned r) ∧ r.value = sizes.sum ∧
        r.dst = file_bytes f 0 sizes.sum ∧ read_sequence fuel sizes f = some (r.file, r.dst)) := by
  obtain ⟨_, _, hfresh⟩ := file_open_fresh _ _ _ _ _ hopen
  have hstart : after_reading f 0 = f := if_pos rfl
  constructor
  · intro a b hab
    obtain ⟨reads1, h1⟩ := file_read_sequential_bytes f hf hfresh 0 a fuel (by omega) (by omega) hfuel
    obtain ⟨reads2, h2⟩ := file_read_sequential_bytes f hf hfresh (0 + a) b fuel (by omega) (by omega) hfuel
    obtain ⟨reads, h⟩ := file_read_sequential_bytes f hf hfresh 0 (a + b) fuel (by omega) (by omega) hfuel
    rw [hstart] at h1 h
    refine ⟨_, _, _, h1, h2, h, rfl, rfl, rfl, ?_, ?_, ?_, ?_⟩
    · exact file_bytes_append f 0 a b
    · rfl
    · show after_reading f (0 + a + b) = after_reading f (0 + (a + b))
      rw [Nat.add_assoc]
    · show (after_reading f (0 + (a + b))).offset = a + b
      rw [(after_reading_offset f hfresh _).1, Nat.zero_add]
  · intro sizes hsum
    obtain ⟨reads, h⟩ := file_read_sequential_bytes f hf hfresh 0 sizes.sum fuel (by omega) (by omega) hfuel
    have hseq := read_sequence_sequential f hf hfresh fuel hfuel sizes 0 (by omega)
    rw [hstart] at h hseq
    exact ⟨_, h, rfl, rfl, hseq⟩

/-- Reads in parts of `DATA.BIN` of the small volume, 1030 bytes in three
clusters of 512 bytes, read as 511 + 3 bytes and as 511, 1, 1, 1 bytes. -/
theorem file_read_in_parts_witness :
    (∃ r1 r2 r, file_read 5 1 511 (example_file 1030 [3, 4, 5]) = some (.returned r1) ∧
      file_read 5 1 3 r1.file = some (.returned r2) ∧
      file_read 5 1 (511 + 3) (example_file 1030 [3, 4, 5]) = some (.returned r) ∧
      r1.value = 511 ∧ r2.value = 3 ∧ r.value = 511 + 3 ∧
      r1.dst ++ r2.dst = r.dst ∧ r.dst = file_bytes (example_file 1030 [3, 4, 5]) 0 (511 + 3) ∧
      r2.file = r.file ∧ r.file.offset = 511 + 3) ∧
    (∃ r, file_read 5 1 [511, 1, 1, 1].sum (example_file 1030 [3, 4, 5]) = some (.returned r) ∧
      r.value = [511, 1, 1, 1].sum ∧
      r.dst = file_bytes (example_file 1030 [3, 4, 5]) 0 [511, 1, 1, 1].sum ∧
      read_sequence 5 [511, 1, 1, 1] (example_file 1030 [3, 4, 5]) = some (r.file, r.dst)) :=
  ⟨(file_read_in_parts false 4 example_volume name_data (example_file 1030 [3, 4, 5]) example_data_opens
      (example_file_well_formed 1030 [3, 4, 5] (Or.inr (by decide)) (by decide) (by decide)) 5
      (by decide)).1 511 3 (by decide),
    (file_read_in_parts false 4 example_volume name_data (example_file 1030 [3, 4, 5]) example_data_opens
      (example_file_well_formed 1030 [3, 4, 5] (Or.inr (by decide)) (by decide) (by decide)) 5
      (by decide)).2 [511, 1, 1, 1] (by decide)⟩

/-! ## The element count and the empty read -/

/-- C5: for `size >= 1` and `size * nmemb` below `(size_t) -1`, a call of
`file_read` that returns without error returns `nmemb` when it delivered all
`size * nmemb` bytes and the whole-element count (bytes delivered divided by
`size`) otherwise; on a well-formed file read in sequence the call does return,
with the bytes that are left; and on an 8-byte file a request of 16 one-byte
elements from offset 0 returns 8 and the next one returns 0. -/
theorem file_read_counts_whole_elements :
    (∀ (stream : file_t) (fuel size nmemb : Nat) (r : read_ret), 1 ≤ size → size * nmemb < SIZE_MAX →
      file_read fuel size nmemb stream = some (.returned r) → r.err = none →
      r.value = if r.dst.length = size * nmemb then nmemb else r.dst.length / size) ∧
    (∀ (f : file_t) (K fuel size nmemb : Nat), well_formed f → freshly_opened f → K ≤ f.size →
      1 ≤ size → size * nmemb < SIZE_MAX → f.chain.clusters.length + 2 ≤ fuel →
      ∃ r, file_read fuel size nmemb (after_reading f K) = some (.returned r) ∧ r.err = none ∧
        r.dst = file_bytes f K (min (size * nmemb) (f.size - K)) ∧
        r.file = after_reading f (K + min (size * nmemb) (f.size - K))) ∧
    (∀ (f : file_t) (fuel : Nat), well_formed f → freshly_opened f → f.size = 8 →
      f.chain.clusters.length + 2 ≤ fuel →
      ∃ r1 r2, file_read fuel 1 16 f = some (.returned r1) ∧ r1.value = 8 ∧
        r1.dst = file_bytes f 0 8 ∧
        file_read fuel 1 16 r1.file = some (.returned r2) ∧ r2.value = 0 ∧ r2.dst = []) := by
  refine ⟨?_, ?_, ?_⟩
  · intro stream fuel size nmemb r hsize hfit h herr
    exact file_read_value fuel size nmemb stream r hsize hfit h herr
  · intro f K fuel size nmemb hf hfresh hK hsize hfit hfuel
    obtain ⟨reads, h⟩ := file_read_sequential f hf hfresh K size nmemb fuel hK hsize
      (by simp only [SIZE_MAX] at hfit; omega) hfuel
    exact ⟨_, h, rfl, rfl, rfl⟩
  · intro f fuel hf hfresh h8 hfuel
    have hstart : after_reading f 0 = f := if_pos rfl
    obtain ⟨reads1, h1⟩ := file_read_sequential f hf hfresh 0 1 16 fuel (by omega) (le_refl 1)
      (by decide) hfuel
    obtain ⟨reads2, h2⟩ := file_read_sequential f hf hfresh 8 1 16 fuel (by omega) (le_refl 1)
      (by decide) hfuel
    have hmin1 : min (1 * 16) (f.size - 0) = 8 := by omega
    have hmin2 : min (1 * 16) (f.size - 8) = 0 := by omega
    rw [hmin1, hstart] at h1
    rw [hmin2] at h2
    refine ⟨_, _, h1, ?_, rfl, h2, ?_, ?_⟩
    · show (if 8 = 1 * 16 then 16 else 8 / 1) = 8
      decide
    · show (if 0 = 1 * 16 then 16 else 0 / 1) = 0
      decide
    · simp [file_bytes]

/-- Witness of C5: `README.TXT` of the small volume, 8 bytes. -/
theorem file_read_counts_whole_elements_witness :
    ∃ r1 r2, file_read 3 1 16 (example_file 8 [2]) = some (.returned r1) ∧ r1.value = 8 ∧
      r1.dst = file_bytes (example_file 8 [2]) 0 8 ∧
      file_read 3 1 16 r1.file = some (.returned r2) ∧ r2.value = 0 ∧ r2.dst = [] :=
  file_read_counts_whole_elements.2.2 (example_file 8 [2]) 3
    (example_file_well_formed 8 [2] (Or.inr (by decide)) (by decide) (by decide))
    ⟨rfl, rfl, rfl⟩ rfl (by decide)

theorem file_read_nothing (stream : file_t) (fuel size nmemb : Nat)
    (h : size * nmemb = 0 ∨ stream.offset = stream.size) :
    file_read fuel size nmemb stream = some (.returned ⟨stream, [], 0, none, []⟩) := by
  unfold file_read
  simp only []
  by_cases h0 : to_uint64 ((nmemb * size : Nat) : Int) = 0
  · rw [if_pos h0]
  · rw [if_neg h0]
    rcases h with h | h
    · exfalso
      apply h0
      rw [Nat.mul_comm, h]
      rfl
    · have hint : file_read_internal fuel stream (to_uint64 ((nmemb * size : Nat) : Int)) =
          some (.returned ⟨stream, [], 0, none, []⟩) := by
        unfold file_read_internal
        rw [if_pos h]
      rw [hint]
      simp only []
      rw [if_neg (by decide), if_neg (fun e => h0 e.symm), Nat.zero_div]

theorem file_seek_size (stream : file_t) (offset whence : Int) :
    (file_seek stream offset whence).file.size = stream.size := by
  unfold file_seek
  simp only []
  split_ifs <;> rfl

theorem file_seek_empty_file (stream : file_t) (offset whence : Int) (hsize : stream.size = 0)
    (hoff : stream.offset = 0) : (file_seek stream offset whence).file.offset = 0 := by
  unfold file_seek
  simp only [hsize, hoff, to_uint32, to_uint64]
  split_ifs <;> simp only [] <;> omega

theorem reachable_empty_file (f0 f : file_t) (hsize : f0.size = 0) (hoff : f0.offset = 0)
    (h : reachable f0 f) : f.size = 0 ∧ f.offset = 0 := by
  induction h with
  | start => exact ⟨hsize, hoff⟩
  | seek g offset whence _ ih =>
    exact ⟨by rw [file_seek_size]; exact ih.1, file_seek_empty_file g offset whence ih.1 ih.2⟩
  | read g fuel size nmemb r _ hread ih =>
    rw [file_read_nothing g fuel size nmemb (Or.inr (by rw [ih.1, ih.2]))] at hread
    simp only [Option.some.injEq, outcome.returned.injEq] at hread
    subst hread
    exact ih

/-- C6: `file_read` returns 0, leaves the handle as it is, delivers nothing
and issues no device read whenever `size * nmemb = 0` or `offset = size` on
entry; so does a one-byte read after `file_seek(stream, 0, SEEK_END)`, and so
does every read in every state of a file that was opened with size 0. -/
theorem file_read_nothing_to_read :
    (∀ (stream : file_t) (fuel size nmemb : Nat), size * nmemb = 0 ∨ stream.offset = stream.size →
      file_read fuel size nmemb stream = some (.returned ⟨stream, [], 0, none, []⟩)) ∧
    (∀ (stream : file_t) (fuel : Nat), (file_seek stream 0 SEEK_END).value = 0 ∧
      file_read fuel 1 1 (file_seek stream 0 SEEK_END).file =
        some (.returned ⟨(file_seek stream 0 SEEK_END).file, [], 0, none, []⟩)) ∧
    (∀ (big_endian : Bool) (open_fuel : Nat) (pvolume : volume_t) (file_name : List Nat) (f0 f : file_t),
      file_open big_endian open_fuel pvolume file_name = some (.returned (.ok f0)) → f0.size = 0 →
      reachable f0 f → ∀ fuel size nmemb : Nat,
        file_read fuel size nmemb f = some (.returned ⟨f, [], 0, none, []⟩)) := by
  refine ⟨file_read_nothing, ?_, ?_⟩
  · intro stream fuel
    have hseek : file_seek stream 0 SEEK_END =
        ⟨{ stream with offset := stream.size, read_buf_cur := stream.read_buf_end }, 0, none⟩ := by
      unfold file_seek
      simp [SEEK_SET, SEEK_CUR, SEEK_END]
    rw [hseek]
    exact ⟨rfl, file_read_nothing _ fuel 1 1 (Or.inr rfl)⟩
  · intro big_endian open_fuel pvolume file_name f0 f hopen hsize hreach fuel size nmemb
    obtain ⟨_, _, hfresh⟩ := file_open_fresh _ _ _ _ _ hopen
    obtain ⟨h1, h2⟩ := reachable_empty_file f0 f hsize hfresh.1 hreach
    exact file_read_nothing f fuel size nmemb (Or.inr (by rw [h1, h2]))

/-- Witness of C6: `EMPTY.TXT` of the small volume after a seek to its end. -/
theorem file_read_nothing_to_read_witness :
    file_read 1 1 1 (file_seek (example_file 0 [0]) 0 SEEK_END).file =
      some (.returned ⟨(file_seek (example_file 0 [0]) 0 SEEK_END).file, [], 0, none, []⟩) :=
  file_read_nothing_to_read.2.2 false 4 example_volume name_empty (example_file 0 [0])
    (file_seek (example_file 0 [0]) 0 SEEK_END).file example_empty_opens rfl
    (reachable.seek _ 0 SEEK_END reachable.start) 1 1 1

/-! ## `full_file_name` -/

theorem copy_until_space_eq (l : List Nat) :
    copy_until_space l = l.takeWhile (fun c => decide (c ≠ 32)) := by
  induction l with
  | nil => rfl
  | cons c rest ih =>
    unfold copy_until_space
    by_cases h : c = 32
    · simp [h]
    · simp [h, ih]

theorem copy_until_space_length (l : List Nat) : (copy_until_space l).length ≤ l.length := by
  rw [copy_until_space_eq]
  exact (List.takeWhile_sublist _).length_le

theorem full_file_name_eq (entry : SFN) : full_file_name entry = format_8_3 entry.filename := by
  unfold full_file_name format_8_3
  simp only [copy_until_space_eq, NAME_LEN, EXT_LEN]

theorem full_file_name_length (entry : SFN) : (full_file_name entry).length ≤ 13 := by
  unfold full_file_name
  have h1 := copy_until_space_length (entry.filename.take NAME_LEN)
  have h2 := copy_until_space_length ((entry.filename.drop NAME_LEN).take EXT_LEN)
  have h3 : (entry.filename.take NAME_LEN).length ≤ 8 := by
    rw [List.length_take]; exact Nat.min_le_left _ _
  have h4 : ((entry.filename.drop NAME_LEN).take EXT_LEN).length ≤ 3 := by
    rw [List.length_take]; exact Nat.min_le_left _ _
  by_cases h : entry.filename.getD NAME_LEN 0 ≠ 32
  · simp only [if_pos h, List.length_append, List.length_cons, List.length_nil]
    omega
  · simp only [if_neg h, List.length_append, List.length_cons, List.length_nil]
    omega

theorem c_string_append_zero (l rest : List Nat) (h : ∀ c ∈ l, c ≠ 0) : c_string (l ++ 0 :: rest) = l := by
  induction l with
  | nil => simp [c_string]
  | cons c t ih =>
    have hc : c ≠ 0 := h c (List.mem_cons_self c t)
    rw [List.cons_append, c_string, if_neg hc, ih (fun x hx => h x (List.mem_cons_of_mem c hx))]

theorem c_string_append_zero_length (l : List Nat) : (c_string (l ++ [0])).length ≤ l.length := by
  induction l with
  | nil => simp [c_string]
  | cons c t ih =>
    rw [List.cons_append, c_string]
    by_cases h : c = 0
    · simp [h]
    · simp only [if_neg h, List.length_cons]
      omega

theorem c_string_full_file_name_length (entry : SFN) : (c_string (full_file_name entry)).length ≤ 12 := by
  have h := full_file_name_length entry
  unfold full_file_name at h ⊢
  simp only [] at h ⊢
  generalize copy_until_space (entry.filename.take NAME_LEN) ++
    (if entry.filename.getD NAME_LEN 0 ≠ 32 then
      46 :: copy_until_space ((entry.filename.drop NAME_LEN).take EXT_LEN) else []) = body at h ⊢
  have h2 := c_string_append_zero_length body
  simp only [List.length_append, List.length_cons, List.length_nil] at h
  omega

theorem takeWhile_padded (l : List Nat) (k : Nat) (h : ∀ c ∈ l, c ≠ 32) :
    (l ++ List.replicate k 32).takeWhile (fun c => decide (c ≠ 32)) = l := by
  induction l with
  | nil =>
    cases k with
    | zero => rfl
    | succ k => simp [List.replicate_succ]
  | cons c t ih =>
    have hc : c ≠ 32 := h c (List.mem_cons_self c t)
    rw [List.cons_append, List.takeWhile_cons, if_pos (by simpa using hc),
      ih (fun x hx => h x (List.mem_cons_of_mem c hx))]

theorem full_file_name_raw_name (entry : SFN) (stem ext : List Nat)
    (hs1 : 1 ≤ stem.length) (hs2 : stem.length ≤ 8) (he1 : 1 ≤ ext.length) (he2 : ext.length ≤ 3)
    (hs : ∀ c ∈ stem, c ≠ 32) (he : ∀ c ∈ ext, c ≠ 32) (hraw : entry.filename = raw_name stem ext) :
    full_file_name entry = stem ++ 46 :: (ext ++ [0]) := by
  rw [full_file_name_eq, hraw]
  unfold format_8_3 raw_name
  have hlen : (stem ++ List.replicate (8 - stem.length) 32).length = 8 := by
    rw [List.length_append, List.length_replicate]; omega
  have hlen3 : (ext ++ List.replicate (3 - ext.length) 32).length = 3 := by
    rw [List.length_append, List.length_replicate]; omega
  have h8 : (stem ++ List.replicate (8 - stem.length) 32 ++ (ext ++ List.replicate (3 - ext.length) 32)).getD 8 0
      ≠ 32 := by
    cases ext with
    | nil => simp at he1
    | cons x t =>
      have hx : x ≠ 32 := he x (List.mem_cons_self x t)
      rw [List.getD_eq_getElem?_getD, List.getElem?_append_right (by omega), hlen]
      simpa using hx
  rw [if_pos h8]
  rw [List.take_left' hlen, List.drop_left' hlen, takeWhile_padded stem _ hs]
  have htake : (ext ++ List.replicate (3 - ext.length) 32).take 3 = ext ++ List.replicate (3 - ext.length) 32 := by
    rw [List.take_of_length_le (by omega)]
  rw [htake, takeWhile_padded ext _ he]
  simp

/-- C20: for every raw name field, `full_file_name` writes the text that the
specification describes (`format_8_3`: the stem up to its first space, a
`'.'` and the extension up to its first space exactly when byte 8 is not a
space, and a final `'\0'`), at most 13 bytes and at most 12 characters; and
for a stem of 1 to 8 and an extension of 1 to 3 bytes, none of them a space
or `'\0'`, it turns the space-padded field into `stem.ext`. -/
theorem full_file_name_formats (entry : SFN) :
    full_file_name entry = format_8_3 entry.filename ∧
    (full_file_name entry).length ≤ 13 ∧
    (c_string (full_file_name entry)).length ≤ 12 ∧
    ∀ stem ext : List Nat, 1 ≤ stem.length → stem.length ≤ 8 → 1 ≤ ext.length → ext.length ≤ 3 →
      (∀ c ∈ stem ++ ext, c ≠ 32 ∧ c ≠ 0) → entry.filename = raw_name stem ext →
      full_file_name entry = stem ++ 46 :: (ext ++ [0]) ∧
      c_string (full_file_name entry) = stem ++ 46 :: ext := by
  refine ⟨full_file_name_eq entry, full_file_name_length entry, c_string_full_file_name_length entry, ?_⟩
  intro stem ext hs1 hs2 he1 he2 hc hraw
  have h := full_file_name_raw_name entry stem ext hs1 hs2 he1 he2
    (fun c hc' => (hc c (List.mem_append_left ext hc')).1)
    (fun c hc' => (hc c (List.mem_append_right stem hc')).1) hraw
  refine ⟨h, ?_⟩
  rw [h]
  have e : stem ++ 46 :: (ext ++ [0]) = (stem ++ 46 :: ext) ++ 0 :: [] := by simp
  rw [e]
  apply c_string_append_zero
  intro c hc'
  rcases List.mem_append.1 hc' with h1 | h1
  · exact (hc c (List.mem_append_left ext h1)).2
  · rcases List.mem_cons.1 h1 with h2 | h2
    · rw [h2]; decide
    · exact (hc c (List.mem_append_right stem h2)).2

/-- Witness of C20: the field `README  TXT` of the first root entry of the
small volume gives `README.TXT`. -/
theorem full_file_name_formats_witness :
    full_file_name (sfn_of_bytes false example_root 0) = [82, 69, 65, 68, 77, 69, 46, 84, 88, 84, 0] ∧
    c_string (full_file_name (sfn_of_bytes false example_root 0)) = [82, 69, 65, 68, 77, 69, 46, 84, 88, 84] :=
  (full_file_name_formats (sfn_of_bytes false example_root 0)).2.2.2
    [82, 69, 65, 68, 77, 69] [84, 88, 84] (by decide) (by decide) (by decide) (by decide) (by decide) (by decide)

/-! ## `read_chain` -/

theorem chain_links_append (fat : List Nat) (l : List Nat) (x y : Nat)
    (h : chain_links fat (l ++ [x])) (hx : fat[x]? = some y) (hy : y < 0xFFF8) :
    chain_links fat (l ++ [x] ++ [y]) := by
  induction l with
  | nil => exact ⟨hx, hy, trivial⟩
  | cons a t ih =>
    cases t with
    | nil =>
      obtain ⟨h1, h2, _⟩ := h
      exact ⟨h1, h2, hx, hy, trivial⟩
    | cons b t' =>
      obtain ⟨h1, h2, h3⟩ := h
      exact ⟨h1, h2, ih h3⟩

theorem chain_links_index (fat : List Nat) (l : List Nat) (h : chain_links fat l) (i : Nat)
    (hi : i + 1 < l.length) :
    fat[l.getD i 0]? = some (l.getD (i + 1) 0) ∧ l.getD (i + 1) 0 < 0xFFF8 := by
  induction l generalizing i with
  | nil => simp at hi
  | cons a t ih =>
    cases t with
    | nil => simp at hi
    | cons b t' =>
      obtain ⟨h1, h2, h3⟩ := h
      cases i with
      | zero => exact ⟨h1, h2⟩
      | succ j =>
        have := ih h3 j (by simpa using hi)
        simpa using this

/-- The loop of `read_chain` keeps what it has built and extends it along
the FAT until an end-of-chain marker. -/
theorem read_chain_loop_sound (fat : List Nat) (fuel : Nat) :
    ∀ (chain : cluster_chain_t) (next : Nat) (c : cluster_chain_t) (pre : List Nat) (x : Nat),
      read_chain_loop fat fuel chain next = some (.returned c) →
      chain.clusters = pre ++ [x] → fat[x]? = some next → chain_links fat chain.clusters →
      ∃ (ext : List Nat) (last y : Nat), c.clusters = chain.clusters ++ ext ∧ chain_links fat c.clusters ∧
        c.clusters.getLast? = some last ∧ fat[last]? = some y ∧ 0xFFF8 ≤ y := by
  induction fuel with
  | zero =>
    intro chain next c pre x h hc hx hl
    unfold read_chain_loop at h
    by_cases hn : next < 0xFFF8
    · rw [if_pos hn] at h; cases h
    · rw [if_neg hn] at h
      simp only [Option.some.injEq, outcome.returned.injEq] at h
      subst h
      exact ⟨[], x, next, by simp, hl, by simp [hc], hx, by omega⟩
  | succ fuel ih =>
    intro chain next c pre x h hc hx hl
    unfold read_chain_loop at h
    by_cases hn : next < 0xFFF8
    · rw [if_pos hn] at h
      cases hnext : fat[next]? with
      | none => rw [hnext] at h; cases h
      | some z =>
        rw [hnext] at h
        simp only [] at h
        obtain ⟨ext, last, y, h1, h2, h3, h4, h5⟩ :=
          ih _ z c (pre ++ [x]) next h (by simp [hc]) hnext (by
            show chain_links fat (chain.clusters ++ [next])
            rw [hc]
            exact chain_links_append fat pre x next (hc ▸ hl) hx hn)
        refine ⟨next :: ext, last, y, ?_, h2, h3, h4, h5⟩
        rw [h1]
        simp
    · rw [if_neg hn] at h
      simp only [Option.some.injEq, outcome.returned.injEq] at h
      subst h
      exact ⟨[], x, next, by simp, hl, by simp [hc], hx, by omega⟩

/-- C13: whenever `read_chain` returns a chain for a directory entry, the
chain is not empty, its first element is the start cluster of the entry,
each further element is the FAT entry of the element before it and is below
0xFFF8, and the FAT entry of the last element is 0xFFF8 or more. -/
theorem read_chain_follows_fat (fuel : Nat) (pvolume : volume_t) (dir_entry : SFN) (c : cluster_chain_t)
    (h : read_chain fuel pvolume dir_entry = some (.returned c)) :
    c.clusters ≠ [] ∧
    c.clusters[0]? = some dir_entry.low_order_address_of_first_cluster ∧
    (∀ i, i + 1 < c.clusters.length →
      pvolume.fat[c.clusters.getD i 0]? = some (c.clusters.getD (i + 1) 0) ∧
      c.clusters.getD (i + 1) 0 < 0xFFF8) ∧
    ∃ y, pvolume.fat[c.clusters.getD (c.clusters.length - 1) 0]? = some y ∧ 0xFFF8 ≤ y := by
  unfold read_chain at h
  cases hs : pvolume.fat[dir_entry.low_order_address_of_first_cluster]? with
  | none => rw [hs] at h; cases h
  | some next =>
    rw [hs] at h
    simp only [] at h
    obtain ⟨ext, last, y, h1, h2, h3, h4, h5⟩ :=
      read_chain_loop_sound pvolume.fat fuel _ next c [] _ h rfl hs trivial
    simp only [] at h1
    refine ⟨by rw [h1]; simp, by rw [h1]; simp, chain_links_index _ _ h2, y, ?_, h5⟩
    have hlast : c.clusters.getD (c.clusters.length - 1) 0 = last := by
      rw [List.getLast?_eq_getElem?] at h3
      rw [List.getD_eq_getElem?_getD, h3]
      rfl
    rw [hlast]
    exact h4

set_option maxRecDepth 100000 in
/-- Witness of C13: the chain of `DATA.BIN` on the small volume is 3, 4, 5. -/
theorem read_chain_follows_fat_witness :
    read_chain 4 example_volume (sfn_of_bytes false example_root 1) = some (.returned ⟨[3, 4, 5], 3⟩) ∧
    ([3, 4, 5] ≠ [] ∧ [3, 4, 5][0]? = some 3 ∧
      (∀ i, i + 1 < [3, 4, 5].length →
        example_volume.fat[[3, 4, 5].getD i 0]? = some ([3, 4, 5].getD (i + 1) 0) ∧
        [3, 4, 5].getD (i + 1) 0 < 0xFFF8) ∧
      ∃ y, example_volume.fat[[3, 4, 5].getD ([3, 4, 5].length - 1) 0]? = some y ∧ 0xFFF8 ≤ y) :=
  ⟨rfl, read_chain_follows_fat 4 example_volume (sfn_of_bytes false example_root 1) ⟨[3, 4, 5], 3⟩ rfl⟩

theorem read_chain_loop_returns (fat : List Nat) :
    ∀ (ext : List Nat) (x : Nat) (pre : List Nat) (size fuel next : Nat),
      fat[x]? = some next → chain_links fat (x :: ext) →
      (∃ y, fat[(x :: ext).getLastD 0]? = some y ∧ 0xFFF8 ≤ y) →
      ext.length ≤ fuel → size + ext.length < 4294967296 →
      read_chain_loop fat fuel ⟨pre ++ [x], size⟩ next =
        some (.returned ⟨pre ++ x :: ext, size + ext.length⟩) := by
  intro ext
  induction ext with
  | nil =>
    intro x pre size fuel next hx _ hend _ _
    obtain ⟨y, hy, hy2⟩ := hend
    have hy' : fat[x]? = some y := hy
    rw [hx] at hy'
    simp only [Option.some.injEq] at hy'
    subst hy'
    cases fuel with
    | zero => unfold read_chain_loop; rw [if_neg (by omega)]; rfl
    | succ f => unfold read_chain_loop; rw [if_neg (by omega)]; rfl
  | cons y ext' ih =>
    intro x pre size fuel next hx hl hend hfuel hsize
    obtain ⟨h1, h2, h3⟩ := hl
    rw [hx] at h1
    simp only [Option.some.injEq] at h1
    subst h1
    simp only [List.length_cons] at hfuel hsize
    cases fuel with
    | zero => omega
    | succ f =>
      have hz : ∃ z, fat[next]? = some z := by
        cases ext' with
        | nil =>
          obtain ⟨y, hy, _⟩ := hend
          exact ⟨y, hy⟩
        | cons z t => exact ⟨z, h3.1⟩
      obtain ⟨z, hz⟩ := hz
      unfold read_chain_loop
      rw [if_pos h2, hz]
      simp only []
      have hs : to_uint32 ((size : Int) + 1) = size + 1 := by
        have := to_uint32_of_lt (size + 1) (by omega)
        simpa using this
      rw [hs]
      have := ih next (pre ++ [x]) (size + 1) f z hz h3 (by
        obtain ⟨y, hy, hy2⟩ := hend
        exact ⟨y, by simpa [List.getLastD] using hy, hy2⟩) (by omega) (by omega)
      rw [this]
      simp only [List.append_assoc, List.singleton_append, List.length_cons]
      congr 3
      omega

/-- With enough fuel `read_chain` returns: a list of clusters that starts
at the start cluster of the entry, follows the FAT and ends at an
end-of-chain marker is the chain that `read_chain` builds. -/
theorem read_chain_returns (fuel : Nat) (pvolume : volume_t) (dir_entry : SFN) (ext : List Nat)
    (hl : chain_links pvolume.fat (dir_entry.low_order_address_of_first_cluster :: ext))
    (hend : ∃ y, pvolume.fat[(dir_entry.low_order_address_of_first_cluster :: ext).getLastD 0]? = some y ∧
      0xFFF8 ≤ y)
    (hfuel : ext.length ≤ fuel) (hsize : 1 + ext.length < 4294967296) :
    read_chain fuel pvolume dir_entry =
      some (.returned ⟨dir_entry.low_order_address_of_first_cluster :: ext, 1 + ext.length⟩) := by
  have hs : ∃ next, pvolume.fat[dir_entry.low_order_address_of_first_cluster]? = some next := by
    cases ext with
    | nil =>
      obtain ⟨y, hy, _⟩ := hend
      exact ⟨y, hy⟩
    | cons z t => exact ⟨z, hl.1⟩
  obtain ⟨next, hs⟩ := hs
  unfold read_chain
  rw [hs]
  exact read_chain_loop_returns pvolume.fat ext _ [] 1 fuel next hs hl hend hfuel hsize

/-- A FAT entry that points to its own cluster keeps the loop of
`read_chain` running for ever. -/
theorem read_chain_loop_cycle (fat : List Nat) (x : Nat) (hx : fat[x]? = some x) (hlt : x < 0xFFF8) :
    ∀ (fuel : Nat) (chain : cluster_chain_t), read_chain_loop fat fuel chain x = none := by
  intro fuel
  induction fuel with
  | zero =>
    intro chain
    unfold read_chain_loop
    rw [if_pos hlt]
  | succ fuel ih =>
    intro chain
    unfold read_chain_loop
    rw [if_pos hlt, hx]
    exact ih _

theorem read_chain_cycle (pvolume : volume_t) (dir_entry : SFN)
    (hx : pvolume.fat[dir_entry.low_order_address_of_first_cluster]? =
      some dir_entry.low_order_address_of_first_cluster)
    (hlt : dir_entry.low_order_address_of_first_cluster < 0xFFF8) (fuel : Nat) :
    read_chain fuel pvolume dir_entry = none := by
  unfold read_chain
  rw [hx]
  exact read_chain_loop_cycle pvolume.fat _ hx hlt fuel _

/-! ## `file_open` scans the root directory -/

theorem image_bytes_getD (d : disk_t) (p n i : Nat) (h : i < n) :
    (image_bytes d p n).getD i 0 = d.file (p + i) % 256 := by
  unfold image_bytes
  rw [List.getD_eq_getElem?_getD, List.getElem?_map, List.getElem?_range' _ _ h]
  simp

theorem sfn_of_bytes_image (big_endian : Bool) (d : disk_t) (p n i : Nat) (h : 32 * i + 32 ≤ n) :
    sfn_of_bytes big_endian (image_bytes d p n) i = sfn_of_bytes big_endian (image_bytes d (p + 32 * i) 32) 0 := by
  have g : ∀ j, j < 32 → (image_bytes d p n).getD (32 * i + j) 0 = (image_bytes d (p + 32 * i) 32).getD j 0 := by
    intro j hj
    rw [image_bytes_getD _ _ _ _ (by omega), image_bytes_getD _ _ _ _ hj, Nat.add_assoc]
  unfold sfn_of_bytes rd16 rd32
  simp only [Nat.mul_zero, Nat.zero_add, Nat.add_assoc, Nat.reduceAdd]
  rw [image_bytes_slice d p n (32 * i) 11 (by omega)]
  have e := image_bytes_slice d (p + 32 * i) 32 0 11 (by omega)
  rw [Nat.add_zero] at e
  rw [e, g 11 (by omega), g 26 (by omega), g 27 (by omega), g 28 (by omega), g 29 (by omega), g 30 (by omega),
    g 31 (by omega)]

theorem tolower_ne_zero (c : Nat) (h : c ≠ 0) : tolower c ≠ 0 := by
  unfold tolower
  split <;> omega

theorem c_string_ne_zero (l : List Nat) : ∀ c ∈ c_string l, c ≠ 0 := by
  induction l with
  | nil => intro c hc; simp [c_string] at hc
  | cons x t ih =>
    intro c hc
    unfold c_string at hc
    by_cases hx : x = 0
    · rw [if_pos hx] at hc; simp at hc
    · rw [if_neg hx] at hc
      rcases List.mem_cons.1 hc with h | h
      · rw [h]; exact hx
      · exact ih c h

theorem strcasecmp_chars_eq_zero (a : List Nat) :
    ∀ b : List Nat, (∀ c ∈ a, c ≠ 0) → (∀ c ∈ b, c ≠ 0) →
      (strcasecmp_chars a b = 0 ↔ a.map tolower = b.map tolower) := by
  induction a with
  | nil =>
    intro b _ hb
    cases b with
    | nil => simp [strcasecmp_chars]
    | cons c2 t =>
      have h2 := tolower_ne_zero c2 (hb c2 (List.mem_cons_self c2 t))
      have h0 : tolower 0 = 0 := by decide
      simp only [strcasecmp_chars, h0, List.map_nil, List.map_cons]
      constructor
      · intro h; omega
      · intro h; cases h
  | cons c1 t1 ih =>
    intro b ha hb
    have h1 := tolower_ne_zero c1 (ha c1 (List.mem_cons_self c1 t1))
    cases b with
    | nil =>
      have h0 : tolower 0 = 0 := by decide
      simp only [strcasecmp_chars, h0, List.map_nil, List.map_cons]
      constructor
      · intro h; omega
      · intro h; cases h
    | cons c2 t2 =>
      simp only [strcasecmp_chars, List.map_cons, List.cons.injEq]
      by_cases hd : (tolower c1 : Int) - tolower c2 = 0
      · rw [if_pos hd, ih t2 (fun c hc => ha c (List.mem_cons_of_mem c1 hc))
          (fun c hc => hb c (List.mem_cons_of_mem c2 hc))]
        constructor
        · intro h; exact ⟨by omega, h⟩
        · intro h; exact h.2
      · rw [if_neg hd]
        constructor
        · intro h; exact absurd h hd
        · intro h; exact absurd (by omega) hd

/-- The function `strcasecmp` returns 0 exactly for two strings that are
equal under ASCII case folding. -/
theorem strcasecmp_eq_zero (s1 s2 : List Nat) : strcasecmp s1 s2 = 0 ↔ names_match s1 s2 = true := by
  unfold strcasecmp names_match
  rw [strcasecmp_chars_eq_zero _ _ (c_string_ne_zero s1) (c_string_ne_zero s2)]
  simp

theorem slot_first_byte_eq (v : volume_t) (n i : Nat) (h : 32 * i + 32 ≤ n) :
    (image_bytes v.disk (root_position v) n).getD (32 * i) 0 = slot_first_byte v i := by
  unfold slot_first_byte root_slot
  rw [image_bytes_getD _ _ _ _ (by omega), image_bytes_getD _ _ _ _ (by omega), Nat.add_zero]

/-- The loop of `file_open` over the slots `i, ..., i + count - 1` finds the
first slot with the name among those before the first sentinel that are not
free. -/
theorem file_open_scan_eq (big_endian : Bool) (fuel : Nat) (v : volume_t) (n : Nat) (file_name : List Nat) :
    ∀ (count i : Nat), 32 * (i + count) ≤ n →
      file_open_scan big_endian fuel v (image_bytes v.disk (root_position v) n)
          (List.replicate v.bytes_per_cluster 0) file_name count i =
        match (((List.range' i count).takeWhile (fun i => decide (slot_first_byte v i ≠ DIR_EOF))).filter
            (fun i => decide (slot_first_byte v i ≠ DIR_FREE))).find?
            (fun i => names_match (full_file_name (root_entry big_endian v i)) file_name) with
        | none => some (.returned (.error .ENOENT))
        | some j => open_slot big_endian fuel v j := by
  intro count
  induction count with
  | zero =>
    intro i _
    unfold file_open_scan
    rfl
  | succ count ih =>
    intro i hn
    unfold file_open_scan
    rw [if_neg (by rw [image_bytes_length]; omega), slot_first_byte_eq v n i (by omega), List.range'_succ]
    by_cases h0 : slot_first_byte v i = DIR_EOF
    · have d0 : ¬ (decide (slot_first_byte v i ≠ DIR_EOF) = true) := by simpa using h0
      rw [if_pos h0, List.takeWhile_cons, if_neg d0]
      rfl
    have d0 : decide (slot_first_byte v i ≠ DIR_EOF) = true := by simpa using h0
    rw [if_neg h0, List.takeWhile_cons, if_pos d0]
    by_cases h1 : slot_first_byte v i = DIR_FREE
    · have d1 : ¬ (decide (slot_first_byte v i ≠ DIR_FREE) = true) := by simpa using h1
      rw [if_pos h1, List.filter_cons, if_neg d1]
      exact ih (i + 1) (by omega)
    have d1 : decide (slot_first_byte v i ≠ DIR_FREE) = true := by simpa using h1
    rw [if_neg h1, List.filter_cons, if_pos d1, List.find?_cons]
    have hentry : sfn_of_bytes big_endian (image_bytes v.disk (root_position v) n) i = root_entry big_endian v i :=
      sfn_of_bytes_image big_endian v.disk (root_position v) n i (by omega)
    simp only [hentry]
    by_cases hm : strcasecmp (full_file_name (root_entry big_endian v i)) file_name = 0
    · rw [if_pos hm]
      have hm' := (strcasecmp_eq_zero _ _).1 hm
      simp only [hm']
      unfold open_slot
      rfl
    · rw [if_neg hm]
      have hm' : names_match (full_file_name (root_entry big_endian v i)) file_name = false := by
        cases hb : names_match (full_file_name (root_entry big_endian v i)) file_name with
        | false => rfl
        | true => exact absurd ((strcasecmp_eq_zero _ _).2 hb) hm
      simp only [hm']
      exact ih (i + 1) (by omega)

/-- For a volume whose root region can be read, `file_open` is the
reference lookup `file_open_spec`. -/
theorem file_open_eq_spec (big_endian : Bool) (fuel : Nat) (v : volume_t) (file_name : List Nat)
    (hv : root_readable v) : file_open big_endian fuel v file_name = file_open_spec big_endian fuel v file_name := by
  have hread : disk_read v.disk (to_int32 ((v.boot_sectors_count + v.fat_sectors_count : Nat) : Int))
      (to_int32 (v.root_sectors_count : Int)) =
      .ok (image_bytes v.disk (root_position v) (v.root_sectors_count * SECTOR_SIZE)) := by
    rw [to_int32_of_lt _ (by have := hv.small; omega), to_int32_of_lt _ (by have := hv.small; omega)]
    exact disk_read_ok v.disk _ _ hv.on_device (by have := hv.small; omega) (by have := hv.small; omega)
  unfold file_open
  rw [hread]
  simp only [image_bytes_length, hv.bytes_per_sector]
  rw [if_neg (by omega), Nat.sub_self, List.replicate_zero, List.append_nil]
  have h := file_open_scan_eq big_endian fuel v (v.root_sectors_count * SECTOR_SIZE) file_name
    v.root_entries_count 0 (by have := hv.entries_fit; omega)
  rw [h]
  unfold file_open_spec root_lookup scanned_slots
  rw [List.range_eq_range']

theorem image_bytes_lt (d : disk_t) (p n : Nat) : ∀ x ∈ image_bytes d p n, x < 256 := by
  intro x hx
  unfold image_bytes at hx
  rw [List.mem_map] at hx
  obtain ⟨i, _, hi⟩ := hx
  rw [← hi]
  exact Nat.mod_lt _ (by decide)

theorem getD_lt (b : List Nat) (hb : ∀ x ∈ b, x < 256) (i : Nat) : b.getD i 0 < 256 := by
  rw [List.getD_eq_getElem?_getD]
  cases h : b[i]? with
  | none => decide
  | some x =>
    obtain ⟨hi, hx⟩ := List.getElem?_eq_some.1 h
    exact hb x (hx ▸ List.getElem_mem hi)

theorem rd16_lt (big_endian : Bool) (b : List Nat) (hb : ∀ x ∈ b, x < 256) (off : Nat) :
    rd16 big_endian b off < 65536 := by
  have h0 := getD_lt b hb off
  have h1 := getD_lt b hb (off + 1)
  unfold rd16
  split <;> omega

theorem disk_read_image (d : disk_t) (first count : Int) (l : List Nat) (h : disk_read d first count = .ok l) :
    l = image_bytes d (to_int32 (first * SECTOR_SIZE)).toNat (count.toNat * SECTOR_SIZE) := by
  unfold disk_read at h
  split at h
  · cases h
  · simp only [] at h
    split at h
    · cases h
    · simp only [Except.ok.injEq] at h
      exact h.symm

/-- The root directory region of a volume that `fat_open` returns can be
read as soon as the device holds the sectors before the data region. -/
theorem fat_open_root_readable (big_endian : Bool) (pdisk : disk_t) (first_sector : Nat) (v : volume_t)
    (h : fat_open big_endian pdisk first_sector = .returned (.ok v))
    (hdev : v.first_data_sector ≤ pdisk.sectors_count) : root_readable v := by
  obtain ⟨sector, bs, hread, hbs, hchecks, _, _, hdisk, hbps, _, _, _, hboot, hfat, hroot, _, hfirst, hrec, _⟩ :=
    fat_open_ok _ _ _ _ h
  have hsec : ∀ x ∈ sector, x < 256 := by
    rw [disk_read_image _ _ _ _ hread]
    exact image_bytes_lt _ _ _
  have h1 : bs.root_entries_count < 65536 := by rw [hbs]; exact rd16_lt _ _ hsec 17
  have h2 : bs.reserved_sectors_count < 65536 := by rw [hbs]; exact rd16_lt _ _ hsec 14
  have h3 : v.fat_sectors_count < 65536 := by
    rw [hfat]; unfold to_uint16; omega
  have h4 : v.root_sectors_count = (v.root_entries_count * 32 + 511) / 512 := by
    rw [hroot, hchecks.2.1, hrec]
    simp only [SECTOR_SIZE]
    exact to_uint32_of_lt _ (by omega)
  have h5 : v.first_data_sector = v.boot_sectors_count + v.fat_sectors_count + v.root_sectors_count := by
    rw [hfirst]
    exact to_uint32_of_lt _ (by rw [h4, hboot, hrec]; omega)
  refine ⟨hbps, ?_, by rw [hrec]; exact h1, ?_, ?_⟩
  · rw [h4]
    simp only [SECTOR_SIZE]
    omega
  · rw [hdisk, ← h5]
    exact hdev
  · rw [h4, hboot, hrec]
    omega

/-- The lookup of `file_open`: on a volume whose root region can be read,
`file_open` is the reference lookup: it scans the first `root_entries_count` slots in order up
to the first slot that starts with 0x00, skips the slots that start with
0xE5, and takes the first slot whose formatted name equals the requested
name under ASCII case folding.  Without such a slot it fails with `ENOENT`;
when the slot has `DIRECTORY` or `VOLUME_ID` set it fails with `EISDIR`;
otherwise, once `read_chain` has returned the chain, it returns a handle with
that chain, the size field of the slot, offset 0 and the empty window
`cur = end = base + bytes_per_cluster`. -/
theorem file_open_takes_first_match (big_endian : Bool) (fuel : Nat) (v : volume_t) (file_name : List Nat)
    (hv : root_readable v) :
    file_open big_endian fuel v file_name = file_open_spec big_endian fuel v file_name ∧
    (root_lookup big_endian v file_name = none →
      file_open big_endian fuel v file_name = some (.returned (.error .ENOENT))) ∧
    (∀ i, root_lookup big_endian v file_name = some i →
      ((root_entry big_endian v i).file_attributes &&& ATTR_DIRECTORY ≠ 0 ∨
        (root_entry big_endian v i).file_attributes &&& ATTR_VOLUME_ID ≠ 0) →
      file_open big_endian fuel v file_name = some (.returned (.error .EISDIR))) ∧
    (∀ i chain, root_lookup big_endian v file_name = some i →
      ¬ ((root_entry big_endian v i).file_attributes &&& ATTR_DIRECTORY ≠ 0 ∨
        (root_entry big_endian v i).file_attributes &&& ATTR_VOLUME_ID ≠ 0) →
      read_chain fuel v (root_entry big_endian v i) = some (.returned chain) →
      file_open big_endian fuel v file_name = some (.returned (.ok
        { volume := v
          read_buf := List.replicate v.bytes_per_cluster 0
          read_buf_cur := v.bytes_per_cluster
          read_buf_end := v.bytes_per_cluster
          chain := chain
          offset := 0
          size := (root_entry big_endian v i).size }))) := by
  have key := file_open_eq_spec big_endian fuel v file_name hv
  refine ⟨key, ?_, ?_, ?_⟩
  · intro h
    rw [key]
    unfold file_open_spec
    rw [h]
  · intro i h hattr
    rw [key]
    unfold file_open_spec
    rw [h]
    simp only []
    unfold open_slot
    rw [if_pos hattr]
  · intro i chain h hattr hchain
    rw [key]
    unfold file_open_spec
    rw [h]
    simp only []
    unfold open_slot
    rw [if_neg hattr, hchain]

theorem example_volume_root_readable : root_readable example_volume :=
  ⟨rfl, by decide, by decide, by decide, by decide⟩

set_option maxRecDepth 100000 in
theorem disk_directory_first_opens :
    fat_open false disk_directory_first 0 =
      .returned (.ok { example_volume with disk := disk_directory_first }) := by
  rfl

set_option maxRecDepth 100000 in
/-- The lookup on the small volume: `readme.txt` opens the slot
`README  TXT` with size 8; and where a directory `README  TXT` comes before
a regular file of the same name, `file_open` fails with `EISDIR`. -/
theorem file_open_takes_first_match_witness :
    root_readable example_volume ∧
    root_lookup false example_volume name_readme = some 0 ∧
    file_open false 4 example_volume name_readme = some (.returned (.ok (example_file 8 [2]))) ∧
    root_readable { example_volume with disk := disk_directory_first } ∧
    (scanned_slots { example_volume with disk := disk_directory_first }).filter
      (fun i => names_match
        (full_file_name (root_entry false { example_volume with disk := disk_directory_first } i)) name_readme)
      = [0, 1] ∧
    (root_entry false { example_volume with disk := disk_directory_first } 1).file_attributes = 0x20 ∧
    file_open false 4 { example_volume with disk := disk_directory_first } name_readme =
      some (.returned (.error .EISDIR)) :=
  ⟨example_volume_root_readable, rfl,
    (file_open_takes_first_match false 4 example_volume name_readme example_volume_root_readable).2.2.2
      0 ⟨[2], 1⟩ rfl (by decide) rfl,
    ⟨rfl, by decide, by decide, by decide, by decide⟩, by decide, by decide,
    (file_open_takes_first_match false 4 { example_volume with disk := disk_directory_first } name_readme
      ⟨rfl, by decide, by decide, by decide, by decide⟩).2.2.1 0 rfl (by decide)⟩

/-! ## Chains that the FAT does not end properly -/

set_option maxRecDepth 100000 in
theorem disk_cyclic_fat_opens :
    fat_open false disk_cyclic_fat 0 =
      .returned (.ok (example_volume_with disk_cyclic_fat [0xFFF8, 0xFFFF, 2, 4, 5, 0xFFFF])) := by
  rfl

set_option maxRecDepth 100000 in
/-- C14 (what the code does): on the small volume with `FAT[2] = 2`, which
`fat_open` accepts, the walk from the start cluster 2 of `README.TXT` never
ends: whatever the fuel, `read_chain` and with it `file_open` are still
running. -/
theorem read_chain_runs_for_ever_on_cycle :
    fat_open false disk_cyclic_fat 0 =
      .returned (.ok (example_volume_with disk_cyclic_fat [0xFFF8, 0xFFFF, 2, 4, 5, 0xFFFF])) ∧
    (example_volume_with disk_cyclic_fat [0xFFF8, 0xFFFF, 2, 4, 5, 0xFFFF]).fat[2]? = some 2 ∧
    (root_entry false (example_volume_with disk_cyclic_fat [0xFFF8, 0xFFFF, 2, 4, 5, 0xFFFF])
      0).low_order_address_of_first_cluster = 2 ∧
    root_lookup false (example_volume_with disk_cyclic_fat [0xFFF8, 0xFFFF, 2, 4, 5, 0xFFFF]) name_readme =
      some 0 ∧
    (∀ fuel, read_chain fuel (example_volume_with disk_cyclic_fat [0xFFF8, 0xFFFF, 2, 4, 5, 0xFFFF])
      (root_entry false (example_volume_with disk_cyclic_fat [0xFFF8, 0xFFFF, 2, 4, 5, 0xFFFF]) 0) = none) ∧
    (∀ fuel, file_open false fuel (example_volume_with disk_cyclic_fat [0xFFF8, 0xFFFF, 2, 4, 5, 0xFFFF])
      name_readme = none) := by
  have hchain : ∀ fuel, read_chain fuel (example_volume_with disk_cyclic_fat [0xFFF8, 0xFFFF, 2, 4, 5, 0xFFFF])
      (root_entry false (example_volume_with disk_cyclic_fat [0xFFF8, 0xFFFF, 2, 4, 5, 0xFFFF]) 0) = none :=
    fun fuel => read_chain_cycle _ _ (by rfl) (by decide) fuel
  refine ⟨disk_cyclic_fat_opens, rfl, rfl, rfl, hchain, ?_⟩
  intro fuel
  rw [file_open_eq_spec false fuel _ name_readme ⟨rfl, by decide, by decide, by decide, by decide⟩]
  unfold file_open_spec
  rw [show root_lookup false (example_volume_with disk_cyclic_fat [0xFFF8, 0xFFFF, 2, 4, 5, 0xFFFF]) name_readme =
    some 0 from rfl]
  simp only []
  unfold open_slot
  rw [if_neg (by decide), hchain fuel]

set_option maxRecDepth 100000 in
theorem disk_zero_in_chain_opens :
    fat_open false disk_zero_in_chain 0 =
      .returned (.ok (example_volume_with disk_zero_in_chain [0xFFF8, 0xFFFF, 0xFFFF, 4, 0, 0xFFFF])) := by
  rfl

set_option maxRecDepth 100000 in
theorem disk_defect_in_chain_opens :
    fat_open false disk_defect_in_chain 0 =
      .returned (.ok (example_volume_with disk_defect_in_chain [0xFFF8, 0xFFFF, 0xFFFF, 4, 0xFFF7, 0xFFFF])) := by
  rfl

set_option maxRecDepth 100000 in
/-- C15 (what the code does): `file_open` returns chains with elements below
2 and does not fail on a free entry in a chain.  On the small volume
`EMPTY.TXT`, whose start cluster is 0, gets the chain `[0]`; with
`FAT[4] = 0x0000` the file `DATA.BIN` is opened with the chain `[3, 4, 0]`;
with `FAT[4] = 0xFFF7` the walk goes on to the cluster 0xFFF7 and reads the
FAT entry number 0xFFF7 of a table of 256 entries. -/
theorem file_open_accepts_malformed_chains :
    file_open false 4 example_volume name_empty = some (.returned (.ok (example_file 0 [0]))) ∧
    example_volume.data_sectors_count / example_volume.sectors_per_cluster = 4196 ∧
    fat_open false disk_zero_in_chain 0 =
      .returned (.ok (example_volume_with disk_zero_in_chain [0xFFF8, 0xFFFF, 0xFFFF, 4, 0, 0xFFFF])) ∧
    (example_volume_with disk_zero_in_chain [0xFFF8, 0xFFFF, 0xFFFF, 4, 0, 0xFFFF]).fat[4]? = some 0 ∧
    (∃ f, file_open false 4 (example_volume_with disk_zero_in_chain [0xFFF8, 0xFFFF, 0xFFFF, 4, 0, 0xFFFF])
        name_data = some (.returned (.ok f)) ∧
      f.chain.clusters = [3, 4, 0] ∧ f.size = 1030) ∧
    fat_open false disk_defect_in_chain 0 =
      .returned (.ok (example_volume_with disk_defect_in_chain [0xFFF8, 0xFFFF, 0xFFFF, 4, 0xFFF7, 0xFFFF])) ∧
    (example_volume_with disk_defect_in_chain [0xFFF8, 0xFFFF, 0xFFFF, 4, 0xFFF7, 0xFFFF]).fat[4]? =
      some 0xFFF7 ∧
    (example_volume_with disk_defect_in_chain [0xFFF8, 0xFFFF, 0xFFFF, 4, 0xFFF7, 0xFFFF]).fat.length = 256 ∧
    file_open false 4 (example_volume_with disk_defect_in_chain [0xFFF8, 0xFFFF, 0xFFFF, 4, 0xFFF7, 0xFFFF])
      name_data = some .undefined :=
  ⟨rfl, rfl, disk_zero_in_chain_opens, rfl, ⟨_, rfl, rfl, rfl⟩, disk_defect_in_chain_opens, rfl, rfl, rfl⟩

/-! ## `dir_read` -/

/-- The sector that `dir_read` reads for the slot number `j` holds that slot
at the entry number `j % 16`. -/
theorem dir_read_sector (big_endian : Bool) (v : volume_t) (j : Nat)
    (hdev : v.boot_sectors_count + v.fat_sectors_count + j / 16 < v.disk.sectors_count)
    (hsmall : v.boot_sectors_count + v.fat_sectors_count + j / 16 < 4194304) :
    ∃ buf, disk_read v.disk
        (to_int32 (to_uint32 ((v.boot_sectors_count + v.fat_sectors_count + j / 16 : Nat) : Int))) 1 = .ok buf ∧
      buf.getD (32 * (j % 16)) 0 = slot_first_byte v j ∧
      sfn_of_bytes big_endian buf (j % 16) = root_entry big_endian v j := by
  refine ⟨image_bytes v.disk ((v.boot_sectors_count + v.fat_sectors_count + j / 16) * SECTOR_SIZE)
    (1 * SECTOR_SIZE), ?_, ?_, ?_⟩
  · rw [to_uint32_of_lt _ (by omega), to_int32_of_lt _ (by omega)]
    exact disk_read_ok v.disk _ 1 (by omega) (by omega) (by omega)
  · unfold slot_first_byte root_slot root_position
    simp only [SECTOR_SIZE]
    rw [image_bytes_getD _ _ _ _ (by omega), image_bytes_getD _ _ _ _ (by omega)]
    have e : (v.boot_sectors_count + v.fat_sectors_count + j / 16) * 512 + 32 * (j % 16) =
        (v.boot_sectors_count + v.fat_sectors_count) * 512 + 32 * j + 0 := by omega
    rw [e]
  · unfold root_entry root_slot root_position
    simp only [SECTOR_SIZE]
    rw [sfn_of_bytes_image _ _ _ _ _ (by omega)]
    have e : (v.boot_sectors_count + v.fat_sectors_count + j / 16) * 512 + 32 * (j % 16) =
        (v.boot_sectors_count + v.fat_sectors_count) * 512 + 32 * j := by omega
    rw [e]

theorem root_readable_sector (v : volume_t) (hv : root_readable v) (j : Nat) (hj : j < v.root_entries_count) :
    v.boot_sectors_count + v.fat_sectors_count + j / 16 < v.disk.sectors_count ∧
    v.boot_sectors_count + v.fat_sectors_count + j / 16 < 4194304 ∧ j + 1 < 65536 := by
  have h1 := hv.entries_fit
  have h2 := hv.small
  have h3 := hv.on_device
  have h4 := hv.entries_lt
  simp only [SECTOR_SIZE] at h1
  omega

theorem dir_read_loop_eof (big_endian : Bool) (pdir : dir_t)
    (hdev : pdir.volume.boot_sectors_count + pdir.volume.fat_sectors_count + pdir.index / 16 <
      pdir.volume.disk.sectors_count)
    (hsmall : pdir.volume.boot_sectors_count + pdir.volume.fat_sectors_count + pdir.index / 16 < 4194304)
    (hc : pdir.index ≤ pdir.count)
    (h0 : slot_first_byte pdir.volume pdir.index = DIR_EOF) (fuel : Nat) (pentry : dir_entry_t)
    (slots : List Nat) :
    dir_read_loop big_endian (fuel + 1) pdir pentry slots =
      some ⟨pdir, pentry, 1, none, slots ++ [pdir.index]⟩ := by
  obtain ⟨buf, hread, hfirst, _⟩ := dir_read_sector big_endian pdir.volume pdir.index hdev hsmall
  unfold dir_read_loop
  rw [if_pos hc]
  simp only [hread, hfirst]
  rw [if_pos h0]

theorem dir_read_loop_free (big_endian : Bool) (pdir : dir_t)
    (hdev : pdir.volume.boot_sectors_count + pdir.volume.fat_sectors_count + pdir.index / 16 <
      pdir.volume.disk.sectors_count)
    (hsmall : pdir.volume.boot_sectors_count + pdir.volume.fat_sectors_count + pdir.index / 16 < 4194304)
    (hidx : pdir.index + 1 < 65536) (hc : pdir.index ≤ pdir.count)
    (h1 : slot_first_byte pdir.volume pdir.index = DIR_FREE) (fuel : Nat) (pentry : dir_entry_t)
    (slots : List Nat) :
    dir_read_loop big_endian (fuel + 1) pdir pentry slots =
      dir_read_loop big_endian fuel { pdir with index := pdir.index + 1 } pentry (slots ++ [pdir.index]) := by
  obtain ⟨buf, hread, hfirst, _⟩ := dir_read_sector big_endian pdir.volume pdir.index hdev hsmall
  have hidx' : to_uint16 ((pdir.index : Int) + 1) = pdir.index + 1 := by
    unfold to_uint16
    omega
  conv => lhs; unfold dir_read_loop
  rw [if_pos hc]
  simp only [hread, hfirst, hidx']
  rw [if_neg (by rw [h1]; decide), if_pos h1]

theorem dir_read_loop_used (big_endian : Bool) (pdir : dir_t)
    (hdev : pdir.volume.boot_sectors_count + pdir.volume.fat_sectors_count + pdir.index / 16 <
      pdir.volume.disk.sectors_count)
    (hsmall : pdir.volume.boot_sectors_count + pdir.volume.fat_sectors_count + pdir.index / 16 < 4194304)
    (hidx : pdir.index + 1 < 65536) (hc : pdir.index ≤ pdir.count)
    (h0 : slot_first_byte pdir.volume pdir.index ≠ DIR_EOF)
    (h1 : slot_first_byte pdir.volume pdir.index ≠ DIR_FREE) (fuel : Nat) (pentry : dir_entry_t)
    (slots : List Nat) :
    dir_read_loop big_endian (fuel + 1) pdir pentry slots =
      some ⟨{ pdir with index := pdir.index + 1 },
        dir_entry_of (root_entry big_endian pdir.volume pdir.index), 0, none, slots ++ [pdir.index]⟩ := by
  obtain ⟨buf, hread, hfirst, hentry⟩ := dir_read_sector big_endian pdir.volume pdir.index hdev hsmall
  have hidx' : to_uint16 ((pdir.index : Int) + 1) = pdir.index + 1 := by
    unfold to_uint16
    omega
  unfold dir_read_loop
  rw [if_pos hc]
  simp only [hread, hfirst, hidx', hentry]
  rw [if_neg h0, if_neg h1]

theorem dir_read_spec_end (big_endian : Bool) (v : volume_t) (c s : Nat) (pentry : dir_entry_t) :
    dir_read_spec big_endian s ⟨v, c, s⟩ pentry = (1, ⟨v, c, s⟩, pentry) := by
  unfold dir_read_spec
  simp only [Nat.sub_self, List.range'_zero, List.find?_nil]

theorem dir_read_spec_free (big_endian : Bool) (v : volume_t) (c s j : Nat) (pentry : dir_entry_t)
    (hj : j < s) (h1 : slot_first_byte v j = DIR_FREE) :
    dir_read_spec big_endian s ⟨v, c, j⟩ pentry = dir_read_spec big_endian s ⟨v, c, j + 1⟩ pentry := by
  unfold dir_read_spec
  have e : s - j = (s - (j + 1)) + 1 := by omega
  simp only []
  rw [e, List.range'_succ, List.find?_cons]
  have d1 : decide (slot_first_byte v j ≠ DIR_FREE) = false := by simpa using h1
  rw [d1]

theorem dir_read_spec_used (big_endian : Bool) (v : volume_t) (c s j : Nat) (pentry : dir_entry_t)
    (hj : j < s) (h1 : slot_first_byte v j ≠ DIR_FREE) :
    dir_read_spec big_endian s ⟨v, c, j⟩ pentry =
      (0, ⟨v, c, j + 1⟩, dir_entry_of (root_entry big_endian v j)) := by
  unfold dir_read_spec
  have e : s - j = (s - (j + 1)) + 1 := by omega
  simp only []
  rw [e, List.range'_succ, List.find?_cons]
  have d1 : decide (slot_first_byte v j ≠ DIR_FREE) = true := by simpa using h1
  rw [d1]

/-- One call of `dir_read` on a root directory with a sentinel in the slot
number `s`, from an index up to `s`: with `s - index + 1` units of fuel the
loop returns what the reference `dir_read_spec` says. -/
theorem dir_read_loop_spec (big_endian : Bool) (v : volume_t) (hv : root_readable v) (s : Nat)
    (hs : s < v.root_entries_count) (h0 : slot_first_byte v s = DIR_EOF)
    (hbefore : ∀ i, i < s → slot_first_byte v i ≠ DIR_EOF) :
    ∀ (d j : Nat), j + d = s → ∀ (fuel : Nat) (pentry : dir_entry_t) (slots : List Nat), d + 1 ≤ fuel →
      ∃ slots', dir_read_loop big_endian fuel ⟨v, v.root_entries_count, j⟩ pentry slots =
        some ⟨(dir_read_spec big_endian s ⟨v, v.root_entries_count, j⟩ pentry).2.1,
          (dir_read_spec big_endian s ⟨v, v.root_entries_count, j⟩ pentry).2.2,
          (dir_read_spec big_endian s ⟨v, v.root_entries_count, j⟩ pentry).1, none, slots'⟩ := by
  intro d
  induction d with
  | zero =>
    intro j hj fuel pentry slots hfuel
    have hjs : j = s := by omega
    subst hjs
    obtain ⟨f, rfl⟩ : ∃ f, fuel = f + 1 := ⟨fuel - 1, by omega⟩
    rw [dir_read_spec_end]
    obtain ⟨g1, g2, _⟩ := root_readable_sector v hv j hs
    exact ⟨_, dir_read_loop_eof big_endian ⟨v, v.root_entries_count, j⟩ g1 g2 (Nat.le_of_lt hs) h0 f pentry slots⟩
  | succ d ih =>
    intro j hj fuel pentry slots hfuel
    have hjs : j < s := by omega
    obtain ⟨f, rfl⟩ : ∃ f, fuel = f + 1 := ⟨fuel - 1, by omega⟩
    obtain ⟨g1, g2, g3⟩ := root_readable_sector v hv j (by omega)
    by_cases h1 : slot_first_byte v j = DIR_FREE
    · rw [dir_read_spec_free big_endian v _ s j pentry hjs h1,
        dir_read_loop_free big_endian ⟨v, v.root_entries_count, j⟩ g1 g2 g3
          (by show j ≤ v.root_entries_count; omega) h1 f pentry slots]
      exact ih (j + 1) (by omega) f pentry _ (by omega)
    · rw [dir_read_spec_used big_endian v _ s j pentry hjs h1]
      exact ⟨_, dir_read_loop_used big_endian ⟨v, v.root_entries_count, j⟩ g1 g2 g3
        (by show j ≤ v.root_entries_count; omega) (hbefore j hjs) h1 f pentry slots⟩

theorem dir_read_eq_spec (big_endian : Bool) (v : volume_t) (hv : root_readable v) (s : Nat)
    (hs : s < v.root_entries_count) (h0 : slot_first_byte v s = DIR_EOF)
    (hbefore : ∀ i, i < s → slot_first_byte v i ≠ DIR_EOF) (j : Nat) (hj : j ≤ s) (fuel : Nat)
    (hfuel : s + 1 ≤ fuel) (pentry : dir_entry_t) :
    ∃ slots', dir_read big_endian fuel ⟨v, v.root_entries_count, j⟩ pentry =
      some ⟨(dir_read_spec big_endian s ⟨v, v.root_entries_count, j⟩ pentry).2.1,
        (dir_read_spec big_endian s ⟨v, v.root_entries_count, j⟩ pentry).2.2,
        (dir_read_spec big_endian s ⟨v, v.root_entries_count, j⟩ pentry).1, none, slots'⟩ := by
  unfold dir_read
  rw [if_neg (by show ¬ (j > v.root_entries_count); omega)]
  exact dir_read_loop_spec big_endian v hv s hs h0 hbefore (s - j) j (by omega) fuel pentry [] (by omega)

/-- The calls of `dir_read` from the index `j` on: an entry for each slot
before the sentinel that is not free, then 1 for ever. -/
theorem dir_read_calls_from (big_endian : Bool) (v : volume_t) (hv : root_readable v) (s : Nat)
    (hs : s < v.root_entries_count) (h0 : slot_first_byte v s = DIR_EOF)
    (hbefore : ∀ i, i < s → slot_first_byte v i ≠ DIR_EOF) (fuel : Nat) (hfuel : s + 1 ≤ fuel) :
    ∀ (d j : Nat), j + d = s → ∀ (m : Nat) (pentry : dir_entry_t),
      ∃ rs, dir_read_calls big_endian fuel
          (((List.range' j d).filter (fun i => decide (slot_first_byte v i ≠ DIR_FREE))).length + m)
          ⟨v, v.root_entries_count, j⟩ pentry = some rs ∧
        rs.map dir_read_view =
          ((List.range' j d).filter (fun i => decide (slot_first_byte v i ≠ DIR_FREE))).map
            (fun i => ((0 : Int), (⟨v, v.root_entries_count, i + 1⟩ : dir_t),
              some (full_file_name (root_entry big_endian v i), (root_entry big_endian v i).size))) ++
          List.replicate m ((1 : Int), (⟨v, v.root_entries_count, s⟩ : dir_t), none) := by
  intro d
  induction d with
  | zero =>
    intro j hj m
    have hjs : j = s := by omega
    subst hjs
    simp only [List.range'_zero, List.filter_nil, List.length_nil, Nat.zero_add, List.map_nil, List.nil_append]
    induction m with
    | zero => intro pentry; exact ⟨[], rfl, rfl⟩
    | succ m ihm =>
      intro pentry
      obtain ⟨sl, hcall⟩ := dir_read_eq_spec big_endian v hv j hs h0 hbefore j (Nat.le_refl j) fuel hfuel pentry
      rw [dir_read_spec_end] at hcall
      simp only [] at hcall
      obtain ⟨rs, hrs, hview⟩ := ihm pentry
      refine ⟨⟨⟨v, v.root_entries_count, j⟩, pentry, 1, none, sl⟩ :: rs, ?_, ?_⟩
      · unfold dir_read_calls
        rw [hcall]
        simp only [hrs]
      · rw [List.map_cons, hview, List.replicate_succ]
        rfl
  | succ d ih =>
    intro j hj m pentry
    have hjs : j < s := by omega
    obtain ⟨sl, hcall⟩ := dir_read_eq_spec big_endian v hv s hs h0 hbefore j (by omega) fuel hfuel pentry
    rw [List.range'_succ, List.filter_cons]
    by_cases h1 : slot_first_byte v j = DIR_FREE
    · have d1 : ¬ (decide (slot_first_byte v j ≠ DIR_FREE) = true) := by simpa using h1
      rw [if_neg d1]
      obtain ⟨rs, hrs, hview⟩ := ih (j + 1) (by omega) m pentry
      obtain ⟨sl1, hcall1⟩ :=
        dir_read_eq_spec big_endian v hv s hs h0 hbefore (j + 1) (by omega) fuel hfuel pentry
      rw [dir_read_spec_free big_endian v _ s j pentry hjs h1] at hcall
      cases hN : ((List.range' (j + 1) d).filter (fun i => decide (slot_first_byte v i ≠ DIR_FREE))).length + m with
      | zero =>
        rw [hN] at hrs
        refine ⟨[], rfl, ?_⟩
        have hrs' : rs = [] := by
          unfold dir_read_calls at hrs
          simp only [Option.some.injEq] at hrs
          exact hrs.symm
        rw [← hview, hrs']
      | succ n =>
        rw [hN] at hrs
        unfold dir_read_calls at hrs ⊢
        rw [hcall1] at hrs
        rw [hcall]
        simp only [] at hrs ⊢
        cases hrest : dir_read_calls big_endian fuel n
            (dir_read_spec big_endian s ⟨v, v.root_entries_count, j + 1⟩ pentry).2.1
            (dir_read_spec big_endian s ⟨v, v.root_entries_count, j + 1⟩ pentry).2.2 with
        | none => rw [hrest] at hrs; cases hrs
        | some rest =>
          rw [hrest] at hrs
          simp only [Option.some.injEq] at hrs
          refine ⟨_, rfl, ?_⟩
          rw [← hview, ← hrs]
          rfl
    · have d1 : decide (slot_first_byte v j ≠ DIR_FREE) = true := by simpa using h1
      rw [if_pos d1]
      rw [dir_read_spec_used big_endian v _ s j pentry hjs h1] at hcall
      simp only [] at hcall
      obtain ⟨rs, hrs, hview⟩ := ih (j + 1) (by omega) m (dir_entry_of (root_entry big_endian v j))
      refine ⟨⟨⟨v, v.root_entries_count, j + 1⟩, dir_entry_of (root_entry big_endian v j), 0, none, sl⟩ :: rs,
        ?_, ?_⟩
      · rw [List.length_cons, Nat.add_right_comm]
        unfold dir_read_calls
        rw [hcall]
        simp only [hrs]
      · rw [List.map_cons, hview, List.map_cons, List.cons_append]
        rfl

/-- C17 (amended): on a root directory that can be read and whose first
sentinel is in the slot number `s < root_entries_count`, successive calls of
`dir_read` on a fresh iterator return 0 once for each slot before `s` that
is not free, in slot order, with the formatted name and the size field of
the slot and the index behind the slot; every call after these returns 1 and
leaves the iterator at the index `s`, so the first of them moves the index
over the free slots before the sentinel and the later ones change nothing. -/
theorem dir_read_lists_entries (big_endian : Bool) (v : volume_t) (s m fuel : Nat) (pentry : dir_entry_t)
    (hv : root_readable v) (hs : s < v.root_entries_count) (h0 : slot_first_byte v s = DIR_EOF)
    (hbefore : ∀ i, i < s → slot_first_byte v i ≠ DIR_EOF) (hfuel : s + 1 ≤ fuel) :
    dir_open v ROOT_DIR = .ok ⟨v, v.root_entries_count, 0⟩ ∧
    ∃ rs, dir_read_calls big_endian fuel
        (((List.range s).filter (fun i => decide (slot_first_byte v i ≠ DIR_FREE))).length + m)
        ⟨v, v.root_entries_count, 0⟩ pentry = some rs ∧
      rs.map dir_read_view =
        ((List.range s).filter (fun i => decide (slot_first_byte v i ≠ DIR_FREE))).map
          (fun i => ((0 : Int), (⟨v, v.root_entries_count, i + 1⟩ : dir_t),
            some (full_file_name (root_entry big_endian v i), (root_entry big_endian v i).size))) ++
        List.replicate m ((1 : Int), (⟨v, v.root_entries_count, s⟩ : dir_t), none) := by
  refine ⟨rfl, ?_⟩
  rw [List.range_eq_range']
  exact dir_read_calls_from big_endian v hv s hs h0 hbefore fuel hfuel s 0 (by omega) m pentry

set_option maxRecDepth 100000 in
theorem disk_two_entries_opens :
    fat_open false disk_two_entries 0 = .returned (.ok { example_volume with disk := disk_two_entries }) := by
  rfl

set_option maxRecDepth 100000 in
/-- Witness of C17: with `README  TXT` and `DATA    BIN` followed by a
sentinel, four calls give 0 with `README.TXT`, 0 with `DATA.BIN`, 1 and 1. -/
theorem dir_read_lists_entries_witness :
    root_readable { example_volume with disk := disk_two_entries } ∧
    slot_first_byte { example_volume with disk := disk_two_entries } 2 = DIR_EOF ∧
    ∃ rs, dir_read_calls false 3 4 ⟨{ example_volume with disk := disk_two_entries }, 16, 0⟩ blank_entry =
        some rs ∧
      rs.map dir_read_view =
        [(0, ⟨{ example_volume with disk := disk_two_entries }, 16, 1⟩,
            some ([82, 69, 65, 68, 77, 69, 46, 84, 88, 84, 0], 8)),
         (0, ⟨{ example_volume with disk := disk_two_entries }, 16, 2⟩,
            some ([68, 65, 84, 65, 46, 66, 73, 78, 0], 1030)),
         (1, ⟨{ example_volume with disk := disk_two_entries }, 16, 2⟩, none),
         (1, ⟨{ example_volume with disk := disk_two_entries }, 16, 2⟩, none)] :=
  ⟨⟨rfl, by decide, by decide, by decide, by decide⟩, rfl,
    (dir_read_lists_entries false { example_volume with disk := disk_two_entries } 2 2 3 blank_entry
      ⟨rfl, by decide, by decide, by decide, by decide⟩ (by decide) rfl (by decide) (by decide)).2⟩

set_option maxRecDepth 100000 in
/-- C17 (counterexample): with `README  TXT` in slot 0, a free slot 1 and the
sentinel in slot 2, the first call of `dir_read` returns the entry and leaves
the index at 1; the second call returns 1 and moves the index to 2, so the
call that reports the end of the directory does change the iterator; the
third call returns 1 and changes nothing. -/
theorem dir_read_moves_index_to_sentinel :
    slot_first_byte { example_volume with disk := disk_free_slot } 1 = DIR_FREE ∧
    slot_first_byte { example_volume with disk := disk_free_slot } 2 = DIR_EOF ∧
    ∃ rs, dir_read_calls false 2 3 ⟨{ example_volume with disk := disk_free_slot }, 16, 0⟩ blank_entry =
        some rs ∧
      rs.map (fun r => (r.value, r.dir.index)) = [(0, 1), (1, 2), (1, 2)] :=
  ⟨rfl, rfl, _, rfl, rfl⟩

/-- Calls of `dir_read` over `n` slots that are in use: each of them returns
the slot as an entry, whether or not the slot lies before `count`. -/
theorem dir_read_calls_used (big_endian : Bool) (v : volume_t) (c fuel : Nat) :
    ∀ (n j : Nat) (pentry : dir_entry_t) (k : Nat),
      (∀ i, j ≤ i → i < j + n →
        slot_first_byte v i ≠ DIR_EOF ∧ slot_first_byte v i ≠ DIR_FREE ∧ i ≤ c ∧
        v.boot_sectors_count + v.fat_sectors_count + i / 16 < v.disk.sectors_count ∧
        v.boot_sectors_count + v.fat_sectors_count + i / 16 < 4194304 ∧ i + 1 < 65536) →
      dir_read_calls big_endian (fuel + 1) (n + k) ⟨v, c, j⟩ pentry =
        (dir_read_calls big_endian (fuel + 1) k ⟨v, c, j + n⟩
          (if n = 0 then pentry else dir_entry_of (root_entry big_endian v (j + n - 1)))).map
          (fun rest =>
            (List.range' j n).map
              (fun i => (⟨⟨v, c, i + 1⟩, dir_entry_of (root_entry big_endian v i), 0, none, [i]⟩ : dir_ret)) ++
              rest) := by
  intro n
  induction n with
  | zero =>
    intro j pentry k _
    simp only [Nat.zero_add, Nat.add_zero, List.range'_zero, List.map_nil, List.nil_append, if_true]
    generalize dir_read_calls big_endian (fuel + 1) k ⟨v, c, j⟩ pentry = X
    cases X <;> rfl
  | succ n ih =>
    intro j pentry k h
    obtain ⟨h0, h1, hc, hdev, hsmall, hidx⟩ := h j (Nat.le_refl j) (by omega)
    have hcall : dir_read big_endian (fuel + 1) ⟨v, c, j⟩ pentry =
        some ⟨⟨v, c, j + 1⟩, dir_entry_of (root_entry big_endian v j), 0, none, [j]⟩ := by
      unfold dir_read
      rw [if_neg (by show ¬ (j > c); omega)]
      exact dir_read_loop_used big_endian ⟨v, c, j⟩ hdev hsmall hidx hc h0 h1 fuel pentry []
    have hrest := ih (j + 1) (dir_entry_of (root_entry big_endian v j)) k
      (fun i hi1 hi2 => h i (by omega) (by omega))
    have e1 : j + 1 + n = j + (n + 1) := by omega
    have e2 : (if n = 0 then dir_entry_of (root_entry big_endian v j)
        else dir_entry_of (root_entry big_endian v (j + (n + 1) - 1))) =
        dir_entry_of (root_entry big_endian v (j + (n + 1) - 1)) := by
      by_cases hn : n = 0
      · subst hn; rfl
      · rw [if_neg hn]
    rw [e1, e2] at hrest
    rw [Nat.add_right_comm n 1 k]
    conv => lhs; unfold dir_read_calls
    rw [hcall]
    simp only []
    rw [hrest, if_neg (Nat.succ_ne_zero n), List.range'_succ, List.map_cons]
    generalize dir_read_calls big_endian (fuel + 1) k ⟨v, c, j + (n + 1)⟩
      (dir_entry_of (root_entry big_endian v (j + (n + 1) - 1))) = X
    cases X <;> rfl

set_option maxRecDepth 100000 in
theorem disk_full_root_opens :
    fat_open false disk_full_root 0 = .returned (.ok { example_volume with disk := disk_full_root }) := by
  rfl

set_option maxRecDepth 100000 in
theorem disk_full_root_slots (i : Nat) (hi : i < 17) :
    slot_first_byte { example_volume with disk := disk_full_root } i ≠ DIR_EOF ∧
    slot_first_byte { example_volume with disk := disk_full_root } i ≠ DIR_FREE := by
  revert i
  decide

set_option maxRecDepth 100000 in
/-- C18 (what the code does): on the small volume with all 16 root slots in
use, 17 calls of `dir_read` on a fresh iterator return 0: the seventeenth
call looks at the slot number 16 = `root_entries_count`, which is the start
of the first data sector, returns it as an entry and leaves the index at 17;
the eighteenth call returns -1 with `ENXIO`. -/
theorem dir_read_reads_slot_past_the_root :
    fat_open false disk_full_root 0 = .returned (.ok { example_volume with disk := disk_full_root }) ∧
    dir_open { example_volume with disk := disk_full_root } ROOT_DIR =
      .ok ⟨{ example_volume with disk := disk_full_root }, 16, 0⟩ ∧
    root_position { example_volume with disk := disk_full_root } + 32 * 16 =
      example_volume.first_data_sector * SECTOR_SIZE ∧
    ∃ rs, dir_read_calls false 1 18 ⟨{ example_volume with disk := disk_full_root }, 16, 0⟩ blank_entry =
        some rs ∧
      rs.map (fun r => (r.value, r.err, r.dir.index, r.slots)) =
        (List.range 17).map (fun i => ((0 : Int), (none : Option errno), i + 1, [i])) ++
          [(-1, some errno.ENXIO, 17, [])] := by
  refine ⟨disk_full_root_opens, rfl, rfl, ?_⟩
  have h := dir_read_calls_used false { example_volume with disk := disk_full_root } 16 0 17 0 blank_entry 1
    (by
      intro i _ hi
      have hs := disk_full_root_slots i (by omega)
      refine ⟨hs.1, hs.2, by omega, ?_, ?_, by omega⟩
      · show 1 + 2 + i / 16 < 4200
        omega
      · show 1 + 2 + i / 16 < 4194304
        omega)
  refine ⟨_, h, ?_⟩
  rfl

set_option maxRecDepth 100000 in
/-- C19 (what the code does): the flags `is_archived`, `is_system` and
`is_hidden` of an entry that `dir_read` returns are 0 for every attribute
byte, because the values `a & 0x20`, `a & 0x04` and `a & 0x02` are stored in
bit-fields of width 1; only `is_readonly` and `is_directory` follow their
bits.  The first entry of the small volume has the attribute byte 0x20 and
is returned with `is_archived = 0`. -/
theorem dir_read_loses_attribute_flags :
    (∀ entry : SFN, entry.file_attributes < 256 →
      (dir_entry_of entry).is_archived = 0 ∧ (dir_entry_of entry).is_system = 0 ∧
      (dir_entry_of entry).is_hidden = 0 ∧
      ((dir_entry_of entry).is_readonly ≠ 0 ↔ entry.file_attributes &&& 0x01 ≠ 0) ∧
      ((dir_entry_of entry).is_directory ≠ 0 ↔ entry.file_attributes &&& 0x10 ≠ 0)) ∧
    (root_entry false example_volume 0).file_attributes = 0x20 ∧
    ∃ r, dir_read false 1 ⟨example_volume, 16, 0⟩ blank_entry = some r ∧ r.value = 0 ∧
      r.entry.name = [82, 69, 65, 68, 77, 69, 46, 84, 88, 84, 0] ∧ r.entry.is_archived = 0 := by
  refine ⟨?_, rfl, _, rfl, rfl, rfl, rfl⟩
  intro entry h
  unfold dir_entry_of
  simp only [ATTR_ARCHIVE, ATTR_READ_ONLY, ATTR_SYSTEM, ATTR_HIDDEN, ATTR_DIRECTORY]
  generalize entry.file_attributes = a at h
  revert a
  decide

/-! ## The FAT table that `fat_open` keeps -/

theorem words_of_bytes_length (big_endian : Bool) :
    ∀ l : List Nat, (words_of_bytes big_endian l).length = l.length / 2
  | [] => rfl
  | [_] => by simp [words_of_bytes]
  | b0 :: b1 :: rest => by
    rw [words_of_bytes, List.length_cons, words_of_bytes_length big_endian rest]
    simp only [List.length_cons]
    omega

theorem words_of_bytes_get :
    ∀ (l : List Nat) (i : Nat), 2 * i + 1 < l.length →
      (words_of_bytes false l)[i]? = some (l.getD (2 * i) 0 + 256 * l.getD (2 * i + 1) 0)
  | [], i, h => by simp at h
  | [_], i, h => by simp at h
  | b0 :: b1 :: rest, 0, _ => by
    simp [words_of_bytes]
  | b0 :: b1 :: rest, i + 1, h => by
    rw [words_of_bytes, List.getElem?_cons_succ,
      words_of_bytes_get rest i (by simp only [List.length_cons] at h; omega)]
    have e1 : 2 * (i + 1) = 2 * i + 1 + 1 := by omega
    rw [e1]
    simp only [List.getD_cons_succ]

/-- The swap loop of `fat_open` leaves the block `volume->fat` as soon as
it runs for more iterations than the block has entries. -/
theorem fat_swap_loop_overrun (count : Nat) :
    ∀ (i : Nat) (fat : List Nat), i ≤ fat.length → fat.length < i + count →
      fat_swap_loop count i fat = .undefined := by
  induction count with
  | zero =>
    intro i fat h1 h2
    omega
  | succ count ih =>
    intro i fat h1 h2
    unfold fat_swap_loop
    by_cases hi : i < fat.length
    · rw [if_pos hi]
      exact ih (i + 1) _ (by rw [List.length_set]; omega) (by rw [List.length_set]; omega)
    · rw [if_neg hi]

theorem fat_open_tables_big_endian (pdisk : disk_t) (bs : boot_sector_t) (vol v : volume_t)
    (hfs : bs.fat_size ≠ 0) : fat_open_tables true pdisk bs vol ≠ .returned (.ok v) := by
  intro h
  unfold fat_open_tables at h
  dsimp only at h
  split at h
  · cases h
  · rename_i fats _
    split at h
    · cases h
    · cases h
    · have hswap : fat_swap_loop (bs.fat_size * SECTOR_SIZE) 0
          (words_of_bytes true (fats.take (bs.fat_size * SECTOR_SIZE))) = .undefined := by
        apply fat_swap_loop_overrun
        · exact Nat.zero_le _
        · rw [words_of_bytes_length, List.length_take]
          have : min (bs.fat_size * SECTOR_SIZE) fats.length ≤ bs.fat_size * SECTOR_SIZE :=
            Nat.min_le_left _ _
          simp only [SECTOR_SIZE] at this ⊢
          omega
      rw [if_pos (by decide), hswap] at h
      cases h

theorem fat_open_clusters_tables (big_endian : Bool) (pdisk : disk_t) (bs : boot_sector_t) (vol v : volume_t)
    (h : fat_open_clusters big_endian pdisk bs vol = .returned (.ok v)) :
    ∃ vol', fat_open_tables big_endian pdisk bs vol' = .returned (.ok v) := by
  unfold fat_open_clusters at h
  dsimp only at h
  split at h
  · cases h
  · exact ⟨_, h⟩

/-- On a big-endian host `fat_open` returns no volume: once the checks have
passed, the swap loop writes behind the block `volume->fat`. -/
theorem fat_open_big_endian (pdisk : disk_t) (first_sector : Nat) (v : volume_t) :
    fat_open true pdisk first_sector ≠ .returned (.ok v) := by
  intro h
  unfold fat_open at h
  split at h
  · cases h
  · rename_i sector hread
    generalize boot_sector_of_bytes true sector = bs at h
    obtain ⟨hchecks, heq⟩ := fat_open_fields_ok _ _ _ _ h
    rw [heq] at h
    obtain ⟨vol', h⟩ := fat_open_clusters_tables _ _ _ _ _ h
    exact fat_open_tables_big_endian _ _ _ _ hchecks.2.2.2.2.2.1 h

theorem fat_open_tables_little_endian (pdisk : disk_t) (bs : boot_sector_t) (vol v : volume_t)
    (h : fat_open_tables false pdisk bs vol = .returned (.ok v)) :
    ∃ fats, disk_read pdisk bs.reserved_sectors_count ((bs.fat_size * bs.number_of_fats : Nat) : Int) = .ok fats ∧
      v.fat = words_of_bytes false (fats.take (bs.fat_size * SECTOR_SIZE)) := by
  unfold fat_open_tables at h
  dsimp only at h
  split at h
  · cases h
  · rename_i fats hread
    split at h
    · cases h
    · cases h
    · rw [if_neg (by decide)] at h
      simp only [outcome.returned.injEq, Except.ok.injEq] at h
      exact ⟨fats, hread, by rw [← h]⟩

/-- On a little-endian host the table that `fat_open` keeps is the first
`fat_size` sectors of the FAT region that it has read from the sector
`reserved_sectors_count` of the device, decoded as little-endian 16-bit
entries. -/
theorem fat_open_fat_little_endian (pdisk : disk_t) (first_sector : Nat) (v : volume_t)
    (h : fat_open false pdisk first_sector = .returned (.ok v)) :
    ∃ sector, disk_read pdisk (to_int32 first_sector) 1 = .ok sector ∧
      v.fat.length = (boot_sector_of_bytes false sector).fat_size * 256 ∧
      ∀ i, i < (boot_sector_of_bytes false sector).fat_size * 256 →
        v.fat[i]? = some
          (pdisk.file ((boot_sector_of_bytes false sector).reserved_sectors_count * 512 + 2 * i) % 256 +
            256 *
              (pdisk.file ((boot_sector_of_bytes false sector).reserved_sectors_count * 512 + (2 * i + 1)) % 256))
    := by
  have h' := h
  unfold fat_open at h
  split at h
  · cases h
  · rename_i sector hread
    refine ⟨sector, hread, ?_⟩
    have hsec : ∀ x ∈ sector, x < 256 := by
      rw [disk_read_image _ _ _ _ hread]
      exact image_bytes_lt _ _ _
    have hres : (boot_sector_of_bytes false sector).reserved_sectors_count < 65536 := rd16_lt false _ hsec 14
    generalize boot_sector_of_bytes false sector = bs at h hres ⊢
    obtain ⟨hchecks, heq⟩ := fat_open_fields_ok _ _ _ _ h
    rw [heq] at h
    obtain ⟨vol', h⟩ := fat_open_clusters_tables _ _ _ _ _ h
    · obtain ⟨fats, hfats, hfat⟩ := fat_open_tables_little_endian _ _ _ _ h
      have himg := disk_read_image _ _ _ _ hfats
      have hpos : (to_int32 ((bs.reserved_sectors_count : Int) * (SECTOR_SIZE : Nat))).toNat =
          bs.reserved_sectors_count * 512 := by
        have := to_int32_of_lt (bs.reserved_sectors_count * 512) (by omega)
        simp only [SECTOR_SIZE]
        rw [Nat.cast_mul] at this
        rw [this]
        exact Int.toNat_ofNat _
      rw [hpos, Int.toNat_ofNat] at himg
      have hnf : 1 ≤ bs.number_of_fats := Nat.one_le_iff_ne_zero.2 hchecks.2.2.2.2.1
      have hle : bs.fat_size * SECTOR_SIZE ≤ bs.fat_size * bs.number_of_fats * SECTOR_SIZE := by
        have := Nat.mul_le_mul_left bs.fat_size hnf
        rw [Nat.mul_one] at this
        exact Nat.mul_le_mul_right _ this
      have htake : fats.take (bs.fat_size * SECTOR_SIZE) =
          image_bytes pdisk (bs.reserved_sectors_count * 512) (bs.fat_size * SECTOR_SIZE) := by
        have := image_bytes_slice pdisk (bs.reserved_sectors_count * 512)
          (bs.fat_size * bs.number_of_fats * SECTOR_SIZE) 0 (bs.fat_size * SECTOR_SIZE) (by omega)
        rw [List.drop_zero, Nat.add_zero] at this
        rw [himg, this]
      rw [hfat, htake]
      constructor
      · rw [words_of_bytes_length, image_bytes_length]
        simp only [SECTOR_SIZE]
        omega
      · intro i hi
        rw [words_of_bytes_get _ _ (by rw [image_bytes_length]; simp only [SECTOR_SIZE]; omega),
          image_bytes_getD _ _ _ _ (by simp only [SECTOR_SIZE]; omega),
          image_bytes_getD _ _ _ _ (by simp only [SECTOR_SIZE]; omega)]

set_option maxRecDepth 100000 in
theorem disk_big_endian_boot_sector :
    boot_sector_of_bytes true (image_bytes disk_big_endian 0 512) =
      { bytes_per_sector := 512, sectors_per_cluster := 1, reserved_sectors_count := 1, number_of_fats := 2,
        root_entries_count := 16, total_sectors_count := 4200, fat_size := 1, total_sectors_count32 := 0,
        signature := 0xAA55 } := by
  decide

set_option maxRecDepth 100000 in
theorem disk_big_endian_undefined : fat_open true disk_big_endian 0 = .undefined := by
  rfl

/-- C11 (what the code does): on a little-endian host the table that
`fat_open` keeps is the first FAT copy decoded little-endian, entry by entry.
On a big-endian host `fat_open` returns no volume at all: the swap loop runs
for `fat_bytes` iterations over a block of `fat_bytes / 2` entries and
writes behind it; `disk_big_endian`, whose boot sector passes every check of
a big-endian host, ends there. -/
theorem fat_open_swap_loop_leaves_fat :
    (∀ (pdisk : disk_t) (v : volume_t), fat_open false pdisk 0 = .returned (.ok v) →
      ∃ sector, disk_read pdisk (to_int32 (0 : Nat)) 1 = .ok sector ∧
        v.fat.length = (boot_sector_of_bytes false sector).fat_size * 256 ∧
        ∀ i, i < (boot_sector_of_bytes false sector).fat_size * 256 →
          v.fat[i]? = some
            (pdisk.file ((boot_sector_of_bytes false sector).reserved_sectors_count * 512 + 2 * i) % 256 +
              256 * (pdisk.file
                ((boot_sector_of_bytes false sector).reserved_sectors_count * 512 + (2 * i + 1)) % 256))) ∧
    boot_sector_of_bytes true (image_bytes disk_big_endian 0 512) =
      { bytes_per_sector := 512, sectors_per_cluster := 1, reserved_sectors_count := 1, number_of_fats := 2,
        root_entries_count := 16, total_sectors_count := 4200, fat_size := 1, total_sectors_count32 := 0,
        signature := 0xAA55 } ∧
    fat_open true disk_big_endian 0 = .undefined ∧
    ∀ (pdisk : disk_t) (first_sector : Nat) (v : volume_t),
      fat_open true pdisk first_sector ≠ .returned (.ok v) :=
  ⟨fun pdisk v h => fat_open_fat_little_endian pdisk 0 v h, disk_big_endian_boot_sector,
    disk_big_endian_undefined, fat_open_big_endian⟩

theorem disk_max_fat_zero (i : Nat) (h : 512 ≤ i) : disk_max_fat.file i % 256 = 0 := by
  show (if i < 510 then max_fat_boot.getD i 0 else if i = 510 then 0x55 else if i = 511 then 0xAA else 0) % 256 = 0
  rw [if_neg (by omega), if_neg (by omega), if_neg (by omega)]

set_option maxRecDepth 100000 in
theorem disk_max_fat_boot_sector :
    boot_sector_of_bytes false (image_bytes disk_max_fat 0 512) =
      { bytes_per_sector := 512, sectors_per_cluster := 1, reserved_sectors_count := 1, number_of_fats := 2,
        root_entries_count := 512, total_sectors_count := 0, fat_size := 256,
        total_sectors_count32 := 66069, signature := 0xAA55 } := by
  decide

/-- The entry count that `fat_open` publishes is the count of the table
reduced to 16 bits. -/
theorem fat_open_fat_size (big_endian : Bool) (pdisk : disk_t) (first_sector : Nat) (v : volume_t)
    (h : fat_open big_endian pdisk first_sector = .returned (.ok v)) :
    ∃ sector, disk_read pdisk (to_int32 first_sector) 1 = .ok sector ∧
      v.fat_size = (boot_sector_of_bytes big_endian sector).fat_size * 256 % 65536 := by
  obtain ⟨sector, bs, hread, hbs, _, _, _, _, _, _, _, _, _, _, _, _, _, _, hsize⟩ := fat_open_ok _ _ _ _ h
  refine ⟨sector, hread, ?_⟩
  rw [hsize, hbs]
  unfold to_uint16
  simp only [SECTOR_SIZE]
  omega

/-- C12 (what the code does): on a FAT16 volume of 65524 clusters with FATs
of 256 sectors, `fat_open` returns a volume whose table has 65536 entries
and whose field `fat_size` is 0. -/
theorem fat_open_truncates_fat_size :
    ∃ v, fat_open false disk_max_fat 0 = .returned (.ok v) ∧
      (boot_sector_of_bytes false (image_bytes disk_max_fat 0 512)).fat_size = 256 ∧
      v.data_sectors_count / v.sectors_per_cluster = 65524 ∧
      v.fat.length = 65536 ∧ v.fat_size = 0 := by
  have hboot : disk_read disk_max_fat (to_int32 ((0 : Nat) : Int)) 1 = .ok (image_bytes disk_max_fat 0 512) := by
    have h := disk_read_ok disk_max_fat 0 1 (by show 0 + 1 ≤ 66069; omega) (by omega) (by omega)
    rw [to_int32_of_lt 0 (by omega)]
    exact h
  have hfats : disk_read disk_max_fat ((1 : Nat) : Int) ((256 * 2 : Nat) : Int) =
      .ok (image_bytes disk_max_fat 512 262144) :=
    disk_read_ok disk_max_fat 1 (256 * 2) (by show 1 + 256 * 2 ≤ 66069; omega) (by omega) (by omega)
  have hmirror : fat_mirror_check (image_bytes disk_max_fat 512 262144) (256 * SECTOR_SIZE) (2 - 1) 0 =
      .returned (.ok ()) := by
    apply fat_mirror_check_two
    · rw [image_bytes_length]; rfl
    · simp only [SECTOR_SIZE]; omega
    · rw [image_bytes_slice _ _ _ _ _ (by simp only [SECTOR_SIZE]; omega),
        image_bytes_slice _ _ _ _ _ (by simp only [SECTOR_SIZE]; omega)]
      apply image_bytes_congr
      intro i _
      rw [disk_max_fat_zero _ (by omega), disk_max_fat_zero _ (by omega)]
  have hopen : fat_open false disk_max_fat 0 = fat_open_fields false disk_max_fat
      (boot_sector_of_bytes false (image_bytes disk_max_fat 0 512)) := by
    unfold fat_open
    simp only [hboot]
  rw [hopen]
  have e := disk_max_fat_boot_sector
  generalize boot_sector_of_bytes false (image_bytes disk_max_fat 0 512) = bs at e ⊢
  have e1 : bs.reserved_sectors_count = 1 := by rw [e]
  have e2 : bs.number_of_fats = 2 := by rw [e]
  have e3 : bs.fat_size = 256 := by rw [e]
  have e4 : bs.root_entries_count = 512 := by rw [e]
  have e5 : bs.total_sectors_count = 0 := by rw [e]
  have e6 : bs.total_sectors_count32 = 66069 := by rw [e]
  have e7 : bs.sectors_per_cluster = 1 := by rw [e]
  have e8 : bs.bytes_per_sector = 512 := by rw [e]
  rw [fat_open_fields_valid _ _ _ (by rw [e]; decide)]
  unfold fat_open_clusters
  dsimp only
  have hfsc : to_uint16 ((bs.number_of_fats * bs.fat_size : Nat) : Int) = 512 := by
    rw [e2, e3]; decide
  have hroot : to_uint32 (((bs.root_entries_count * 32 + (bs.bytes_per_sector - 1)) / SECTOR_SIZE : Nat) : Int)
      = 32 := by
    rw [e4, e8]; decide
  rw [hfsc, hroot, e1, e5, e6, e7]
  rw [if_neg (by decide)]
  rw [fat_open_tables_accepts _ _ _ _ (by rw [e1, e2, e3]; exact hfats) (by rw [e2, e3]; exact hmirror)]
  refine ⟨_, rfl, e3, ?_, ?_, ?_⟩
  · show to_uint32 ((66069 : Int) - to_uint32 ((1 + 512 + 32 : Nat) : Int)) / 1 = 65524
    decide
  · show (words_of_bytes false ((image_bytes disk_max_fat 512 262144).take (bs.fat_size * SECTOR_SIZE))).length
      = 65536
    rw [words_of_bytes_length, List.length_take, image_bytes_length, e3]
    decide
  · show to_uint16 ((bs.fat_size * SECTOR_SIZE / 2 : Nat) : Int) = 0
    rw [e3]
    decide

/-! ## The data region of a volume -/

theorem rd32_lt (big_endian : Bool) (b : List Nat) (hb : ∀ x ∈ b, x < 256) (off : Nat) :
    rd32 big_endian b off < 4294967296 := by
  have h0 := getD_lt b hb off
  have h1 := getD_lt b hb (off + 1)
  have h2 := getD_lt b hb (off + 2)
  have h3 := getD_lt b hb (off + 3)
  unfold rd32
  split <;> omega

/-- The fields of a boot sector that has been read from a device fit their
widths. -/
theorem boot_sector_bounds (big_endian : Bool) (pdisk : disk_t) (first : Int) (sector : List Nat)
    (hread : disk_read pdisk first 1 = .ok sector) :
    (boot_sector_of_bytes big_endian sector).reserved_sectors_count < 65536 ∧
    (boot_sector_of_bytes big_endian sector).root_entries_count < 65536 ∧
    (boot_sector_of_bytes big_endian sector).total_sectors_count < 65536 ∧
    (boot_sector_of_bytes big_endian sector).total_sectors_count32 < 4294967296 := by
  have hsec : ∀ x ∈ sector, x < 256 := by
    rw [disk_read_image _ _ _ _ hread]
    exact image_bytes_lt _ _ _
  exact ⟨rd16_lt _ _ hsec 14, rd16_lt _ _ hsec 17, rd16_lt _ _ hsec 19, rd32_lt _ _ hsec 32⟩

/-- The 32-bit difference `total - first` of a total below `first` is too
large for the FAT16 test on the cluster count. -/
theorem wrapped_cluster_count (total first spc : Nat) (hlt : total < first) (hfirst : first ≤ 135168)
    (hspc : spc ≤ 64) (hpos : 0 < spc) :
    to_uint32 ((total : Int) - first) / spc > FAT16_MAX_CLUSTERS := by
  have hdata : to_uint32 ((total : Int) - first) = 4294967296 + total - first := by
    unfold to_uint32
    omega
  rw [hdata]
  show 65526 ≤ (4294967296 + total - first) / spc
  rw [Nat.le_div_iff_mul_le hpos]
  have := Nat.mul_le_mul_left 65526 hspc
  omega

theorem is_power_two_pos (x : Nat) (h : IS_POWER_TWO x = true) : 0 < x := by
  cases x with
  | zero => revert h; decide
  | succ n => exact Nat.succ_pos n

theorem fat_open_fields_short (big_endian : Bool) (pdisk : disk_t) (bs : boot_sector_t)
    (h1 : bs.reserved_sectors_count < 65536) (h2 : bs.root_entries_count < 65536)
    (hshort : (if bs.total_sectors_count = 0 then bs.total_sectors_count32 else bs.total_sectors_count) <
      bs.reserved_sectors_count + to_uint16 ((bs.number_of_fats * bs.fat_size : Nat) : Int) +
        (bs.root_entries_count * 32 + 511) / 512) :
    fat_open_fields big_endian pdisk bs = .returned (.error .EINVAL) := by
  unfold fat_open_fields
  by_cases c1 : bs.signature ≠ SIGNATURE
  · simp only [if_pos c1]
  simp only [if_neg c1]
  by_cases c2 : bs.bytes_per_sector ≠ SECTOR_SIZE
  · simp only [if_pos c2]
  simp only [if_neg c2]
  by_cases c3 : (!IS_POWER_TWO bs.sectors_per_cluster) = true ∨ bs.sectors_per_cluster > MAX_SECTORS_PER_CLUSTER
  · simp only [if_pos c3]
  simp only [if_neg c3]
  by_cases c4 : bs.number_of_fats = 0
  · simp only [if_pos c4]
  simp only [if_neg c4]
  by_cases c5 : bs.fat_size = 0
  · simp only [if_pos c5]
  simp only [if_neg c5]
  by_cases c6 : bs.reserved_sectors_count = 0
  · simp only [if_pos c6]
  simp only [if_neg c6]
  by_cases c7 : bs.total_sectors_count = 0 ∧ bs.total_sectors_count32 = 0
  · simp only [if_pos c7]
  simp only [if_neg c7]
  simp only [Bool.not_eq_true', not_or, not_lt, gt_iff_lt, Bool.not_eq_false, ne_eq, Decidable.not_not,
    MAX_SECTORS_PER_CLUSTER] at c2 c3
  have hfsc : to_uint16 ((bs.number_of_fats * bs.fat_size : Nat) : Int) < 65536 := by
    unfold to_uint16; omega
  have hroot : to_uint32 (((bs.root_entries_count * 32 + (bs.bytes_per_sector - 1)) / SECTOR_SIZE : Nat) : Int) =
      (bs.root_entries_count * 32 + 511) / 512 := by
    rw [c2]
    simp only [SECTOR_SIZE]
    exact to_uint32_of_lt _ (by omega)
  have hfirst : to_uint32 ((bs.reserved_sectors_count + to_uint16 ((bs.number_of_fats * bs.fat_size : Nat) : Int) +
      (bs.root_entries_count * 32 + 511) / 512 : Nat) : Int) =
      bs.reserved_sectors_count + to_uint16 ((bs.number_of_fats * bs.fat_size : Nat) : Int) +
        (bs.root_entries_count * 32 + 511) / 512 := to_uint32_of_lt _ (by omega)
  unfold fat_open_clusters
  dsimp only
  rw [hroot, hfirst]
  rw [if_pos (Or.inr (wrapped_cluster_count _ _ bs.sectors_per_cluster hshort (by omega) c3.2
    (is_power_two_pos _ c3.1)))]

/-- C21: every volume that `fat_open` returns has
`first_data_sector = boot_sectors_count + fat_sectors_count + root_sectors_count`,
`first_data_sector <= total_sectors_count` and
`data_sectors_count = total_sectors_count - first_data_sector` over the
natural numbers; and a boot sector whose total sector count is below the
stored reserved, FAT and root sector counts is rejected with `EINVAL`. -/
theorem fat_open_data_region (big_endian : Bool) (pdisk : disk_t) (first_sector : Nat) (sector : List Nat)
    (hread : disk_read pdisk (to_int32 first_sector) 1 = .ok sector) :
    (∀ v, fat_open big_endian pdisk first_sector = .returned (.ok v) →
      v.first_data_sector = v.boot_sectors_count + v.fat_sectors_count + v.root_sectors_count ∧
      v.first_data_sector ≤ v.total_sectors_count ∧
      v.data_sectors_count = v.total_sectors_count - v.first_data_sector ∧
      v.first_data_sector + v.data_sectors_count = v.total_sectors_count) ∧
    ((if (boot_sector_of_bytes big_endian sector).total_sectors_count = 0 then
          (boot_sector_of_bytes big_endian sector).total_sectors_count32
        else (boot_sector_of_bytes big_endian sector).total_sectors_count) <
        (boot_sector_of_bytes big_endian sector).reserved_sectors_count +
          to_uint16 (((boot_sector_of_bytes big_endian sector).number_of_fats *
            (boot_sector_of_bytes big_endian sector).fat_size : Nat) : Int) +
          ((boot_sector_of_bytes big_endian sector).root_entries_count * 32 + 511) / 512 →
      fat_open big_endian pdisk first_sector = .returned (.error .EINVAL)) := by
  obtain ⟨b1, b2, b3, b4⟩ := boot_sector_bounds big_endian pdisk _ sector hread
  constructor
  · intro v hv
    obtain ⟨sector', bs, hread', hbs, hchecks, hmin, hmax, _, _, htotal, hspc, _, hboot, hfat, hroot, hdata,
      hfirst, hrec, _⟩ := fat_open_ok _ _ _ _ hv
    rw [hread] at hread'
    simp only [Except.ok.injEq] at hread'
    subst hread'
    rw [← hbs] at b1 b2 b3 b4
    have hfsc : v.fat_sectors_count < 65536 := by rw [hfat]; unfold to_uint16; omega
    have hroot' : v.root_sectors_count = (bs.root_entries_count * 32 + 511) / 512 := by
      rw [hroot, hchecks.2.1]
      simp only [SECTOR_SIZE]
      exact to_uint32_of_lt _ (by omega)
    have hfirst' : v.first_data_sector = v.boot_sectors_count + v.fat_sectors_count + v.root_sectors_count := by
      rw [hfirst]
      exact to_uint32_of_lt _ (by rw [hroot', hboot]; omega)
    have htot : v.total_sectors_count < 4294967296 := by
      rw [htotal]
      split <;> omega
    have hle : v.first_data_sector ≤ v.total_sectors_count := by
      by_contra hlt
      have hw := wrapped_cluster_count v.total_sectors_count v.first_data_sector v.sectors_per_cluster
        (by omega) (by rw [hfirst', hroot', hboot]; omega)
        (by rw [hspc]; exact hchecks.2.2.2.1) (by rw [hspc]; exact is_power_two_pos _ hchecks.2.2.1)
      rw [← hdata] at hw
      simp only [FAT16_MAX_CLUSTERS] at hw hmax
      omega
    have hdata' : v.data_sectors_count = v.total_sectors_count - v.first_data_sector := by
      rw [hdata]
      unfold to_uint32
      omega
    exact ⟨hfirst', hle, hdata', by omega⟩
  · intro hshort
    unfold fat_open
    rw [hread]
    exact fat_open_fields_short _ _ _ b1 b2 hshort

set_option maxRecDepth 100000 in
/-- Witness of C21: the small volume has 4 sectors before its 4196 data
sectors, and the same image with a total sector count of 3 is rejected. -/
theorem fat_open_data_region_witness :
    (example_volume.first_data_sector = 4 ∧ example_volume.first_data_sector ≤ example_volume.total_sectors_count ∧
      example_volume.data_sectors_count = example_volume.total_sectors_count - example_volume.first_data_sector ∧
      example_volume.first_data_sector + example_volume.data_sectors_count =
        example_volume.total_sectors_count) ∧
    (boot_sector_of_bytes false (image_bytes disk_short_total 0 512)).total_sectors_count = 3 ∧
    fat_open false disk_short_total 0 = .returned (.error .EINVAL) :=
  ⟨(fat_open_data_region false example_disk 0 (image_bytes example_disk 0 512) rfl).1 example_volume
      example_volume_opens,
    by decide,
    (fat_open_data_region false disk_short_total 0 (image_bytes disk_short_total 0 512) rfl).2 (by decide)⟩

/-! ## A volume that does not start at sector 0 -/

/-- The argument `first_sector` of `fat_open` is used for the read of the
boot sector only: with the same boot sector, `fat_open` does the same for
every `first_sector`. -/
theorem fat_open_first_sector (big_endian : Bool) (pdisk : disk_t) (k j : Nat)
    (h : disk_read pdisk (to_int32 k) 1 = disk_read pdisk (to_int32 j) 1) :
    fat_open big_endian pdisk k = fat_open big_endian pdisk j := by
  unfold fat_open
  rw [h]

theorem disk_relocated_file (i : Nat) : disk_relocated.file (4096 + i) = example_disk.file i := by
  unfold disk_relocated example_disk
  simp only []
  rw [if_neg (by omega), Nat.add_sub_cancel_left]

set_option maxRecDepth 100000 in
theorem disk_relocated_opens :
    fat_open false disk_relocated 8 =
      .returned (.ok { example_volume with disk := disk_relocated, fat := List.replicate 256 0 }) := by
  rfl

set_option maxRecDepth 100000 in
/-- C22 (what the code does): the device `disk_relocated` holds the small
volume from its sector 8 on (byte 4096), after 8 sectors of zeros.  `fat_open` at sector
8 reads the boot sector there, but the FAT copies from the sectors 1 and 2
of the device, so its table is all zero where `fat_open` at sector 0 of the
small volume itself gives `0xFFF8, 0xFFFF, 0xFFFF, 4, 5, 0xFFFF, ...`; and
`file_open`, which reads the root directory from the sector 3 of the device,
does not find `readme.txt`, which it opens on the small volume. -/
theorem fat_open_reads_tables_at_device_start :
    disk_relocated.sectors_count = example_disk.sectors_count + 8 ∧
    (∀ i, disk_relocated.file (4096 + i) = example_disk.file i) ∧
    fat_open false example_disk 0 = .returned (.ok example_volume) ∧
    fat_open false disk_relocated 8 =
      .returned (.ok { example_volume with disk := disk_relocated, fat := List.replicate 256 0 }) ∧
    example_volume.fat.take 6 = [0xFFF8, 0xFFFF, 0xFFFF, 4, 5, 0xFFFF] ∧
    file_open false 4 example_volume name_readme = some (.returned (.ok (example_file 8 [2]))) ∧
    file_open false 4 { example_volume with disk := disk_relocated, fat := List.replicate 256 0 } name_readme =
      some (.returned (.error .ENOENT)) := by
  exact ⟨rfl, disk_relocated_file, example_volume_opens, disk_relocated_opens, rfl, example_readme_opens, rfl⟩

/-! ## The refill of the buffer stays inside the chain -/

theorem chain_index_bounds (S B o : Nat) (hB : 0 < B) (ho : o < S) :
    o / B < max 1 ((S + B - 1) / B) ∧
    (o / B ≠ max 1 ((S + B - 1) / B) - 1 → o + (B - o % B) ≤ S) ∧
    (o / B = max 1 ((S + B - 1) / B) - 1 → S - o ≤ B) ∧
    max 1 ((S + B - 1) / B) ≤ S := by
  have hq : (S + B - 1) / B = (S - 1) / B + 1 := by
    have e : S + B - 1 = (S - 1) + B := by omega
    rw [e, Nat.add_div_right _ hB]
  have hL : max 1 ((S + B - 1) / B) = (S - 1) / B + 1 := by
    rw [hq]
    exact Nat.max_eq_right (Nat.le_add_left 1 _)
  rw [hL]
  have h1 : o / B ≤ (S - 1) / B := Nat.div_le_div_right (by omega)
  have h0 : (S - 1) / B ≤ S - 1 := Nat.div_le_self _ _
  have h3 : (S - 1) / B * B + (S - 1) % B = S - 1 := Nat.div_add_mod' _ _
  have h4 : (S - 1) % B < B := Nat.mod_lt _ hB
  have h5 : o / B * B + o % B = o := Nat.div_add_mod' _ _
  have h6 : o % B < B := Nat.mod_lt _ hB
  generalize (S - 1) / B = q at h0 h1 h3 ⊢
  generalize (S - 1) % B = r at h3 h4
  generalize o / B = idx at h1 h5 ⊢
  generalize o % B = m at h5 h6 ⊢
  refine ⟨by omega, ?_, ?_, by omega⟩
  · intro hne
    have h7 : idx + 1 ≤ q := by omega
    have h8 := Nat.mul_le_mul_right B h7
    rw [Nat.add_mul, Nat.one_mul] at h8
    omega
  · intro heq
    have h7 : idx = q := by omega
    rw [h7] at h5
    omega

theorem window_ok_fresh (f0 : file_t) (hfresh : freshly_opened f0)
    (hbuf : f0.read_buf.length = f0.volume.bytes_per_cluster) : window_ok f0 f0 := by
  obtain ⟨h1, h2, h3⟩ := hfresh
  refine ⟨rfl, rfl, rfl, hbuf, by omega, by omega, ?_⟩
  intro _
  omega

theorem file_seek_window_ok (f0 f : file_t) (hS : f0.size < 4294967296) (h : window_ok f0 f)
    (offset whence : Int) : window_ok f0 (file_seek f offset whence).file := by
  have hsize := h.size
  have key : ∀ o : Nat, o ≤ f.size →
      window_ok f0 { f with offset := o, read_buf_cur := f.read_buf_end } := by
    intro o ho
    refine ⟨h.volume, h.chain, h.size, h.buf, h.end_le, h.end_le, ?_⟩
    intro _
    show o + (f.read_buf_end - f.read_buf_end) ≤ f.size
    omega
  unfold file_seek
  simp only []
  split_ifs with c1 c2 c3 c4 c5 c6 c7
  · exact h
  · exact key _ (by omega)
  · exact h
  · apply key
    unfold to_uint32 to_uint64 at *
    omega
  · exact h
  · exact key _ (Nat.le_refl _)
  · apply key
    unfold to_uint32
    omega
  · exact h

theorem copy_from_window_ok (f0 : file_t) (hS : f0.size < 4294967296) (s s1 : read_state) (n : Nat)
    (h : window_ok f0 s.file) (hc : copy_from_window s n = some s1) :
    window_ok f0 s1.file ∧ s1.file.read_buf_cur = s.file.read_buf_cur + n ∧
    s1.file.read_buf_end = s.file.read_buf_end ∧
    (s.file.read_buf_cur + n ≤ s.file.read_buf_end → s1.file.offset = s.file.offset + n) := by
  unfold copy_from_window at hc
  split at hc
  · rename_i hfit
    simp only [Option.some.injEq] at hc
    subst hc
    have hbuf := h.buf
    have hsize := h.size
    have hoff : s.file.read_buf_cur + n ≤ s.file.read_buf_end →
        to_uint32 ((s.file.offset : Int) + n) = s.file.offset + n := by
      intro hle
      have := h.within (by omega)
      unfold to_uint32
      omega
    refine ⟨⟨h.volume, h.chain, h.size, h.buf, ?_, h.end_le, ?_⟩, rfl, rfl, hoff⟩
    · show s.file.read_buf_cur + n ≤ f0.volume.bytes_per_cluster
      omega
    · intro hle
      have hle' : s.file.read_buf_cur + n ≤ s.file.read_buf_end := hle
      have := h.within (by omega)
      show to_uint32 ((s.file.offset : Int) + n) + (s.file.read_buf_end - (s.file.read_buf_cur + n)) ≤ s.file.size
      rw [hoff hle']
      omega
  · cases hc

/-- When the request is larger than what the window holds and the rest of
the window has been copied, the offset is at most the size. -/
theorem window_exhausted (f0 : file_t) (hB : f0.volume.bytes_per_cluster < 4294967296)
    (hS : f0.size < 4294967296) (s s1 : read_state) (h : window_ok f0 s.file)
    (hc : (if to_uint64 ((s.file.read_buf_end : Int) - s.file.read_buf_cur) > 0 then
        copy_from_window s (to_uint64 ((s.file.read_buf_end : Int) - s.file.read_buf_cur))
      else some s) = some s1) :
    window_ok f0 s1.file ∧ s1.file.offset ≤ s1.file.size := by
  have hcur := h.cur_le
  have hend := h.end_le
  have hbuf := h.buf
  by_cases hwrap : s.file.read_buf_cur ≤ s.file.read_buf_end
  · have hav : to_uint64 ((s.file.read_buf_end : Int) - s.file.read_buf_cur) =
        s.file.read_buf_end - s.file.read_buf_cur := by
      unfold to_uint64
      omega
    rw [hav] at hc
    have hin := h.within hwrap
    split at hc
    · obtain ⟨hok, _, _, hoff⟩ := copy_from_window_ok f0 hS s s1 _ h hc
      refine ⟨hok, ?_⟩
      rw [hoff (by omega), hok.size, ← h.size]
      omega
    · simp only [Option.some.injEq] at hc
      subst hc
      exact ⟨h, by omega⟩
  · exfalso
    have hav : to_uint64 ((s.file.read_buf_end : Int) - s.file.read_buf_cur) =
        18446744073709551616 + s.file.read_buf_end - s.file.read_buf_cur := by
      unfold to_uint64
      omega
    rw [hav, if_pos (by omega)] at hc
    unfold copy_from_window at hc
    rw [if_neg (by omega)] at hc
    cases hc

theorem refill_window_not_brk (s s1 : read_state) : refill_window s ≠ .brk s1 := by
  intro h
  unfold refill_window at h
  simp only [] at h
  split at h
  · cases h
  · split at h
    · cases h
    · split at h
      · cases h
      · split at h
        · cases h
        · split at h <;> cases h

/-- A refill at an offset below the size keeps the invariant. -/
theorem refill_window_window_ok (f0 : file_t) (hB : 0 < f0.volume.bytes_per_cluster)
    (hS : f0.size < 4294967296) (hfits : chain_fits f0) (s s1 : read_state) (h : window_ok f0 s.file)
    (ho : s.file.offset < s.file.size)
    (hr : refill_window s = .next s1 ∨ ∃ e, refill_window s = .error s1 e) : window_ok f0 s1.file := by
  have hvol := h.volume
  have hchain := h.chain
  have hsize := h.size
  have hbuf := h.buf
  obtain ⟨hcs, hlen⟩ := hfits
  obtain ⟨b1, b2, b3, b4⟩ := chain_index_bounds s.file.size s.file.volume.bytes_per_cluster s.file.offset
    (by rw [hvol]; exact hB) ho
  rw [hsize, hvol, ← hlen] at b1 b2 b3 b4
  rw [hsize] at ho
  have hm : s.file.offset % f0.volume.bytes_per_cluster < f0.volume.bytes_per_cluster := Nat.mod_lt _ hB
  have hlast : to_uint32 ((s.file.chain.size : Int) - 1) = f0.chain.clusters.length - 1 := by
    rw [hchain, hcs]
    unfold to_uint32
    omega
  unfold refill_window at hr
  simp only [hvol, hlast, hsize] at hr
  rw [if_neg (by omega)] at hr
  split at hr
  · rcases hr with hr | ⟨e, hr⟩ <;> cases hr
  · split at hr
    · rcases hr with hr | ⟨e, hr⟩
      · cases hr
      · simp only [read_step.error.injEq] at hr
        rw [← hr.1]
        exact h
    · split at hr
      · rcases hr with hr | ⟨e, hr⟩
        · cases hr
        · simp only [read_step.error.injEq] at hr
          rw [← hr.1]
          exact h
      · rename_i data _
        split at hr
        · rcases hr with hr | ⟨e, hr⟩ <;> cases hr
        · rename_i hdata
          rcases hr with hr | ⟨e, hr⟩
          · simp only [read_step.next.injEq] at hr
            subst hr
            refine ⟨rfl, hchain, rfl, ?_, Nat.le_of_lt hm, ?_, ?_⟩
            · show (data ++ s.file.read_buf.drop data.length).length = f0.volume.bytes_per_cluster
              rw [List.length_append, List.length_drop]
              omega
            · show (if s.file.offset / f0.volume.bytes_per_cluster = f0.chain.clusters.length - 1 then
                  to_uint32 ((f0.size : Int) - s.file.offset) else f0.volume.bytes_per_cluster) ≤
                f0.volume.bytes_per_cluster
              split
              · rename_i hidx
                have := b3 hidx
                unfold to_uint32
                omega
              · exact Nat.le_refl _
            · show s.file.offset % f0.volume.bytes_per_cluster ≤
                  (if s.file.offset / f0.volume.bytes_per_cluster = f0.chain.clusters.length - 1 then
                    to_uint32 ((f0.size : Int) - s.file.offset) else f0.volume.bytes_per_cluster) →
                s.file.offset +
                  ((if s.file.offset / f0.volume.bytes_per_cluster = f0.chain.clusters.length - 1 then
                    to_uint32 ((f0.size : Int) - s.file.offset) else f0.volume.bytes_per_cluster) -
                    s.file.offset % f0.volume.bytes_per_cluster) ≤ f0.size
              split
              · intro _
                unfold to_uint32
                omega
              · rename_i hidx
                intro _
                have := b2 hidx
                omega
          · cases hr

/-- One pass through the loop body of `file_read_internal` keeps the
invariant. -/
theorem file_read_step_window_ok (f0 : file_t) (hB : 0 < f0.volume.bytes_per_cluster)
    (hB32 : f0.volume.bytes_per_cluster < 4294967296) (hS : f0.size < 4294967296) (hfits : chain_fits f0)
    (s s1 : read_state) (h : window_ok f0 s.file)
    (hr : file_read_step s = .next s1 ∨ file_read_step s = .brk s1 ∨ ∃ e, file_read_step s = .error s1 e) :
    window_ok f0 s1.file := by
  unfold file_read_step at hr
  simp only [] at hr
  split at hr
  · split at hr
    · rcases hr with hr | hr | ⟨e, hr⟩ <;> cases hr
    · rename_i s2 hcopy
      rcases hr with hr | hr | ⟨e, hr⟩
      · simp only [read_step.next.injEq] at hr
        subst hr
        exact (copy_from_window_ok f0 hS s s2 _ h hcopy).1
      · cases hr
      · cases hr
  · split at hr
    · rcases hr with hr | hr | ⟨e, hr⟩ <;> cases hr
    · rename_i s2 hcopy
      obtain ⟨hok, hle⟩ := window_exhausted f0 hB32 hS s s2 h hcopy
      split at hr
      · rcases hr with hr | hr | ⟨e, hr⟩
        · cases hr
        · simp only [read_step.brk.injEq] at hr
          subst hr
          exact hok
        · cases hr
      · rename_i hne
        have ho : s2.file.offset < s2.file.size := by omega
        rcases hr with hr | hr | ⟨e, hr⟩
        · exact refill_window_window_ok f0 hB hS hfits s2 s1 hok ho (Or.inl hr)
        · exact absurd hr (refill_window_not_brk _ _)
        · exact refill_window_window_ok f0 hB hS hfits s2 s1 hok ho (Or.inr ⟨e, hr⟩)

theorem file_read_loop_window_ok (f0 : file_t) (hB : 0 < f0.volume.bytes_per_cluster)
    (hB32 : f0.volume.bytes_per_cluster < 4294967296) (hS : f0.size < 4294967296) (hfits : chain_fits f0)
    (T : Nat) :
    ∀ fuel s r, file_read_loop T fuel s = some (.returned r) → window_ok f0 s.file → window_ok f0 r.file := by
  intro fuel
  induction fuel with
  | zero =>
    intro s r h hinv
    by_cases h0 : s.remaining = 0
    · rw [file_read_loop_done T 0 s h0] at h
      simp only [Option.some.injEq, outcome.returned.injEq] at h
      subst h
      exact hinv
    · rw [file_read_loop_no_fuel T s h0] at h
      cases h
  | succ n ih =>
    intro s r h hinv
    by_cases h0 : s.remaining = 0
    · rw [file_read_loop_done T _ s h0] at h
      simp only [Option.some.injEq, outcome.returned.injEq] at h
      subst h
      exact hinv
    · rw [file_read_loop_step T n s h0] at h
      cases hstep : file_read_step s with
      | next s1 =>
        rw [hstep] at h
        exact ih s1 r h (file_read_step_window_ok f0 hB hB32 hS hfits s s1 hinv (Or.inl hstep))
      | brk s1 =>
        rw [hstep] at h
        simp only [Option.some.injEq, outcome.returned.injEq] at h
        subst h
        exact file_read_step_window_ok f0 hB hB32 hS hfits s s1 hinv (Or.inr (Or.inl hstep))
      | error s1 e =>
        rw [hstep] at h
        simp only [Option.some.injEq, outcome.returned.injEq] at h
        subst h
        exact file_read_step_window_ok f0 hB hB32 hS hfits s s1 hinv (Or.inr (Or.inr ⟨e, hstep⟩))
      | undefined =>
        rw [hstep] at h
        cases h

theorem file_read_window_ok (f0 : file_t) (hB : 0 < f0.volume.bytes_per_cluster)
    (hB32 : f0.volume.bytes_per_cluster < 4294967296) (hS : f0.size < 4294967296) (hfits : chain_fits f0)
    (fuel size nmemb : Nat) (f : file_t) (r : read_ret) (h : window_ok f0 f)
    (hr : file_read fuel size nmemb f = some (.returned r)) : window_ok f0 r.file := by
  unfold file_read at hr
  simp only [] at hr
  split at hr
  · simp only [Option.some.injEq, outcome.returned.injEq] at hr
    subst hr
    exact h
  · split at hr
    · cases hr
    · cases hr
    · rename_i r0 hint
      have hr0 : window_ok f0 r0.file := by
        unfold file_read_internal at hint
        split at hint
        · simp only [Option.some.injEq, outcome.returned.injEq] at hint
          subst hint
          exact h
        · exact file_read_loop_window_ok f0 hB hB32 hS hfits _ fuel _ r0 hint h
      split at hr
      · simp only [Option.some.injEq, outcome.returned.injEq] at hr
        subst hr
        exact hr0
      · simp only [Option.some.injEq, outcome.returned.injEq] at hr
        subst hr
        exact hr0

/-- Every state of a handle that `file_seek` and `file_read` calls reach
from a freshly opened handle satisfies the invariant. -/
theorem reachable_window_ok (f0 f : file_t) (hfresh : freshly_opened f0)
    (hbuf : f0.read_buf.length = f0.volume.bytes_per_cluster) (hB : 0 < f0.volume.bytes_per_cluster)
    (hB32 : f0.volume.bytes_per_cluster < 4294967296) (hS : f0.size < 4294967296) (hfits : chain_fits f0)
    (h : reachable f0 f) : window_ok f0 f := by
  induction h with
  | start => exact window_ok_fresh f0 hfresh hbuf
  | seek f offset whence _ ih => exact file_seek_window_ok f0 f hS ih offset whence
  | read f fuel size nmemb r _ hread ih => exact file_read_window_ok f0 hB hB32 hS hfits fuel size nmemb f r ih hread

theorem loop_state_window_ok (f0 : file_t) (hB : 0 < f0.volume.bytes_per_cluster)
    (hB32 : f0.volume.bytes_per_cluster < 4294967296) (hS : f0.size < 4294967296) (hfits : chain_fits f0)
    (f : file_t) (to_read : Nat) (s : read_state) (h : window_ok f0 f) (hs : loop_state f to_read s) :
    window_ok f0 s.file := by
  induction hs with
  | start _ => exact h
  | next s s1 _ _ hstep ih => exact file_read_step_window_ok f0 hB hB32 hS hfits s s1 ih (Or.inl hstep)

/-- The state `refill_state s` is the one in which the loop body at `s`
runs the refill. -/
theorem refill_state_step (s s1 : read_state) (hr : refill_state s = some s1) :
    file_read_step s = refill_window s1 ∧ s1.file.offset ≠ s1.file.size ∧
    (if to_uint64 ((s.file.read_buf_end : Int) - s.file.read_buf_cur) > 0 then
        copy_from_window s (to_uint64 ((s.file.read_buf_end : Int) - s.file.read_buf_cur))
      else some s) = some s1 := by
  unfold refill_state at hr
  simp only [] at hr
  split at hr
  · cases hr
  · rename_i hgt
    split at hr
    · cases hr
    · rename_i s2 hcopy
      split at hr
      · cases hr
      · rename_i hne
        simp only [Option.some.injEq] at hr
        subst hr
        refine ⟨?_, hne, hcopy⟩
        unfold file_read_step
        simp only []
        rw [if_neg hgt]
        simp only [hcopy]
        rw [if_neg hne]

/-- C23: for a handle as `file_open` leaves it whose chain has exactly
`max(1, ceil(size / bytes_per_cluster))` clusters, in every state that
`file_seek` and `file_read` calls reach, at every pass of the loop of
`file_read_internal` that runs the refill, the offset is below the size and
the chain index `offset / bytes_per_cluster` is below the chain length, so
the lookup `clusters[current_cluster_idx]` is inside the chain. -/
theorem refill_inside_chain (f0 f : file_t) (to_read : Nat) (s s1 : read_state)
    (hfresh : freshly_opened f0) (hbuf : f0.read_buf.length = f0.volume.bytes_per_cluster)
    (hB : 0 < f0.volume.bytes_per_cluster) (hB32 : f0.volume.bytes_per_cluster < 4294967296)
    (hS : f0.size < 4294967296) (hfits : chain_fits f0)
    (hreach : reachable f0 f) (hs : loop_state f to_read s) (hr : refill_state s = some s1) :
    file_read_step s = refill_window s1 ∧
    s1.file.offset < s1.file.size ∧
    s1.file.offset / s1.file.volume.bytes_per_cluster < s1.file.chain.clusters.length ∧
    ∃ c, s1.file.chain.clusters[s1.file.offset / s1.file.volume.bytes_per_cluster]? = some c := by
  have hf := reachable_window_ok f0 f hfresh hbuf hB hB32 hS hfits hreach
  have hinv := loop_state_window_ok f0 hB hB32 hS hfits f to_read s hf hs
  obtain ⟨hstep, hne, hcopy⟩ := refill_state_step s s1 hr
  obtain ⟨hok, hle⟩ := window_exhausted f0 hB32 hS s s1 hinv hcopy
  have ho : s1.file.offset < s1.file.size := by omega
  have hidx : s1.file.offset / s1.file.volume.bytes_per_cluster < s1.file.chain.clusters.length := by
    have := (chain_index_bounds s1.file.size s1.file.volume.bytes_per_cluster s1.file.offset
      (by rw [hok.volume]; exact hB) ho).1
    rw [hok.chain, hfits.2, ← hok.size, ← hok.volume]
    exact this
  refine ⟨hstep, ho, hidx, ?_⟩
  exact ⟨_, List.getElem?_eq_getElem hidx⟩

set_option maxRecDepth 100000 in
/-- Witness of C23: on the 8-byte file `README.TXT`, after
`file_seek(stream, 4, SEEK_SET)` the first pass of the loop of a read of 4
bytes runs the refill at the offset 4 < 8 with the chain index 0 < 1. -/
theorem refill_inside_chain_witness :
    chain_fits (example_file 8 [2]) ∧
    refill_state ⟨(file_seek (example_file 8 [2]) 4 SEEK_SET).file, [], 4, []⟩ =
      some ⟨(file_seek (example_file 8 [2]) 4 SEEK_SET).file, [], 4, []⟩ ∧
    (file_seek (example_file 8 [2]) 4 SEEK_SET).file.offset = 4 ∧
    (file_read_step ⟨(file_seek (example_file 8 [2]) 4 SEEK_SET).file, [], 4, []⟩ =
        refill_window ⟨(file_seek (example_file 8 [2]) 4 SEEK_SET).file, [], 4, []⟩ ∧
      (file_seek (example_file 8 [2]) 4 SEEK_SET).file.offset < (file_seek (example_file 8 [2]) 4 SEEK_SET).file.size ∧
      (file_seek (example_file 8 [2]) 4 SEEK_SET).file.offset /
          (file_seek (example_file 8 [2]) 4 SEEK_SET).file.volume.bytes_per_cluster <
        (file_seek (example_file 8 [2]) 4 SEEK_SET).file.chain.clusters.length ∧
      ∃ c, (file_seek (example_file 8 [2]) 4 SEEK_SET).file.chain.clusters[
        (file_seek (example_file 8 [2]) 4 SEEK_SET).file.offset /
          (file_seek (example_file 8 [2]) 4 SEEK_SET).file.volume.bytes_per_cluster]? = some c) :=
  ⟨⟨rfl, by decide⟩, rfl, rfl,
    refill_inside_chain (example_file 8 [2]) (file_seek (example_file 8 [2]) 4 SEEK_SET).file 4
      ⟨(file_seek (example_file 8 [2]) 4 SEEK_SET).file, [], 4, []⟩
      ⟨(file_seek (example_file 8 [2]) 4 SEEK_SET).file, [], 4, []⟩
      ⟨rfl, rfl, rfl⟩ (by decide) (by decide) (by decide) (by decide) ⟨rfl, by decide⟩
      (reachable.seek _ 4 SEEK_SET reachable.start) (loop_state.start (by decide)) rfl⟩

/-! ## `file_open` on a matching slot whose chain does not end -/

set_option maxRecDepth 100000 in
/-- C16 (what the code does): on the small volume with `FAT[2] = 2`, which
`fat_open` accepts and whose root region can be read, the first scanned slot
whose formatted name equals `readme.txt` under case folding is slot 0,
`README  TXT`, a regular file (attributes 0x20, neither `DIRECTORY` nor
`VOLUME_ID`) with the size field 8 and the start cluster 2.  The lookup is
the one the claim describes, but no handle comes back: whatever the fuel,
`file_open` is still running and has returned neither a handle nor an error.
On the same image without the cycle the same call returns the handle of
size 8 with offset 0 and the empty window `cur = end = bytes_per_cluster`. -/
theorem file_open_returns_no_handle_on_cycle :
    fat_open false disk_cyclic_fat 0 =
      .returned (.ok (example_volume_with disk_cyclic_fat [0xFFF8, 0xFFFF, 2, 4, 5, 0xFFFF])) ∧
    root_readable (example_volume_with disk_cyclic_fat [0xFFF8, 0xFFFF, 2, 4, 5, 0xFFFF]) ∧
    scanned_slots (example_volume_with disk_cyclic_fat [0xFFF8, 0xFFFF, 2, 4, 5, 0xFFFF]) = [0, 1, 2] ∧
    root_lookup false (example_volume_with disk_cyclic_fat [0xFFF8, 0xFFFF, 2, 4, 5, 0xFFFF]) name_readme =
      some 0 ∧
    (root_entry false (example_volume_with disk_cyclic_fat [0xFFF8, 0xFFFF, 2, 4, 5, 0xFFFF]) 0).filename =
      [82, 69, 65, 68, 77, 69, 32, 32, 84, 88, 84] ∧
    (root_entry false (example_volume_with disk_cyclic_fat [0xFFF8, 0xFFFF, 2, 4, 5, 0xFFFF])
      0).file_attributes = 0x20 ∧
    (root_entry false (example_volume_with disk_cyclic_fat [0xFFF8, 0xFFFF, 2, 4, 5, 0xFFFF]) 0).size = 8 ∧
    (∀ fuel, file_open false fuel (example_volume_with disk_cyclic_fat [0xFFF8, 0xFFFF, 2, 4, 5, 0xFFFF])
      name_readme = none) ∧
    (∀ fuel r, file_open false fuel (example_volume_with disk_cyclic_fat [0xFFF8, 0xFFFF, 2, 4, 5, 0xFFFF])
      name_readme ≠ some r) ∧
    file_open false 4 example_volume name_readme = some (.returned (.ok (example_file 8 [2]))) ∧
    (example_file 8 [2]).size = 8 ∧ (example_file 8 [2]).offset = 0 ∧
    (example_file 8 [2]).read_buf_cur = example_volume.bytes_per_cluster ∧
    (example_file 8 [2]).read_buf_end = example_volume.bytes_per_cluster := by
  have hopen : ∀ fuel, file_open false fuel
      (example_volume_with disk_cyclic_fat [0xFFF8, 0xFFFF, 2, 4, 5, 0xFFFF]) name_readme = none := by
    intro fuel
    rw [file_open_eq_spec false fuel _ name_readme ⟨rfl, by decide, by decide, by decide, by decide⟩]
    unfold file_open_spec
    rw [show root_lookup false (example_volume_with disk_cyclic_fat [0xFFF8, 0xFFFF, 2, 4, 5, 0xFFFF])
      name_readme = some 0 from rfl]
    simp only []
    unfold open_slot
    rw [if_neg (by decide), read_chain_cycle _ _ (by rfl) (by decide) fuel]
  refine ⟨disk_cyclic_fat_opens, ⟨rfl, by decide, by decide, by decide, by decide⟩, by decide, rfl, rfl, rfl, rfl,
    hopen, ?_, example_readme_opens, rfl, rfl, rfl, rfl⟩
  intro fuel r h
  rw [hopen fuel] at h
  cases h

/-! ## A file in the last cluster of a volume that reaches past 2 GiB -/

theorem disk_two_gib_fat_bytes (i : Nat) (h : i < 131072) :
    disk_two_gib.file (147456 + i) = two_gib_fat i ∧ disk_two_gib.file (278528 + i) = two_gib_fat i := by
  constructor
  · unfold disk_two_gib
    simp only []
    rw [if_neg (by omega), if_neg (by omega), if_neg (by omega), if_neg (by omega), if_pos (by omega),
      Nat.add_sub_cancel_left]
  · unfold disk_two_gib
    simp only []
    rw [if_neg (by omega), if_neg (by omega), if_neg (by omega), if_neg (by omega), if_neg (by omega),
      if_pos (by omega), Nat.add_sub_cancel_left]

set_option maxRecDepth 100000 in
theorem disk_two_gib_boot_sector :
    boot_sector_of_bytes false (image_bytes disk_two_gib 0 512) =
      { bytes_per_sector := 512, sectors_per_cluster := 64, reserved_sectors_count := 288, number_of_fats := 2,
        root_entries_count := 512, total_sectors_count := 0, fat_size := 256,
        total_sectors_count32 := 4194368, signature := 0xAA55 } := by
  decide

theorem disk_two_gib_opens : fat_open false disk_two_gib 0 = .returned (.ok two_gib_volume) := by
  have hboot : disk_read disk_two_gib (to_int32 ((0 : Nat) : Int)) 1 = .ok (image_bytes disk_two_gib 0 512) := by
    have h := disk_read_ok disk_two_gib 0 1 (by show 0 + 1 ≤ 4194368; omega) (by omega) (by omega)
    rw [to_int32_of_lt 0 (by omega)]
    exact h
  have hfats : disk_read disk_two_gib ((288 : Nat) : Int) ((256 * 2 : Nat) : Int) =
      .ok (image_bytes disk_two_gib 147456 262144) :=
    disk_read_ok disk_two_gib 288 (256 * 2) (by show 288 + 256 * 2 ≤ 4194368; omega) (by omega) (by omega)
  have hmirror : fat_mirror_check (image_bytes disk_two_gib 147456 262144) (256 * SECTOR_SIZE) (2 - 1) 0 =
      .returned (.ok ()) := by
    apply fat_mirror_check_two
    · rw [image_bytes_length]; rfl
    · simp only [SECTOR_SIZE]; omega
    · rw [image_bytes_slice _ _ _ _ _ (by simp only [SECTOR_SIZE]; omega),
        image_bytes_slice _ _ _ _ _ (by simp only [SECTOR_SIZE]; omega)]
      apply image_bytes_congr
      intro i hi
      simp only [SECTOR_SIZE] at hi
      have e1 : 147456 + 0 + i = 147456 + i := by omega
      have e2 : 147456 + 256 * 512 + i = 278528 + i := by omega
      simp only [SECTOR_SIZE]
      rw [e1, e2, (disk_two_gib_fat_bytes i (by omega)).1, (disk_two_gib_fat_bytes i (by omega)).2]
  have hopen : fat_open false disk_two_gib 0 = fat_open_fields false disk_two_gib
      (boot_sector_of_bytes false (image_bytes disk_two_gib 0 512)) := by
    unfold fat_open
    simp only [hboot]
  rw [hopen]
  have e := disk_two_gib_boot_sector
  generalize boot_sector_of_bytes false (image_bytes disk_two_gib 0 512) = bs at e ⊢
  have e1 : bs.reserved_sectors_count = 288 := by rw [e]
  have e2 : bs.number_of_fats = 2 := by rw [e]
  have e3 : bs.fat_size = 256 := by rw [e]
  have e4 : bs.root_entries_count = 512 := by rw [e]
  have e5 : bs.total_sectors_count = 0 := by rw [e]
  have e6 : bs.total_sectors_count32 = 4194368 := by rw [e]
  have e7 : bs.sectors_per_cluster = 64 := by rw [e]
  have e8 : bs.bytes_per_sector = 512 := by rw [e]
  rw [fat_open_fields_valid _ _ _ (by rw [e]; decide)]
  unfold fat_open_clusters
  dsimp only
  have hfsc : to_uint16 ((bs.number_of_fats * bs.fat_size : Nat) : Int) = 512 := by
    rw [e2, e3]; decide
  have hroot : to_uint32 (((bs.root_entries_count * 32 + (bs.bytes_per_sector - 1)) / SECTOR_SIZE : Nat) : Int)
      = 32 := by
    rw [e4, e8]; decide
  rw [hfsc, hroot, e1, e5, e6, e7, e4]
  rw [if_neg (by decide)]
  rw [fat_open_tables_accepts _ _ _ _ (by rw [e1, e2, e3]; exact hfats) (by rw [e2, e3]; exact hmirror)]
  rw [e3]
  have h1 : to_uint32 ((4194368 : Int) - to_uint32 ((288 + 512 + 32 : Nat) : Int)) = 4193536 := by decide
  have h2 : to_uint16 ((256 * SECTOR_SIZE / 2 : Nat) : Int) = 0 := by decide
  have h3 : to_uint32 ((288 + 512 + 32 : Nat) : Int) = 832 := by decide
  have h4 : 256 * SECTOR_SIZE = 131072 := by decide
  have h5 : 64 * SECTOR_SIZE = 32768 := by decide
  simp only [if_true, h1, h2, h3, h4, h5]
  rfl

theorem two_gib_volume_root_readable : root_readable two_gib_volume :=
  ⟨rfl, by decide, by decide, by decide, by decide⟩

set_option maxRecDepth 100000 in
theorem two_gib_root_lookup : root_lookup false two_gib_volume name_readme = some 0 := by
  rfl

set_option maxRecDepth 100000 in
theorem two_gib_root_entry :
    (root_entry false two_gib_volume 0).filename = [82, 69, 65, 68, 77, 69, 32, 32, 84, 88, 84] ∧
    (root_entry false two_gib_volume 0).file_attributes = 0x20 ∧
    (root_entry false two_gib_volume 0).low_order_address_of_first_cluster = 65525 ∧
    (root_entry false two_gib_volume 0).size = 8 :=
  ⟨rfl, rfl, rfl, rfl⟩

theorem two_gib_fat_entry : two_gib_volume.fat[65525]? = some 0xFFFF := by
  have hslice := image_bytes_slice disk_two_gib 147456 262144 0 131072 (by omega)
  rw [List.drop_zero, Nat.add_zero] at hslice
  show (words_of_bytes false ((image_bytes disk_two_gib 147456 262144).take 131072))[65525]? = some 0xFFFF
  rw [hslice, words_of_bytes_get _ 65525 (by rw [image_bytes_length]; omega),
    image_bytes_getD _ _ _ _ (by omega), image_bytes_getD _ _ _ _ (by omega),
    (disk_two_gib_fat_bytes (2 * 65525) (by omega)).1, (disk_two_gib_fat_bytes (2 * 65525 + 1) (by omega)).1]
  decide

theorem two_gib_read_chain (fuel : Nat) :
    read_chain fuel two_gib_volume (root_entry false two_gib_volume 0) = some (.returned ⟨[65525], 1⟩) := by
  have hc := two_gib_root_entry.2.2.1
  have h := read_chain_returns fuel two_gib_volume (root_entry false two_gib_volume 0) []
  rw [hc] at h
  exact h trivial ⟨0xFFFF, two_gib_fat_entry, by decide⟩ (Nat.zero_le fuel) (by decide)

theorem two_gib_file_opens (fuel : Nat) :
    file_open false fuel two_gib_volume name_readme = some (.returned (.ok two_gib_file)) := by
  rw [file_open_eq_spec false fuel _ name_readme two_gib_volume_root_readable]
  unfold file_open_spec
  rw [two_gib_root_lookup]
  simp only []
  unfold open_slot
  rw [if_neg (by rw [two_gib_root_entry.2.1]; decide), two_gib_read_chain fuel]
  simp only [two_gib_root_entry.2.2.2]
  rfl

set_option maxRecDepth 100000 in
theorem two_gib_disk_read :
    disk_read disk_two_gib (to_int32 ((4194304 : Nat) : Int)) ((64 : Nat) : Int) = .error .EINVAL := by
  rfl

/-- The refill fails with `ERANGE` whenever `disk_read` fails on the
cluster that holds the offset. -/
theorem refill_window_disk_error (s : read_state) (c sector : Nat) (e : errno)
    (hbpc : s.file.volume.bytes_per_cluster ≠ 0)
    (hidx : s.file.chain.clusters[s.file.offset / s.file.volume.bytes_per_cluster]? = some c)
    (hsector : to_uint32 (((c : Int) - 2) * s.file.volume.sectors_per_cluster +
      s.file.volume.first_data_sector) = sector)
    (hin : ¬ (sector ≥ s.file.volume.total_sectors_count ∨ sector < s.file.volume.first_data_sector))
    (hread : disk_read s.file.volume.disk (to_int32 sector) s.file.volume.sectors_per_cluster = .error e) :
    refill_window s = .error s .ERANGE := by
  unfold refill_window
  simp only []
  rw [if_neg hbpc, hidx]
  simp only []
  rw [hsector, if_neg hin, hread]

theorem two_gib_refill (dst reads : List Nat) (n : Nat) :
    refill_window ⟨two_gib_file, dst, n, reads⟩ = .error ⟨two_gib_file, dst, n, reads⟩ .ERANGE := by
  have hbpc : two_gib_file.volume.bytes_per_cluster ≠ 0 := by decide
  have hidx : two_gib_file.chain.clusters[two_gib_file.offset / two_gib_file.volume.bytes_per_cluster]? =
      some 65525 := rfl
  have hsector : to_uint32 ((((65525 : Nat) : Int) - 2) * two_gib_file.volume.sectors_per_cluster +
      two_gib_file.volume.first_data_sector) = 4194304 := by decide
  have hin : ¬ (4194304 ≥ two_gib_file.volume.total_sectors_count ∨
      4194304 < two_gib_file.volume.first_data_sector) := by decide
  exact refill_window_disk_error ⟨two_gib_file, dst, n, reads⟩ 65525 4194304 .EINVAL hbpc hidx hsector hin
    two_gib_disk_read

theorem two_gib_step (dst reads : List Nat) (n : Nat) (hn : 0 < n) :
    file_read_step ⟨two_gib_file, dst, n, reads⟩ = .error ⟨two_gib_file, dst, n, reads⟩ .ERANGE := by
  unfold file_read_step
  simp only []
  have havail : to_uint64 ((two_gib_file.read_buf_end : Int) - two_gib_file.read_buf_cur) = 0 := by
    show to_uint64 (((32768 : Nat) : Int) - ((32768 : Nat) : Int)) = 0
    simp [to_uint64]
  rw [havail, if_neg (by omega), if_neg (by omega)]
  simp only []
  rw [if_neg (by decide), two_gib_refill]

theorem two_gib_file_read (fuel n : Nat) (hn : 0 < n) (hlt : n < 18446744073709551616) :
    file_read (fuel + 1) 1 n two_gib_file =
      some (.returned ⟨two_gib_file, [], SIZE_MAX, some .ERANGE, []⟩) := by
  unfold file_read
  simp only [Nat.mul_one, to_uint64_of_lt n hlt]
  rw [if_neg (by omega)]
  unfold file_read_internal
  rw [if_neg (by decide), file_read_loop_step _ _ _ (by show n ≠ 0; omega), two_gib_step [] [] n hn]
  simp only [if_true]

set_option maxRecDepth 100000 in
theorem two_gib_file_bytes : file_bytes two_gib_file 0 8 = [187, 188, 189, 190, 191, 192, 193, 194] := by
  rfl

/-- C3 (what the code does): `fat_open` accepts the FAT16 volume
`disk_two_gib` of 65524 clusters of 32 KiB, and `file_open` returns the
handle `two_gib_file` for its file `README.TXT`: freshly opened, 8 bytes, the
chain `[65525]` of `ceil(8 / 32768) = 1` cluster, which lies inside the data
region and on the device.  The cluster starts at sector 4194304, so
`disk_read` computes the byte position `4194304 * 512 = 2^31` as an `int`,
which wraps to a negative value, and fails.  Every `file_read` of one or
more bytes from this handle therefore returns `(size_t) -1` with `ERANGE`,
delivers no byte and leaves the offset at 0, whether the range is read in
one part or in several; the bytes 0 .. 7 of the file are not delivered. -/
theorem file_read_fails_past_two_gib :
    fat_open false disk_two_gib 0 = .returned (.ok two_gib_volume) ∧
    two_gib_volume.data_sectors_count / two_gib_volume.sectors_per_cluster = 65524 ∧
    (∀ fuel, file_open false fuel two_gib_volume name_readme = some (.returned (.ok two_gib_file))) ∧
    freshly_opened two_gib_file ∧
    0 < two_gib_file.volume.sectors_per_cluster ∧
    two_gib_file.volume.sectors_per_cluster ≤ MAX_SECTORS_PER_CLUSTER ∧
    two_gib_file.volume.bytes_per_cluster = two_gib_file.volume.sectors_per_cluster * SECTOR_SIZE ∧
    two_gib_file.volume.total_sectors_count ≤ two_gib_file.volume.disk.sectors_count ∧
    two_gib_file.size = 8 ∧
    two_gib_file.chain.clusters = [65525] ∧
    two_gib_file.chain.size = two_gib_file.chain.clusters.length ∧
    two_gib_file.chain.clusters.length =
      (two_gib_file.size + two_gib_file.volume.bytes_per_cluster - 1) / two_gib_file.volume.bytes_per_cluster ∧
    (2 ≤ 65525 ∧ 65525 < two_gib_volume.data_sectors_count / two_gib_volume.sectors_per_cluster + 2 ∧
      (65525 - 2) * two_gib_file.volume.sectors_per_cluster + two_gib_file.volume.first_data_sector +
        two_gib_file.volume.sectors_per_cluster ≤ two_gib_file.volume.total_sectors_count) ∧
    two_gib_file.read_buf.length = two_gib_file.volume.bytes_per_cluster ∧
    chain_sector two_gib_file 0 = 4194304 ∧
    to_int32 (((chain_sector two_gib_file 0 : Nat) : Int) * SECTOR_SIZE) = -2147483648 ∧
    file_bytes two_gib_file 0 8 = [187, 188, 189, 190, 191, 192, 193, 194] ∧
    (∀ fuel n, 0 < n → n ≤ 8 →
      file_read (fuel + 1) 1 n two_gib_file =
        some (.returned ⟨two_gib_file, [], SIZE_MAX, some .ERANGE, []⟩)) ∧
    (∀ fuel n r, 0 < n → n ≤ 8 → file_read fuel 1 n two_gib_file = some (.returned r) →
      r.dst ≠ file_bytes two_gib_file 0 n) := by
  have hread : ∀ fuel n, 0 < n → n ≤ 8 →
      file_read (fuel + 1) 1 n two_gib_file =
        some (.returned ⟨two_gib_file, [], SIZE_MAX, some .ERANGE, []⟩) :=
    fun fuel n h0 h8 => two_gib_file_read fuel n h0 (by omega)
  refine ⟨disk_two_gib_opens, by decide, two_gib_file_opens, ⟨rfl, rfl, rfl⟩, by decide, by decide, by decide,
    by decide, rfl, rfl, rfl, by decide, by decide, ?_, by decide, by decide, two_gib_file_bytes, hread, ?_⟩
  · show (List.replicate 32768 0).length = 32768
    exact List.length_replicate 32768 0
  · intro fuel n r h0 h8 h hdst
    have hlen : r.dst.length = n := by rw [hdst, file_bytes_length]
    cases fuel with
    | zero =>
      unfold file_read at h
      simp only [Nat.mul_one, to_uint64_of_lt n (by omega)] at h
      rw [if_neg (by omega)] at h
      unfold file_read_internal at h
      rw [if_neg (by decide), file_read_loop_no_fuel _ _ (by show n ≠ 0; omega)] at h
      simp only [] at h
      cases h
    | succ fuel =>
      rw [hread fuel n h0 h8] at h
      simp only [Option.some.injEq, outcome.returned.injEq] at h
      rw [← h] at hlen
      simp only [List.length_nil] at hlen
      omega

end Fat16
